import Mathlib

/-! MultiROM engine (multirom.cpp): a shallow embedding

The definitions follow `multirom.cpp` function by function and keep its names.

Conventions of the embedding
* A C string is the list of its characters before the terminating NUL
  (`CStr`); reading the element at the length of the list gives the terminator.
* A pointer result that the source only tests against NULL, or compares with
  the start of the searched string, is an `Option` holding the suffix the
  pointer designates.
-/

namespace MultiROM

/-! ## C strings -/

/-- Characters of a NUL-terminated string, terminator excluded. -/
abbrev CStr := List Char

/-- The element `s[i]` of a C string; the terminator when `i` is the length. -/
def chr (s : CStr) (i : Nat) : Char := s.getD i (Char.ofNat 0)

/-- The libc `isspace` in the C locale: space, `\t`, `\n`, `\v`, `\f`, `\r`. -/
def isspace (c : Char) : Bool :=
  c == ' ' || c == '\t' || c == '\n' || c == Char.ofNat 11 || c == Char.ofNat 12 || c == '\r'

/-- The libc `strstr`: the suffix of `hay` at the first occurrence of `needle`,
`none` for NULL.  An empty needle is found at the start. -/
def strstr : CStr → CStr → Option CStr
  | [], needle => if needle = [] then some [] else none
  | c :: rest, needle =>
    if needle.isPrefixOf (c :: rest) then some (c :: rest) else strstr rest needle

/-- The inner `while(s[i])` loop of `strstr_wildcard` (lines 786-806).  The first
argument is the rest of `s` from index `i` on, `x` is the index into `find`;
`true` stands for reaching `return ((char*)s)`, `false` for leaving the loop. -/
def strstr_wildcard_inner (find : CStr) : CStr → Nat → Bool
  | [], _ => false
  | c :: rest, x =>
    if chr find x = '?' then
      if chr find (x + 1) ≠ chr rest 0 then
        if chr find (x + 1) = c then
          -- ++x, then ++i and ++x
          if chr find (x + 2) = Char.ofNat 0 then true
          else strstr_wildcard_inner find rest (x + 2)
        else false
      else
        if chr find (x + 1) = Char.ofNat 0 then true
        else strstr_wildcard_inner find rest (x + 1)
    else if chr find x ≠ c then false
    else
      if chr find (x + 1) = Char.ofNat 0 then true
      else strstr_wildcard_inner find rest (x + 1)

/-- The outer `while(*s)` loop of `strstr_wildcard` (lines 782-808). -/
def strstr_wildcard_outer (find : CStr) : CStr → Option CStr
  | [] => none
  | c :: rest =>
    if strstr_wildcard_inner find (c :: rest) 0 then some (c :: rest)
    else strstr_wildcard_outer find rest

/-- The static helper `strstr_wildcard` (lines 775-810). -/
def strstr_wildcard (s find : CStr) : Option CStr :=
  if s = [] ∨ find = [] then none else strstr_wildcard_outer find s

/-! ## The updater-script sanitizer -/

/-- The method `MultiROM::skipLine` (lines 812-839); `m_boot_dev` is the static
member it reads. -/
def skipLine (m_boot_dev line : CStr) : Bool :=
  if (strstr line "mount".toList).isSome && !(strstr line "ui_print".toList).isSome
      && ((strstr line "run_program".toList).isSome ||
          (!(strstr_wildcard line "/system/?bin/?mount".toList).isSome
            && !(strstr line "symlink(".toList).isSome)) then
    true
  else if (strstr line "format".toList).isSome then
    true
  else if (strstr line "boot.img".toList).isSome || (strstr line m_boot_dev).isSome
      || (strstr line "bbootimg".toList).isSome || (strstr line "zImage".toList).isSome then
    false
  else if (strstr line "/dev/block/platform/".toList).isSome then
    true
  else if (strstr line "\"dd\"".toList).isSome && (strstr line "run_program".toList).isSome then
    true
  else
    false

/-- The tokens that `strtok(script_data, "\n")` and the following
`strtok(NULL, "\n")` calls hand out (lines 910 and 928): the maximal runs of
characters other than the newline, in order.  `acc` is the run read so far. -/
def strtok_from : CStr → CStr → List CStr
  | acc, [] => if acc = [] then [] else [acc]
  | acc, c :: rest =>
    if c = '\n' then
      if acc = [] then strtok_from [] rest else acc :: strtok_from [] rest
    else strtok_from (acc ++ [c]) rest

/-- All tokens of a text for the delimiter `"\n"`. -/
def strtok_lines (script_data : CStr) : List CStr := strtok_from [] script_data

/-- What the rewriting loop of `prepareZIP` leaves behind: the text written to
`new_script` and the two flags. -/
structure ZipResult where
  new_script : CStr
  changed : Bool
  format_system : Bool
deriving DecidableEq

/-- One round of the `while(token)` loop (lines 913-927). -/
def prepareZIP_token (m_boot_dev : CStr) (st : ZipResult) (token : CStr) : ZipResult :=
  let p := token.dropWhile isspace
  if p = [] ∨ p.head? = some '#' ∨ skipLine m_boot_dev p = false then
    { st with new_script := st.new_script ++ token ++ ['\n'] }
  else
    { st with
      changed := true
      format_system :=
        if strstr p "format".toList = some p ∧ (strstr p "/system".toList).isSome then true
        else st.format_system }

/-- The rewriting loop of `MultiROM::prepareZIP` (lines 910-929) over the text
`script_data` read from the archive; `changed` starts out `false` (line 850) and
`format_system` is the caller's variable. -/
def prepareZIP (m_boot_dev script_data : CStr) (format_system : Bool) : ZipResult :=
  (strtok_lines script_data).foldl (prepareZIP_token m_boot_dev)
    { new_script := [], changed := false, format_system := format_system }

/-- The updater-script of scenario S1. -/
def scriptS1 : CStr :=
  ("ui_print(\"hello\");\n" ++
   "run_program(\"/sbin/busybox\", \"mount\", \"/system\");\n" ++
   "format(\"ext4\",\"EMMC\",\"/dev/block/bootdevice/by-name/system\",\"0\",\"/system\");\n" ++
   "package_extract_file(\"boot.img\",\"/dev/block/bootdevice/by-name/boot\");\n" ++
   "symlink(\"/system/bin/sh\",\"/system/bin/sh\");\n").toList

/-- The expected output of scenario S1. -/
def expectedS1 : CStr :=
  ("ui_print(\"hello\");\n" ++
   "package_extract_file(\"boot.img\",\"/dev/block/bootdevice/by-name/boot\");\n" ++
   "symlink(\"/system/bin/sh\",\"/system/bin/sh\");\n").toList

/-- Whether the loop of `prepareZIP` writes the token out: after the leading
white space it is empty, a comment, or a line `skipLine` keeps. -/
def keptToken (m_boot_dev token : CStr) : Bool :=
  let p := token.dropWhile isspace
  p.isEmpty || p.head? == some '#' || !skipLine m_boot_dev p

/-- The two rules of `skipLine` that come before the boot-image exemption. -/
def dropsEarly (line : CStr) : Bool :=
  ((strstr line "mount".toList).isSome && !(strstr line "ui_print".toList).isSome
      && ((strstr line "run_program".toList).isSome ||
          (!(strstr_wildcard line "/system/?bin/?mount".toList).isSome
            && !(strstr line "symlink(".toList).isSome)))
  || (strstr line "format".toList).isSome

/-- The two rules of `skipLine` that come after the boot-image exemption. -/
def dropsLate (line : CStr) : Bool :=
  (strstr line "/dev/block/platform/".toList).isSome
  || ((strstr line "\"dd\"".toList).isSome && (strstr line "run_program".toList).isSome)

/-- The boot-image exemption of `skipLine` (lines 826-830). -/
def refersToBoot (m_boot_dev line : CStr) : Bool :=
  (strstr line "boot.img".toList).isSome || (strstr line m_boot_dev).isSome
    || (strstr line "bbootimg".toList).isSome || (strstr line "zImage".toList).isSome

/-- Whether the text contains the given token. -/
def containsTok (line : CStr) (tok : String) : Bool := (strstr line tok.toList).isSome

/-- Whether `strstr_wildcard` finds the pattern `/system/?bin/?mount` in the line. -/
def matchesMountPattern (line : CStr) : Bool :=
  (strstr_wildcard line "/system/?bin/?mount".toList).isSome

/-- Whether a token makes the loop of `prepareZIP` set `format_system`
(line 924): after the leading white space it begins with `format`, and it
contains `/system`. -/
def setsFormatSystem (token : CStr) : Bool :=
  "format".toList.isPrefixOf (token.dropWhile isspace)
    && (strstr (token.dropWhile isspace) "/system".toList).isSome

/-- A `symlink(` line that names `/system/bin/mount` and a `format` tool. -/
def lineC2 : CStr :=
  "symlink(\"/system/bin/toolbox\", \"/system/bin/mount\", \"/system/bin/newfs_format\");".toList

/-- A plain `mount(...)` call of an updater-script. -/
def lineMount : CStr := "mount(\"ext4\", \"EMMC\", \"/dev/block/mmcblk0p1\", \"/system\");".toList

/-- A boot block device path. -/
def bootDev : CStr := "/dev/block/mmcblk0p2".toList

/-- A `format(...)` call aimed at the boot block device. -/
def lineC3 : CStr := "format(\"ext4\", \"EMMC\", \"/dev/block/mmcblk0p2\");".toList

/-- A raw write of a boot image through `dd`. -/
def lineDD : CStr :=
  "run_program(\"/sbin/busybox\", \"dd\", \"if=/tmp/boot.img\", \"of=/dev/block/platform/msm_sdcc.1/by-name/boot\");".toList

/-- A script whose only line wraps the `format` call of `/system` in `assert`. -/
def scriptC4 : CStr :=
  "assert(format(\"ext4\", \"EMMC\", \"/dev/block/mmcblk0p1\", \"0\", \"/system\"));\n".toList

/-! ## The filesystem

Entries are kept by path name.  A path is looked up after its repeated and
trailing slashes are removed; symbolic links are entries of their own and are
not traversed.  A shell command run through `system` is modelled by what it does
to the entries, including the cases in which it does nothing; its exit status is
used only where the source uses it. -/

/-- What a path names. -/
inductive Node
  | file (data : CStr)
  | symlink (target : CStr)
  | blockdev (data : CStr)
  | dir
deriving DecidableEq

/-- A filesystem: the entries by path; the first entry of a path is in force. -/
abbrev FS := List (CStr × Node)

/-- Collapses every run of slashes into one slash. -/
def squeeze : CStr → CStr
  | [] => []
  | c :: rest => if c = '/' ∧ rest.head? = some '/' then squeeze rest else c :: squeeze rest

/-- The name under which a path is kept: slashes collapsed, no trailing slash
(the root stays `/`). -/
def normpath (p : CStr) : CStr :=
  let q := squeeze p
  if q.getLast? = some '/' ∧ 1 < q.length then q.dropLast else q

/-- The entry stored under a name. -/
def find : FS → CStr → Option Node
  | [], _ => none
  | (k, n) :: rest, q => if k = q then some n else find rest q

/-- The call `lstat(path)`: the entry the path names, `none` when it fails. -/
def lstat (fs : FS) (path : CStr) : Option Node := find fs (normpath path)

/-- The test `access(path, F_OK) >= 0` (also `stat(path) >= 0`). -/
def access (fs : FS) (path : CStr) : Bool := (lstat fs path).isSome

/-- Puts an entry under a path, replacing what was there. -/
def write (fs : FS) (path : CStr) (n : Node) : FS :=
  (normpath path, n) :: fs.filter (fun e => !(e.1 == normpath path))

/-- Removes the entry of a path. -/
def erase (fs : FS) (path : CStr) : FS := fs.filter (fun e => !(e.1 == normpath path))

/-- Whether the name `q` is the normalised name `d` or lies below it. -/
def under (d q : CStr) : Bool := q == d || (d ++ ['/']).isPrefixOf q

/-- The directory part of a path: what stands before its last slash. -/
def dirname (p : CStr) : CStr := ((p.reverse.dropWhile (fun c => !(c == '/'))).drop 1).reverse

/-- The last component of a path. -/
def basename (p : CStr) : CStr := (p.reverse.takeWhile (fun c => !(c == '/'))).reverse

/-- Whether the directory that is to hold `path` exists (the root and the
working directory always do). -/
def parentIsDir (fs : FS) (path : CStr) : Bool :=
  dirname (normpath path) = [] || lstat fs (dirname (normpath path)) = some Node.dir

/-- The call `rename(a, b)`: the entry `a`, with everything below it when it is
a directory, moves to `b` and replaces what was there. -/
def rename (fs : FS) (a b : CStr) : FS :=
  match lstat fs a with
  | none => fs
  | some Node.dir =>
    (fs.filter (fun e => under (normpath a) e.1)).map
        (fun e => (normpath b ++ e.1.drop (normpath a).length, e.2))
      ++ fs.filter (fun e => !under (normpath a) e.1 && !under (normpath b) e.1)
  | some n => write (erase fs a) b n

/-- The command `mv "a" "b"`: nothing when `a` is missing, into `b` when `b` is
a directory, a rename otherwise. -/
def sh_mv (fs : FS) (a b : CStr) : FS :=
  match lstat fs a with
  | none => fs
  | some _ =>
    if lstat fs b = some Node.dir then rename fs a (b ++ ['/'] ++ basename (normpath a))
    else rename fs a b

/-- The command `rm "path"`: removes a file, link or device node. -/
def sh_rm (fs : FS) (path : CStr) : FS :=
  match lstat fs path with
  | none => fs
  | some Node.dir => fs
  | some _ => erase fs path

/-- The call `remove(path)`: unlinks a file, link or device node, removes an
empty directory. -/
def remove (fs : FS) (path : CStr) : FS :=
  match lstat fs path with
  | none => fs
  | some Node.dir =>
    if fs.any (fun e => under (normpath path) e.1 && !(e.1 == normpath path) && (find fs e.1).isSome)
    then fs else erase fs path
  | some _ => erase fs path

/-- The command `ln -s "target" "link"`: creates the link when `link` is free,
inside `link` when that is a directory; fails when `link` is taken. -/
def sh_ln_s (fs : FS) (target link : CStr) : FS :=
  match lstat fs link with
  | none => write fs link (Node.symlink target)
  | some Node.dir =>
    if access fs (link ++ ['/'] ++ basename (normpath target)) then fs
    else write fs (link ++ ['/'] ++ basename (normpath target)) (Node.symlink target)
  | some _ => fs

/-- The command `echo 'text' > path`: the path becomes a file holding the text
and a newline; fails on a directory. -/
def sh_echo (fs : FS) (text path : CStr) : FS :=
  match lstat fs path with
  | some Node.dir => fs
  | _ => write fs path (Node.file (text ++ ['\n']))

/-- The call `creat(path, 0644)`: `none` when it fails, which it does when the
directory of a new file is missing or the path is a directory; an existing file
is truncated. -/
def creat (fs : FS) (path : CStr) : Option FS :=
  match lstat fs path with
  | none => if parentIsDir fs path then some (write fs path (Node.file [])) else none
  | some (Node.file _) => some (write fs path (Node.file []))
  | some Node.dir => none
  | some _ => some fs

/-- The data that reading an entry yields: that of a file or device node. -/
def readable : Option Node → Option CStr
  | some (Node.file d) => some d
  | some (Node.blockdev d) => some d
  | _ => none

/-- The command `dd if="src" of="dst"`: the data of a file or device node is
copied into `dst`; nothing when `src` cannot be read or `dst` is a directory. -/
def sh_dd (fs : FS) (src dst : CStr) : FS :=
  match readable (lstat fs src) with
  | none => fs
  | some d =>
    match lstat fs dst with
    | some Node.dir => fs
    | some (Node.blockdev _) => write fs dst (Node.blockdev d)
    | _ => write fs dst (Node.file d)

/-- The call `mkdir(path, mode)`: creates the directory when the path is free
and its parent exists. -/
def mkdir (fs : FS) (path : CStr) : FS :=
  match lstat fs path with
  | none => if parentIsDir fs path then write fs path Node.dir else fs
  | some _ => fs

/-! ## The boot hijack -/

/-- The breadcrumb `/tmp/mrom_fakebootpart`. -/
def breadcrumb : CStr := "/tmp/mrom_fakebootpart".toList

/-- The method `MultiROM::fakeBootPartition` (lines 2143-2170): the result and
the filesystem it leaves. -/
def fakeBootPartition (m_boot_dev fakeImg : CStr) (fs : FS) : Bool × FS :=
  if access fs (m_boot_dev ++ "-orig".toList) then (false, fs)
  else
    let seeded : Option FS :=
      if access fs fakeImg then some fs
      else
        match creat fs fakeImg with
        | none => none
        | some fs1 => some (sh_dd fs1 m_boot_dev fakeImg)
    match seeded with
    | none => (false, fs)
    | some fs1 =>
      let fs2 := sh_echo fs1 m_boot_dev breadcrumb
      let fs3 := sh_mv fs2 m_boot_dev (m_boot_dev ++ "-orig".toList)
      (true, sh_ln_s fs3 fakeImg m_boot_dev)

/-- The method `MultiROM::restoreBootPartition` (lines 2172-2183). -/
def restoreBootPartition (m_boot_dev : CStr) (fs : FS) : FS :=
  if !access fs (m_boot_dev ++ "-orig".toList) then fs
  else
    let fs1 := sh_rm fs m_boot_dev
    let fs2 := sh_mv fs1 (m_boot_dev ++ "-orig".toList) m_boot_dev
    remove fs2 breadcrumb

/-- Modelled from the spec: `TWFunc::read_file` is not among the sources; §4.8
has the breadcrumb contain the boot-device path, so the call yields the text of
the file (`none` for a non-zero result, when the path is no readable file). -/
def read_file (fs : FS) (path : CStr) : Option CStr := readable (lstat fs path)

/-- The loop of line 2191 on the reversed text: it drops white space from the
end; on a text that is or becomes empty it reads `*(dev.end()-1)` before the
start of the string, which is `none`. -/
def trimTrailing_rev : CStr → Option CStr
  | [] => none
  | c :: rest => if isspace c then trimTrailing_rev rest else some (c :: rest)

/-- The loop of lines 2191-2192. -/
def trimTrailing (dev : CStr) : Option CStr := (trimTrailing_rev dev.reverse).map List.reverse

/-- Whether `lstat` succeeded and `S_ISLNK` does not hold of the mode. -/
def existsNotLink : Option Node → Bool
  | none => false
  | some (Node.symlink _) => false
  | some _ => true

/-- The method `MultiROM::failsafeCheckBootPartition` (lines 2185-2204); `none`
when the source reads outside the string in the loop of line 2191. -/
def failsafeCheckBootPartition (fs : FS) : Option FS :=
  if !access fs breadcrumb then some fs
  else
    match read_file fs breadcrumb with
    | none => some fs
    | some text =>
      match trimTrailing text with
      | none => none
      | some dev =>
        if !access fs (dev ++ "-orig".toList) || existsNotLink (lstat fs dev) then some fs
        else
          let fs1 := sh_rm fs dev
          let fs2 := sh_mv fs1 (dev ++ "-orig".toList) dev
          some (remove fs2 breadcrumb)

/-- A recovery filesystem: the boot device node, `/tmp` and one ROM directory. -/
def fsRecovery : FS :=
  [("/dev".toList, Node.dir), ("/dev/block".toList, Node.dir),
   ("/dev/block/mmcblk0p2".toList, Node.blockdev "ANDROID!".toList),
   ("/tmp".toList, Node.dir), ("/roms".toList, Node.dir), ("/roms/A".toList, Node.dir)]

/-- The boot image of the ROM `A`. -/
def imgA : CStr := "/roms/A/boot.img".toList

/-- A boot image path in a ROM directory that does not exist. -/
def imgNoDir : CStr := "/roms/B/boot.img".toList

/-- The filesystem of scenario S6: the boot device path is a regular file, the
original node is kept under `-orig`, the breadcrumb holds the device path. -/
def fsS6 : FS :=
  [("/dev/block/mmcblk0p2".toList, Node.file "boot.img of a ROM".toList),
   ("/dev/block/mmcblk0p2-orig".toList, Node.blockdev "ANDROID!".toList),
   ("/tmp/mrom_fakebootpart".toList, Node.file "/dev/block/mmcblk0p2\n".toList),
   ("/dev".toList, Node.dir), ("/dev/block".toList, Node.dir), ("/tmp".toList, Node.dir)]

/-- The filesystem a crash leaves in the middle of a hijack: the boot device
path is the symbolic link to the image. -/
def fsCrashed : FS := (fakeBootPartition bootDev imgA fsRecovery).2

/-! ## ROM types (multirom.h) -/

def ROM_ANDROID_INTERNAL : Nat := 0

def ROM_ANDROID_USB_DIR : Nat := 1

def ROM_ANDROID_USB_IMG : Nat := 2

def ROM_UBUNTU_INTERNAL : Nat := 3

def ROM_UBUNTU_USB_DIR : Nat := 4

def ROM_UBUNTU_USB_IMG : Nat := 5

def ROM_INSTALLER_INTERNAL : Nat := 6

def ROM_INSTALLER_USB_DIR : Nat := 7

def ROM_INSTALLER_USB_IMG : Nat := 8

def ROM_UTOUCH_INTERNAL : Nat := 9

def ROM_UTOUCH_USB_DIR : Nat := 10

def ROM_UTOUCH_USB_IMG : Nat := 11

def ROM_UNKNOWN : Nat := 12

/-- The macro `M(x)`, `1 << x`. -/
def M (x : Nat) : Nat := 1 <<< x

/-- The macro `MASK_IMAGES`. -/
def MASK_IMAGES : Nat :=
  M ROM_ANDROID_USB_IMG ||| M ROM_UBUNTU_USB_IMG ||| M ROM_INSTALLER_USB_IMG ||| M ROM_UTOUCH_USB_IMG

/-- The macro `MASK_INTERNAL`. -/
def MASK_INTERNAL : Nat :=
  M ROM_ANDROID_INTERNAL ||| M ROM_UBUNTU_INTERNAL ||| M ROM_INSTALLER_INTERNAL
    ||| M ROM_UTOUCH_INTERNAL

/-- The macro `REALDATA`. -/
def REALDATA : CStr := "/realdata".toList

/-- The call `s.replace(0, n, r)` of `std::string`: the first `n` characters
(fewer when the string is shorter) give way to `r`. -/
def replace0 (s : CStr) (n : Nat) (r : CStr) : CStr := r ++ s.drop n

/-- The method `MultiROM::getType(std::string)` (lines 349-396); the first two
arguments are what `getRomsPath()` returns and the filesystem. -/
def getType (m_curr_roms_path : CStr) (fs : FS) (name : CStr) : Nat :=
  let path := m_curr_roms_path ++ "/".toList ++ name ++ "/".toList
  if !("/mnt".toList.isPrefixOf m_curr_roms_path) then
    if access fs (path ++ "system".toList) && access fs (path ++ "data".toList)
        && access fs (path ++ "cache".toList) then
      if access fs (path ++ "boot".toList) then ROM_ANDROID_INTERNAL else ROM_UTOUCH_INTERNAL
    else if access fs (path ++ "root".toList) then ROM_UBUNTU_INTERNAL
    else ROM_UNKNOWN
  else
    if access fs (path ++ "system".toList) && access fs (path ++ "data".toList)
        && access fs (path ++ "cache".toList) then
      if access fs (path ++ "boot".toList) then ROM_ANDROID_USB_DIR else ROM_UTOUCH_USB_DIR
    else if access fs (path ++ "system.img".toList) && access fs (path ++ "data.img".toList)
        && access fs (path ++ "cache.img".toList) then
      if access fs (path ++ "boot".toList) then ROM_ANDROID_USB_IMG else ROM_UTOUCH_USB_IMG
    else if access fs (path ++ "root".toList) then ROM_UBUNTU_USB_DIR
    else if access fs (path ++ "root.img".toList) then ROM_UBUNTU_USB_IMG
    else ROM_UNKNOWN

/-! ## The partition manager and the settings -/

/-- The fields of `TWPartition` that `changeMounts` reads or writes, and what
an fstab line gives a partition. -/
structure TWPartition where
  Mount_Point : CStr
  Display_Name : CStr
  Backup_Display_Name : CStr
  Backup_Name : CStr
  Backup_Path : CStr
  Symlink_Path : CStr
  Storage_Path : CStr
  Can_Be_Backed_Up : Bool
  Fstab_File_System : CStr
  Primary_Block_Device : CStr
  Flags : CStr
deriving DecidableEq

/-- Modelled from the spec: `TWPartition::makePartFromFstab` is not among the
sources; by §4.7 step 6 the line `<mount point> <fs> <source> flags=<flags>`
gives a partition mounted at the mount point from the source (a directory that
is bound, or an image that is looped). -/
def makePartFromFstab (mount_point fs source flags : CStr) : TWPartition :=
  { Mount_Point := mount_point, Display_Name := [], Backup_Display_Name := [], Backup_Name := [],
    Backup_Path := [], Symlink_Path := [], Storage_Path := [], Can_Be_Backed_Up := false,
    Fstab_File_System := fs, Primary_Block_Device := source, Flags := flags }

/-- The state the engine works on: its static members, the table and the saved
contexts of the partition manager, the two path settings of the data manager
and the filesystem. -/
structure State where
  m_path : CStr
  m_curr_roms_path : CStr
  m_mount_rom_paths_0 : CStr
  m_mount_rom_paths_1 : CStr
  partitions : List TWPartition
  contexts : List (List TWPartition)
  tw_internal_path : CStr
  tw_storage_path : CStr
  fs : FS
deriving DecidableEq

/-- Modelled from the spec: `PartitionManager.Copy_And_Push_Context` is not
among the sources; §4.7 step 2 has it save a copy of the table. -/
def Copy_And_Push_Context (s : State) : State :=
  { s with contexts := s.partitions :: s.contexts }

/-- Modelled from the spec: `PartitionManager.Pop_Context` is not among the
sources; §3 and §4.7 have it put back the table saved last. -/
def Pop_Context (s : State) : State :=
  match s.contexts with
  | [] => s
  | saved :: rest => { s with partitions := saved, contexts := rest }

/-- The loop `while(stat(path) >= 0) path += "a"` of `normalizeROMPath`
(lines 695-696), run for at most `fuel` rounds. -/
def appendUntilFree (fs : FS) : Nat → CStr → CStr
  | 0, path => path
  | fuel + 1, path => if access fs path then appendUntilFree fs fuel (path ++ ['a']) else path

/-- The method `MultiROM::normalizeROMPath` (lines 671-700): the path handed
back and the state.  The loop of lines 688-692 turns every space into `-`; the
loop of lines 695-696 gets one round for every entry of the filesystem and one
more. -/
def normalizeROMPath (s : State) (path : CStr) : CStr × State :=
  if s.m_mount_rom_paths_0 ≠ [] then (s.m_mount_rom_paths_1, s)
  else if ' ' ∉ path then (path, { s with m_mount_rom_paths_0 := [] })
  else
    let spaceless := appendUntilFree s.fs (s.fs.length + 1)
      (path.map (fun c => if c = ' ' then '-' else c))
    (spaceless,
      { s with
        m_mount_rom_paths_0 := path
        m_mount_rom_paths_1 := spaceless
        fs := sh_mv s.fs path spaceless })

/-- The method `MultiROM::restoreROMPath` (lines 702-709). -/
def restoreROMPath (s : State) : State :=
  if s.m_mount_rom_paths_0 = [] then s
  else
    { s with
      fs := sh_mv s.fs s.m_mount_rom_paths_1 s.m_mount_rom_paths_0
      m_mount_rom_paths_0 := [] }

/-- The loop of lines 518-532 of `changeMounts`: the partitions mounted at
`/system` or `/cache` leave the table; `data` ends as the position, in what
stays, of the last partition mounted at `/data`.  The source leaves `data`
uninitialised when there is none; the test `!data` of line 534 is then taken to
succeed, which is `none` here. -/
def evictLoop : List TWPartition → List TWPartition → Option Nat → List TWPartition × Option Nat
  | [], kept, data => (kept, data)
  | p :: rest, kept, data =>
    if p.Mount_Point = "/system".toList ∨ p.Mount_Point = "/cache".toList then
      evictLoop rest kept data
    else
      evictLoop rest (kept ++ [p])
        (if p.Mount_Point = "/data".toList then some kept.length else data)

/-- Lines 545-550 of `changeMounts`: the partition `data` points to becomes
`/realdata`. -/
def toRealdata (p : TWPartition) : TWPartition :=
  { p with
    Display_Name := "Realdata".toList
    Mount_Point := REALDATA
    Symlink_Path := replace0 p.Symlink_Path 5 REALDATA
    Storage_Path := replace0 p.Storage_Path 5 REALDATA
    Can_Be_Backed_Up := false }

/-- The rewrite of a path setting in `changeMounts` (lines 552-563). -/
def toRealdataSetting (value : CStr) : CStr :=
  if "/data/media".toList.isPrefixOf value then replace0 value 5 REALDATA else value

/-- The rewrite of a path setting in `restoreMounts` (lines 641-652). -/
def fromRealdataSetting (value : CStr) : CStr :=
  if "/realdata/media".toList.isPrefixOf value then replace0 value 9 "/data".toList else value

/-- Lines 588-591 of `changeMounts`: the names of the synthesized `/data`. -/
def asData (p : TWPartition) : TWPartition :=
  { p with
    Backup_Display_Name := "Data".toList
    Display_Name := "Data".toList
    Backup_Name := "data".toList
    Backup_Path := "/data".toList
    Mount_Point := "/data".toList
    Can_Be_Backed_Up := true }

/-- One of the three assignments of lines 574-585 of `changeMounts`: the
partition for `mount_point`, bound from the directory `base/name` or looped from
the image `base/name.img`. -/
def fakePartition (type : Nat) (mount_point fs base name : CStr) : TWPartition :=
  if M type &&& MASK_IMAGES = 0 then
    makePartFromFstab mount_point fs (base ++ "/".toList ++ name) "bindof=/realdata".toList
  else
    makePartFromFstab mount_point fs (base ++ "/".toList ++ name ++ ".img".toList)
      "imagemount".toList

/-- Lines 516-616 of `changeMounts`, after the context was saved. -/
def changeMounts_hijack (mount : TWPartition → Bool) (type : Nat) (base : CStr) (s : State) :
    Bool × State :=
  let ev := evictLoop s.partitions [] none
  match ev.2 with
  | none => (false, Pop_Context { s with partitions := ev.1, m_path := [] })
  | some idx =>
    let parts := ev.1.modify toRealdata idx
    let realdata := toRealdata (ev.1.getD idx (makePartFromFstab [] [] [] []))
    let s3 := { s with
      partitions := parts
      tw_internal_path := toRealdataSetting s.tw_internal_path
      tw_storage_path := toRealdataSetting s.tw_storage_path }
    if !mount realdata then (false, Pop_Context s3)
    else
      let fs := realdata.Fstab_File_System
      let data := asData (fakePartition type "/data_t".toList fs base "data".toList)
      let sys := fakePartition type "/system".toList fs base "system".toList
      let cache := fakePartition type "/cache".toList fs base "cache".toList
      let s4 := { s3 with partitions := parts ++ [data, sys, cache] }
      if !mount data || !mount sys || !mount cache then (false, Pop_Context s4)
      else (true, { s4 with fs := sh_mv s4.fs "/sbin/umount".toList "/sbin/umount.bak".toList })

/-- The method `MultiROM::changeMounts` (lines 500-617).  `mount` is the answer
of `TWPartition::Mount(true)` for a partition, which the environment gives; the
kernel mount table is not part of the state, so `UnMount` leaves the state as it
is, as do `sync`, the logging and `Write_Fstab`. -/
def changeMounts (mount : TWPartition → Bool) (s : State) (name : CStr) : Bool × State :=
  let type := getType s.m_curr_roms_path s.fs name
  let r := normalizeROMPath s (s.m_curr_roms_path ++ name)
  let base := if M type &&& MASK_INTERNAL ≠ 0 then replace0 r.1 5 REALDATA else r.1
  let s1 := { r.2 with fs := mkdir r.2.fs REALDATA }
  changeMounts_hijack mount type base (Copy_And_Push_Context s1)

/-- The method `MultiROM::restoreMounts` (lines 619-655); the `umount` loop and
the two `Mount_By_Path` calls act on the kernel mount table only. -/
def restoreMounts (s : State) : State :=
  let s1 := { s with fs := sh_mv s.fs "/sbin/umount.bak".toList "/sbin/umount".toList }
  let s2 := Pop_Context s1
  let s3 := { s2 with
    tw_internal_path := fromRealdataSetting s2.tw_internal_path
    tw_storage_path := fromRealdataSetting s2.tw_storage_path }
  restoreROMPath s3

/-- A partition of the recovery's table. -/
def mkPartition (mount_point fs device : String) : TWPartition :=
  { Mount_Point := mount_point.toList, Display_Name := [], Backup_Display_Name := [],
    Backup_Name := [], Backup_Path := [], Symlink_Path := [],
    Storage_Path := (mount_point ++ "/media/0").toList, Can_Be_Backed_Up := true,
    Fstab_File_System := fs.toList, Primary_Block_Device := device.toList, Flags := [] }

/-- A device with the internal Android ROM `My ROM`, whose name has a space. -/
def stateSpaceROM : State :=
  { m_path := "/data/media/0/multirom".toList
    m_curr_roms_path := "/data/media/0/multirom/roms/".toList
    m_mount_rom_paths_0 := []
    m_mount_rom_paths_1 := []
    partitions :=
      [mkPartition "/boot" "emmc" "/dev/block/mmcblk0p2",
       mkPartition "/system" "ext4" "/dev/block/mmcblk0p3",
       mkPartition "/cache" "ext4" "/dev/block/mmcblk0p4",
       mkPartition "/data" "ext4" "/dev/block/mmcblk0p9"]
    contexts := []
    tw_internal_path := "/data/media/0".toList
    tw_storage_path := "/data/media/0".toList
    fs :=
      [("/data/media/0/multirom/roms".toList, Node.dir),
       ("/data/media/0/multirom/roms/My ROM".toList, Node.dir),
       ("/data/media/0/multirom/roms/My ROM/system".toList, Node.dir),
       ("/data/media/0/multirom/roms/My ROM/data".toList, Node.dir),
       ("/data/media/0/multirom/roms/My ROM/cache".toList, Node.dir),
       ("/data/media/0/multirom/roms/My ROM/boot".toList, Node.dir),
       ("/sbin".toList, Node.dir), ("/sbin/umount".toList, Node.file [])] }

/-- The same device with the storage setting at `/realdata/media/0`, the value
a `changeMounts` that failed after line 563 leaves behind. -/
def stateRealdataSetting : State :=
  { stateSpaceROM with tw_storage_path := "/realdata/media/0".toList }

/-- An environment in which every mount succeeds. -/
def mountAll : TWPartition → Bool := fun _ => true

/-- An environment in which the mount of the synthesized `/system` fails
(step 7 of scenario S5). -/
def mountNoSystem : TWPartition → Bool := fun p => !(p.Mount_Point == "/system".toList)

/-- A filesystem without the breadcrumb: the recovery after a clean start. -/
def fsNoBreadcrumb : FS := fsRecovery

/-! ## Type detection, ramdisk magic, trampoline version -/

/-- The path `getRomsPath() + "/" + name + "/" + entry` that `getType` tests. -/
def romEntry (m_curr_roms_path name : CStr) (entry : String) : CStr :=
  m_curr_roms_path ++ "/".toList ++ name ++ "/".toList ++ entry.toList

/-- The detection table of §4.3 as the specification words it: the type for
the presence of each of the nine entries in the ROM root, on internal storage
or on the external (`/mnt`) path; the rows are read top
to bottom. -/
def detectionTable (internal system data cache boot root system_img data_img cache_img
    root_img : Bool) : Nat :=
  match internal, system && data && cache, system_img && data_img && cache_img, boot, root,
      root_img with
  | true, true, _, true, _, _ => ROM_ANDROID_INTERNAL
  | true, true, _, false, _, _ => ROM_UTOUCH_INTERNAL
  | true, false, _, _, true, _ => ROM_UBUNTU_INTERNAL
  | false, true, _, true, _, _ => ROM_ANDROID_USB_DIR
  | false, true, _, false, _, _ => ROM_UTOUCH_USB_DIR
  | false, false, true, true, _, _ => ROM_ANDROID_USB_IMG
  | false, false, true, false, _, _ => ROM_UTOUCH_USB_IMG
  | false, false, false, _, true, _ => ROM_UBUNTU_USB_DIR
  | false, false, false, _, false, true => ROM_UBUNTU_USB_IMG
  | _, _, _, _, _, _ => ROM_UNKNOWN

/-- The ROM directory of scenario S4 on internal storage: `system/`, `data/`,
`cache/` and `boot/`. -/
def fsS4 : FS :=
  [("/data/media/0/multirom/roms".toList, Node.dir),
   ("/data/media/0/multirom/roms/CM13".toList, Node.dir),
   ("/data/media/0/multirom/roms/CM13/system".toList, Node.dir),
   ("/data/media/0/multirom/roms/CM13/data".toList, Node.dir),
   ("/data/media/0/multirom/roms/CM13/cache".toList, Node.dir),
   ("/data/media/0/multirom/roms/CM13/boot".toList, Node.dir)]

/-- The constants `CMPR_GZIP`, `CMPR_LZ4`, `CMPR_LZMA` of multirom.h. -/
def CMPR_GZIP : Int := 0
def CMPR_LZ4 : Int := 1
def CMPR_LZMA : Int := 2

/-- The value `*((uint16_t*)m)` on the little-endian target: the first two
bytes. -/
def magic16 (m0 m1 : Nat) : Nat := m0 % 256 + 256 * (m1 % 256)

/-- The value `*((uint32_t*)m)` on the little-endian target: the four bytes. -/
def magic32 (m0 m1 m2 m3 : Nat) : Nat :=
  m0 % 256 + 256 * (m1 % 256) + 65536 * (m2 % 256) + 16777216 * (m3 % 256)

/-- The value that `MultiROM::decompressRamdisk` returns (lines 1052-1099) for
the bytes of the file `src`; `none` stands for a file that `fopen` cannot open.
The commands that unpack the archive into `dest` are run for their effect on
`dest` only and do not enter the result. -/
def decompressRamdisk (src : Option (List Nat)) : Int :=
  match src with
  | none => -1
  | some (m0 :: m1 :: m2 :: m3 :: _) =>
    if magic16 m0 m1 = 0x8B1F then CMPR_GZIP
    else if magic32 m0 m1 m2 m3 = 0x184C2102 then CMPR_LZ4
    else if magic32 m0 m1 m2 m3 = 0x0000005D ∨ magic32 m0 m1 m2 m3 = 0x8000005D then CMPR_LZMA
    else -1
  | some _ => -1

/-- The value that `MultiROM::compressRamdisk` returns (lines 1101-1125). -/
def compressRamdisk (cmpr : Int) : Bool :=
  if cmpr = CMPR_GZIP then true
  else if cmpr = CMPR_LZ4 then true
  else false

/-- The digits that `atoi` reads, most significant first, onto the value so
far. -/
def atoi_digits : CStr → Nat → Nat
  | [], acc => acc
  | c :: rest, acc =>
    if '0' ≤ c ∧ c ≤ '9' then atoi_digits rest (10 * acc + (c.toNat - 48)) else acc

/-- The libc `atoi`: leading white space, an optional sign, then decimal digits
up to the first other character.  The value is the mathematical one; a text
whose value lies outside `int` is outside the embedding. -/
def atoi (s : CStr) : Int :=
  match s.dropWhile isspace with
  | '-' :: rest => - (atoi_digits rest 0 : Int)
  | '+' :: rest => (atoi_digits rest 0 : Int)
  | rest => (atoi_digits rest 0 : Int)

/-- The command line of `getTrampolineVersion` (line 2256). -/
def trampolineCmd (path : CStr) : CStr :=
  "strings \"".toList ++ path ++ "\" | grep -q 'Running trampoline' && \"".toList ++ path
    ++ "\" -v".toList

/-- The method `MultiROM::getTrampolineVersion(path, silent)` (lines 2249-2271).
`exec` is `TWFunc::Exec_Cmd`, which the environment gives: the output of the
command when its status is 0, `none` otherwise. -/
def getTrampolineVersion (exec : CStr → Option CStr) (path : CStr) : Int :=
  if (trampolineCmd path).length ≥ 384 then -1
  else
    match exec (trampolineCmd path) with
    | none => -1
    | some result => atoi result

/-- What the environment answers to the external steps of `injectBoot`. -/
structure InjectEnv where
  trampoline_found : Bool
  unpack_ok : Bool
  rd_cmpr : Int
  init_found : Bool
  exec : CStr → Option CStr
  load_ramdisk_ok : Bool
  write_img_ok : Bool

/-- What `injectBoot` did: its return value and whether it wrote a new image
to `img_path`. -/
structure InjectResult where
  returned : Bool
  image_written : Bool
deriving DecidableEq

/-- Lines 999-1045 of `injectBoot`: the injection itself. -/
def injectBoot_inject (env : InjectEnv) : InjectResult :=
  if !compressRamdisk env.rd_cmpr then { returned := false, image_written := false }
  else if !env.load_ramdisk_ok then { returned := false, image_written := false }
  else if !env.write_img_ok then { returned := false, image_written := false }
  else { returned := true, image_written := true }

/-- The method `MultiROM::injectBoot` (lines 951-1050). -/
def injectBoot (env : InjectEnv) (m_path : CStr) (only_if_older : Bool) : InjectResult :=
  if !env.trampoline_found then { returned := false, image_written := false }
  else if !env.unpack_ok then { returned := false, image_written := false }
  else if env.rd_cmpr = -1 ∨ !env.init_found then { returned := false, image_written := false }
  else if only_if_older
      ∧ getTrampolineVersion env.exec "/tmp/boot/rd/init".toList
          ≥ getTrampolineVersion env.exec (m_path ++ "/trampoline".toList)
      ∧ getTrampolineVersion env.exec (m_path ++ "/trampoline".toList) > 0 then
    { returned := true, image_written := false }
  else injectBoot_inject env

/-- An environment in which every step works and every version probe fails. -/
def envProbeFails : InjectEnv :=
  { trampoline_found := true, unpack_ok := true, rd_cmpr := CMPR_GZIP, init_found := true,
    exec := fun _ => none, load_ramdisk_ok := true, write_img_ok := true }

/-- An environment in which every step works and both trampolines answer
version 17. -/
def envSameVersion : InjectEnv :=
  { trampoline_found := true, unpack_ok := true, rd_cmpr := CMPR_GZIP, init_found := true,
    exec := fun _ => some "17\n".toList, load_ramdisk_ok := true, write_img_ok := true }

/-! ## Listing the ROMs and naming a new one -/

/-- The fields of `struct dirent` that the scans read. -/
structure dirent where
  d_name : CStr
  d_type : Nat
deriving DecidableEq

/-- The constants `DT_BLK`, `DT_DIR`, `DT_REG`, `DT_LNK` of dirent.h. -/
def DT_BLK : Nat := 6
def DT_DIR : Nat := 4
def DT_REG : Nat := 8
def DT_LNK : Nat := 10

/-- The `d_type` of an entry. -/
def d_type_of : Node → Nat
  | Node.file _ => DT_REG
  | Node.symlink _ => DT_LNK
  | Node.blockdev _ => DT_BLK
  | Node.dir => DT_DIR

/-- The directory that holds a normalised path. -/
def parent (k : CStr) : CStr :=
  if dirname k = [] ∧ k.head? = some '/' then ['/'] else dirname k

/-- The entries that stand directly in the directory `d`, in the order of the
filesystem; `seen` holds the names already met. -/
def dirEntries (d : CStr) : FS → List CStr → List dirent
  | [], _ => []
  | (k, n) :: rest, seen =>
    if parent k = d ∧ k ≠ d ∧ basename k ≠ [] ∧ k ∉ seen then
      { d_name := basename k, d_type := d_type_of n } :: dirEntries d rest (k :: seen)
    else dirEntries d rest (k :: seen)

/-- The calls `opendir(path)` and `readdir` up to its end: the entries `.` and
`..` and those of the directory; `none` when the path is not a directory. -/
def opendir (fs : FS) (path : CStr) : Option (List dirent) :=
  match lstat fs path with
  | some Node.dir =>
    some ({ d_name := ".".toList, d_type := DT_DIR } :: { d_name := "..".toList, d_type := DT_DIR }
      :: dirEntries (normpath path) fs [])
  | _ => none

/-- The name `INTERNAL_NAME`. -/
def INTERNAL_NAME : CStr := "Internal".toList

/-- The test `a.compare(b) < 0` of `std::string`: the first differing byte
decides, then the length. -/
def compare_neg : CStr → CStr → Bool
  | [], [] => false
  | [], _ :: _ => true
  | _ :: _, [] => false
  | a :: as, b :: bs =>
    if a.toNat < b.toNat then true
    else if b.toNat < a.toNat then false
    else compare_neg as bs

/-- The comparator `rom_sort` (lines 398-405). -/
def rom_sort (a b : CStr) : Bool :=
  if a = INTERNAL_NAME then true
  else if b = INTERNAL_NAME then false
  else compare_neg a b

/-- Puts `x` before the first element that the comparator does not put before
it. -/
def sort_insert (lt : CStr → CStr → Bool) (x : CStr) : List CStr → List CStr
  | [] => [x]
  | y :: ys => if lt y x then y :: sort_insert lt x ys else x :: y :: ys

/-- The call `std::sort(vec.begin(), vec.end(), comp)`, as the sort by
insertion.  On names that the comparator orders strictly and totally (distinct
names, for `rom_sort`) the ascending arrangement is unique, so every sorting
algorithm yields it. -/
def std_sort (lt : CStr → CStr → Bool) (vec : List CStr) : List CStr :=
  vec.foldr (sort_insert lt) []

/-- The entries that `listRoms` keeps: directories whose name does not begin
with a dot. -/
def listed (dr : dirent) : Bool := dr.d_type == DT_DIR && !(dr.d_name.head? == some '.')

/-- The method `MultiROM::listRoms` (lines 407-433) on what `opendir` and
`readdir` give. -/
def listRoms (d : Option (List dirent)) : CStr :=
  match d with
  | none => []
  | some entries =>
    (std_sort rom_sort ((entries.filter listed).map dirent.d_name)).flatMap
      (fun name => name ++ ['\n'])

/-- The digit `0`..`9` as a character. -/
def digitChar (d : Nat) : Char := Char.ofNat (48 + d % 10)

/-- The decimal digits of `n` put in front of `ds`; `fuel` bounds the number of
digits. -/
def dec_core : Nat → Nat → CStr → CStr
  | 0, _, ds => ds
  | fuel + 1, n, ds =>
    if n / 10 = 0 then digitChar n :: ds else dec_core fuel (n / 10) (digitChar n :: ds)

/-- What `%d` prints for a number that is not negative. -/
def dec (n : Nat) : CStr := dec_core (n + 1) n []

/-- What `%d` prints. -/
def print_d (z : Int) : CStr := if z < 0 then '-' :: dec z.natAbs else dec z.natAbs

/-- The call `s.find_last_of(c)`: the position of the last `c`; `none` is
`npos`. -/
def find_last_of : CStr → Char → Option Nat
  | [], _ => none
  | x :: rest, c =>
    match find_last_of rest c with
    | some i => some (i + 1)
    | none => if x = c then some 0 else none

/-- The call `s.substr(pos)`, which throws `std::out_of_range` when `pos`
exceeds the length, as it does when `pos` is `npos`; `none` is the throw. -/
def substr (s : CStr) (pos : Option Nat) : Option CStr :=
  match pos with
  | none => none
  | some i => if i > s.length then none else some (s.drop i)

/-- The constant `MAX_ROM_NAME`. -/
def MAX_ROM_NAME : Nat := 26

/-- Lines 1141-1161 of `getNewRomName`: the name before it is cut to
`MAX_ROM_NAME`; `add_source` is the setting `tw_multirom_add_source`; `none`
when `substr` throws. -/
def deriveName (add_source zip default : CStr) : Option CStr :=
  if default = [] then
    let idx := find_last_of zip '/'
    let idx_dot := find_last_of zip '.'
    match substr zip idx with
    | none => none
    | some tail =>
      if tail = "/rootfs.img".toList then some "Ubuntu".toList
      else
        match idx with
        | none => some "ROM".toList
        | some i =>
          if add_source = "backup".toList then some ("bckp_".toList ++ zip.drop (i + 1))
          else
            match idx_dot with
            | none => some "ROM".toList
            | some j =>
              if j > i then some ((zip.drop (i + 1)).take (j - i - 1)) else some "ROM".toList
  else some default

/-- Lines 1190-1196: the name tried for the number `c`; `num` is what `sprintf`
put into the buffer. -/
def candidate (name : CStr) (c : Nat) : CStr :=
  let num := dec c
  if name.length + num.length > MAX_ROM_NAME then
    name.take (name.length - num.length) ++ num
  else name ++ num

/-- The loop of lines 1186-1201: `res` is tried against the names, and on a hit
the name for the next number is tried from the start.  The buffer `num[8]` holds
seven digits; `none` is the write past its end for `c` of eight digits, and the
end of the fuel. -/
def collisionLoop : Nat → List CStr → CStr → CStr → Nat → Option CStr
  | 0, _, _, _, _ => none
  | fuel + 1, roms, name, res, c =>
    if roms.contains res then
      if c ≥ 10000000 then none
      else collisionLoop fuel roms name (candidate name c) (c + 1)
    else some res

/-- The entries that `getNewRomName` collects: directories and links whose name
does not begin with a dot. -/
def collected (dr : dirent) : Bool :=
  !(dr.d_name.head? == some '.') && (dr.d_type == DT_DIR || dr.d_type == DT_LNK)

/-- The method `MultiROM::getNewRomName` (lines 1139-1204) on what `opendir`
and `readdir` give for the ROMs path; `none` when it does not return. -/
def getNewRomName (add_source : CStr) (d : Option (List dirent)) (zip default : CStr) :
    Option CStr :=
  match deriveName add_source zip default with
  | none => none
  | some name =>
    match d with
    | none => some []
    | some entries =>
      collisionLoop 10000001 ((entries.filter collected).map dirent.d_name)
        (name.take MAX_ROM_NAME) (name.take MAX_ROM_NAME) 1

/-- The name tried in round `k`: the base itself in round 0. -/
def nthCandidate (name : CStr) (k : Nat) : CStr := if k = 0 then name else candidate name k

/-- The ROMs directory of scenario S8: `Internal`, `CM13`, `CM13-1`. -/
def dirS8 : List dirent :=
  [{ d_name := ".".toList, d_type := DT_DIR }, { d_name := "..".toList, d_type := DT_DIR },
   { d_name := "Internal".toList, d_type := DT_DIR }, { d_name := "CM13".toList, d_type := DT_DIR },
   { d_name := "CM13-1".toList, d_type := DT_DIR }]

/-- A ROMs directory in which the base name `cm-13` and its first candidate are
taken. -/
def dirTaken : List dirent :=
  [{ d_name := ".".toList, d_type := DT_DIR }, { d_name := "..".toList, d_type := DT_DIR },
   { d_name := "Internal".toList, d_type := DT_DIR }, { d_name := "cm-13".toList, d_type := DT_DIR },
   { d_name := "cm-131".toList, d_type := DT_DIR }]

/-- Ten million names: `ROM` and `ROM1` to `ROM9999999`. -/
def romsFull : List CStr := (List.range 10000000).map (nthCandidate "ROM".toList)

/-! ## Adding a ROM -/

/-- The struct `base_folder` of multirom.h. -/
structure base_folder where
  name : CStr
  min_size : Int
  size : Int
deriving DecidableEq

/-- The test `mkdir(path, mode) < 0`. -/
def mkdir_fails (fs : FS) (path : CStr) : Bool :=
  !((lstat fs path).isNone && parentIsDir fs path)

/-- The command `dd if=/dev/zero of="path"`: the file is created or truncated
and filled; nothing when the path is a directory or its directory is missing.
What the file holds is not followed. -/
def sh_dd_zero (fs : FS) (path : CStr) : FS :=
  match lstat fs path with
  | none => if parentIsDir fs path then write fs path (Node.file []) else fs
  | some Node.dir => fs
  | some _ => write fs path (Node.file [])

/-- The command `rm -rf "path"`: the entry and everything below it go. -/
def sh_rm_rf (fs : FS) (path : CStr) : FS :=
  fs.filter (fun e => !under (normpath path) e.1)

/-- The method `MultiROM::createImage` (lines 1206-1234): the result and the
filesystem it leaves.  `dd_ok` is the status of the `dd` command, which the
environment gives (it fails when the space runs out, leaving what it wrote). -/
def createImage (dd_ok : CStr → Bool) (fs : FS) (base img : CStr) (size : Int) : Bool × FS :=
  if size ≤ 0 then (false, fs)
  else
    let path := base ++ "/".toList ++ img ++ ".img".toList
    if !dd_ok path then (false, sh_dd_zero fs path)
    else if !access (sh_dd_zero fs path) path then (false, sh_dd_zero fs path)
    else (true, sh_dd_zero fs path)

/-- The method `MultiROM::createImagesFromBase` (lines 1236-1243);
`m_base_folders` is the map in the order of its keys. -/
def createImagesFromBase (dd_ok : CStr → Bool) (base : CStr) :
    List base_folder → FS → Bool × FS
  | [], fs => (true, fs)
  | b :: rest, fs =>
    if !(createImage dd_ok fs base b.name b.size).1 then
      (false, (createImage dd_ok fs base b.name b.size).2)
    else createImagesFromBase dd_ok base rest (createImage dd_ok fs base b.name b.size).2

/-- The method `MultiROM::createDirsFromBase` (lines 1245-1257). -/
def createDirsFromBase (base : CStr) : List base_folder → FS → Bool × FS
  | [], fs => (true, fs)
  | b :: rest, fs =>
    if mkdir_fails fs (base ++ "/".toList ++ b.name) then (false, fs)
    else createDirsFromBase base rest (mkdir fs (base ++ "/".toList ++ b.name))

/-- A chain `mkdir(p1) < 0 || mkdir(p2) < 0 || …`: whether all succeeded, and
the filesystem; the first failure ends the chain. -/
def mkdirs : List CStr → FS → Bool × FS
  | [], fs => (true, fs)
  | p :: rest, fs => if mkdir_fails fs p then (false, fs) else mkdirs rest (mkdir fs p)

/-- The method `MultiROM::createDirs` (lines 1259-1322). -/
def createDirs (dd_ok : CStr → Bool) (m_curr_roms_path : CStr) (m_base_folders : List base_folder)
    (fs : FS) (name : CStr) (type : Nat) : Bool × FS :=
  let base := m_curr_roms_path ++ "/".toList ++ name
  if mkdir_fails fs base then (false, fs)
  else
    let fs1 := mkdir fs base
    if type = ROM_ANDROID_INTERNAL ∨ type = ROM_ANDROID_USB_DIR then
      mkdirs [base ++ "/boot".toList, base ++ "/system".toList, base ++ "/data".toList,
        base ++ "/cache".toList] fs1
    else if type = ROM_UTOUCH_INTERNAL ∨ type = ROM_UTOUCH_USB_DIR then
      mkdirs [base ++ "/system".toList, base ++ "/data".toList, base ++ "/cache".toList] fs1
    else if type = ROM_ANDROID_USB_IMG then
      if mkdir_fails fs1 (base ++ "/boot".toList) then (false, fs1)
      else createImagesFromBase dd_ok base m_base_folders (mkdir fs1 (base ++ "/boot".toList))
    else if type = ROM_UBUNTU_INTERNAL ∨ type = ROM_UBUNTU_USB_DIR
        ∨ type = ROM_INSTALLER_INTERNAL ∨ type = ROM_INSTALLER_USB_DIR then
      createDirsFromBase base m_base_folders fs1
    else if type = ROM_UBUNTU_USB_IMG ∨ type = ROM_INSTALLER_USB_IMG
        ∨ type = ROM_UTOUCH_USB_IMG then
      createImagesFromBase dd_ok base m_base_folders fs1
    else (false, fs1)

/-- The text `INTERNAL_MEM_LOC_TXT`. -/
def INTERNAL_MEM_LOC_TXT : CStr := "Internal memory".toList

/-- The macro `MASK_INSTALLER`. -/
def MASK_INSTALLER : Nat :=
  M ROM_INSTALLER_INTERNAL ||| M ROM_INSTALLER_USB_DIR ||| M ROM_INSTALLER_USB_IMG

/-- What `addROM` asks of the installer `m_installer`: the value `rom_name`,
`getRomType()` and the answer of `checkFreeSpace`. -/
structure Installer where
  rom_name : CStr
  rom_type : Nat
  free_space_ok : Bool

/-- What the environment answers to `addROM`: whether the drive mounts, the
installer if one is set, the setting `tw_multirom_add_source`, the status of
each `dd`, the base folders, the device name of the build, and what the
installation proper (lines 1625-1747: flashing, extracting, scripts) returns
and leaves for a type and a name. -/
structure AddEnv where
  mount_ok : Bool
  m_installer : Option Installer
  add_source : CStr
  dd_ok : CStr → Bool
  m_base_folders : List base_folder
  target_device : CStr
  install : Nat → CStr → FS → Bool × FS

/-- The method `MultiROM::setRomsPath` (lines 120-153).  What the drive holds
shows under `/mnt` in the filesystem throughout. -/
def setRomsPath (env : AddEnv) (s : State) (loc : CStr) : Bool × State :=
  if loc = INTERNAL_MEM_LOC_TXT then
    (true, { s with m_curr_roms_path := s.m_path ++ "/roms/".toList })
  else if ' ' ∉ loc then (false, { s with m_curr_roms_path := [] })
  else if !env.mount_ok then (false, { s with fs := mkdir s.fs "/mnt".toList })
  else
    (true, { s with
      m_curr_roms_path := "/mnt/multirom-".toList ++ env.target_device ++ "/".toList
      fs := mkdir (mkdir s.fs "/mnt".toList)
        ("/mnt/multirom-".toList ++ env.target_device ++ "/".toList) })

/-- The method `MultiROM::getType(int os, std::string loc)` (lines 1544-1577);
`none` when the installer is asked for and there is none. -/
def getType_os (m_installer : Option Installer) (os : Int) (loc : CStr) : Option Nat :=
  let ext := (strstr loc "(ext".toList).isSome
  if os = 1 then
    some (if loc = INTERNAL_MEM_LOC_TXT then ROM_ANDROID_INTERNAL
      else if ext then ROM_ANDROID_USB_DIR else ROM_ANDROID_USB_IMG)
  else if os = 2 then
    some (if loc = INTERNAL_MEM_LOC_TXT then ROM_UBUNTU_INTERNAL
      else if ext then ROM_UBUNTU_USB_DIR else ROM_UBUNTU_USB_IMG)
  else if os = 3 then m_installer.map Installer.rom_type
  else if os = 4 then
    some (if loc = INTERNAL_MEM_LOC_TXT then ROM_UTOUCH_INTERNAL
      else if ext then ROM_UTOUCH_USB_DIR else ROM_UTOUCH_USB_IMG)
  else some ROM_UNKNOWN

/-- The method `MultiROM::addROM` (lines 1595-1766): the result and the state
it leaves; `none` when `getNewRomName` throws or a missing installer is
asked. -/
def addROM (env : AddEnv) (s : State) (zip : CStr) (os : Int) (loc : CStr) :
    Option (Bool × State) :=
  if !(setRomsPath env s loc).1 then
    some (false, (setRomsPath env (setRomsPath env s loc).2 INTERNAL_MEM_LOC_TXT).2)
  else
    let s1 := (setRomsPath env s loc).2
    let default := match env.m_installer with
      | some i => i.rom_name
      | none => []
    match getNewRomName env.add_source (opendir s1.fs s1.m_curr_roms_path) zip default with
    | none => none
    | some name =>
      if name = [] then some (false, s1)
      else
        match getType_os env.m_installer os loc with
        | none => none
        | some type =>
          if (M type &&& MASK_INSTALLER ≠ 0)
              ∧ !((env.m_installer.map Installer.free_space_ok).getD false) then
            some (false, s1)
          else if !(createDirs env.dd_ok s1.m_curr_roms_path env.m_base_folders s1.fs name type).1
          then
            some (false, { s1 with
              fs := (createDirs env.dd_ok s1.m_curr_roms_path env.m_base_folders s1.fs name
                type).2 })
          else
            let fs2 := (createDirs env.dd_ok s1.m_curr_roms_path env.m_base_folders s1.fs name
              type).2
            let root := s1.m_curr_roms_path ++ "/".toList ++ name
            let fs3 := if (env.install type name fs2).1 then (env.install type name fs2).2
              else sh_rm_rf (env.install type name fs2).2 root
            some ((env.install type name fs2).1,
              (setRomsPath env { s1 with fs := fs3 } INTERNAL_MEM_LOC_TXT).2)

/-- The filesystem of a device with a drive under `/mnt` whose ROMs directory
is empty. -/
def fsDrive : FS :=
  [("/data/media/0/multirom".toList, Node.dir),
   ("/data/media/0/multirom/roms".toList, Node.dir),
   ("/data/media/0/multirom/roms/Internal".toList, Node.dir),
   ("/mnt".toList, Node.dir),
   ("/mnt/multirom-hammerhead".toList, Node.dir)]

/-- The state of the recovery before a ROM is added. -/
def stateDrive : State :=
  { m_path := "/data/media/0/multirom".toList
    m_curr_roms_path := "/data/media/0/multirom/roms/".toList
    m_mount_rom_paths_0 := []
    m_mount_rom_paths_1 := []
    partitions := []
    contexts := []
    tw_internal_path := "/data/media/0".toList
    tw_storage_path := "/data/media/0".toList
    fs := fsDrive }

/-- The base folders of an Android ROM in images, in the order of the map. -/
def androidFolders : List base_folder :=
  [{ name := "cache".toList, min_size := 50, size := 436 },
   { name := "data".toList, min_size := 150, size := 1024 },
   { name := "system".toList, min_size := 450, size := 640 }]

/-- An environment in which the drive runs out of space while `data.img` is
written. -/
def envNoSpace : AddEnv :=
  { mount_ok := true
    m_installer := none
    add_source := "zip".toList
    dd_ok := fun path => !(path == "/mnt/multirom-hammerhead//cm-13/data.img".toList)
    m_base_folders := androidFolders
    target_device := "hammerhead".toList
    install := fun _ _ fs => (true, fs) }

/-- An environment with an installer of type `ROM_INSTALLER_INTERNAL` whose
base folder is `root` and whose installation succeeds. -/
def envInstaller : AddEnv :=
  { mount_ok := true
    m_installer := some ⟨"SailfishOS".toList, ROM_INSTALLER_INTERNAL, true⟩
    add_source := []
    dd_ok := fun _ => true
    m_base_folders := [{ name := "root".toList, min_size := 1, size := 1024 }]
    target_device := "hammerhead".toList
    install := fun _ _ fs => (true, fs) }

/-- A name that can stand for one entry of a directory: not empty and without
a slash. -/
def childName (x : CStr) : Prop := x ≠ [] ∧ '/' ∉ x

/-- The names of the base folders that the skeleton of a type is made of:
`root` for the Ubuntu types, `cache`, `data`, `system` for the Android and
Ubuntu Touch types in images; the other types do not read the base folders. -/
def foldersFor (type : Nat) : Option (List CStr) :=
  if type = ROM_UBUNTU_INTERNAL ∨ type = ROM_UBUNTU_USB_DIR ∨ type = ROM_UBUNTU_USB_IMG then
    some ["root".toList]
  else if type = ROM_ANDROID_USB_IMG ∨ type = ROM_UTOUCH_USB_IMG then
    some ["cache".toList, "data".toList, "system".toList]
  else none

/-- The nine types that are not installer types. -/
def plainTypes : List Nat :=
  [ROM_ANDROID_INTERNAL, ROM_ANDROID_USB_DIR, ROM_ANDROID_USB_IMG, ROM_UBUNTU_INTERNAL,
   ROM_UBUNTU_USB_DIR, ROM_UBUNTU_USB_IMG, ROM_UTOUCH_INTERNAL, ROM_UTOUCH_USB_DIR,
   ROM_UTOUCH_USB_IMG]

/-- A path that ends in a character other than the slash. -/
def endsNoSlash (b : CStr) : Prop := ∃ b' c, b = b' ++ [c] ∧ c ≠ '/'

/-- The entries of the skeleton of a type, as §4.8 and the claim word it:
directories for the directory types, image files for the image types, and
`boot` for Android. -/
def skeletonEntries (type : Nat) : List CStr :=
  if type = ROM_ANDROID_INTERNAL ∨ type = ROM_ANDROID_USB_DIR then
    ["boot".toList, "system".toList, "data".toList, "cache".toList]
  else if type = ROM_UTOUCH_INTERNAL ∨ type = ROM_UTOUCH_USB_DIR then
    ["system".toList, "data".toList, "cache".toList]
  else if type = ROM_ANDROID_USB_IMG then
    ["boot".toList, "cache.img".toList, "data.img".toList, "system.img".toList]
  else if type = ROM_UTOUCH_USB_IMG then
    ["cache.img".toList, "data.img".toList, "system.img".toList]
  else if type = ROM_UBUNTU_INTERNAL ∨ type = ROM_UBUNTU_USB_DIR then ["root".toList]
  else if type = ROM_UBUNTU_USB_IMG then ["root.img".toList]
  else []

instance childName_decidable (x : CStr) : Decidable (childName x) := by
  unfold childName; exact inferInstance

/-- The replacement of line 690 of `normalizeROMPath`: a space becomes `-`. -/
def dash (c : Char) : Char := if c = ' ' then '-' else c

/-! ## The wildcard pattern of the mount rule -/

/-- The pattern that `skipLine` hands to `strstr_wildcard`. -/
def mountPattern : CStr := "/system/?bin/?mount".toList

/-- The pattern with its `?` replaced, from left to right, by the given
texts; a `?` for which no text is left stays. -/
def fill : CStr → List CStr → CStr
  | [], _ => []
  | c :: p, subs =>
    if c = '?' then
      match subs with
      | [] => c :: fill p []
      | x :: rest => x ++ fill p rest
    else c :: fill p subs

/-- The text `/system/` X `bin/` Y `mount`. -/
def mountForm (X Y : CStr) : CStr :=
  "/system/".toList ++ X ++ "bin/".toList ++ Y ++ "mount".toList

/-! ## Paths on the real data partition -/

/-- The method `MultiROM::translateToRealdata` (lines 657-669); the test
`path.find(x) != npos` is that `x` occurs in the path. -/
def translateToRealdata (fs : FS) (path : CStr) : CStr :=
  if (strstr path "/sdcard/".toList).isSome then
    if access fs (REALDATA ++ "/media/0".toList) then
      replace0 path "/sdcard/".toList.length (REALDATA ++ "/media/0/".toList)
    else replace0 path "/sdcard/".toList.length (REALDATA ++ "/media/".toList)
  else if (strstr path "/data/media/".toList).isSome then
    replace0 path "/data/".toList.length (REALDATA ++ "/".toList)
  else path

/-- A device whose real data partition holds `media/0`. -/
def fsRealdata : FS :=
  [("/realdata".toList, Node.dir), ("/realdata/media".toList, Node.dir),
   ("/realdata/media/0".toList, Node.dir)]

/-! ## The configuration file -/

/-- The struct `MultiROM::config` of multirom.h. -/
structure config where
  current_rom : CStr
  auto_boot_seconds : Int
  auto_boot_rom : CStr
  colors : Int
  brightness : Int
  enable_adb : Int
  hide_internal : Int
  int_display_name : CStr
  rotation : Int
deriving DecidableEq

/-- The constructor `MultiROM::config::config()` (lines 52-63); the macro
`TW_DEFAULT_ROTATION` is given by the build. -/
def config_default (TW_DEFAULT_ROTATION : Int) : config :=
  { current_rom := INTERNAL_NAME
    auto_boot_seconds := 5
    auto_boot_rom := INTERNAL_NAME
    colors := 0
    brightness := 40
    hide_internal := 0
    int_display_name := INTERNAL_NAME
    rotation := TW_DEFAULT_ROTATION
    enable_adb := 0 }

/-- The calls `fgets(line, 512, f)` up to the end of the file: each call hands
back the characters up to and with the next newline, 511 at most; `acc` is what
the call under way has read. -/
def fgets_lines (acc : CStr) : CStr → List CStr
  | [] => if acc = [] then [] else [acc]
  | c :: rest =>
    if c = '\n' then (acc ++ [c]) :: fgets_lines [] rest
    else if acc.length + 1 = 511 then (acc ++ [c]) :: fgets_lines [] rest
    else fgets_lines (acc ++ [c]) rest

/-- Whether a character is one of the delimiters `"=\n"` of `loadConfig`. -/
def isDelim (c : Char) : Bool := c == '=' || c == '\n'

/-- The libc `strtok` with the delimiters `"=\n"`: the next token and what is
left behind the delimiter that ends it; `none` for NULL. -/
def strtok (s : CStr) : Option (CStr × CStr) :=
  match s.dropWhile isDelim with
  | [] => none
  | c :: t =>
    some ((c :: t).takeWhile (fun x => !isDelim x), ((c :: t).dropWhile (fun x => !isDelim x)).drop 1)

/-- Lines 455-472 of `loadConfig`: the field that `name` names takes `val`. -/
def setField (cfg : config) (name val : CStr) : config :=
  if name = "current_rom".toList then { cfg with current_rom := val }
  else if name = "auto_boot_seconds".toList then { cfg with auto_boot_seconds := atoi val }
  else if name = "auto_boot_rom".toList then { cfg with auto_boot_rom := val }
  else if name = "colors".toList then { cfg with colors := atoi val }
  else if name = "brightness".toList then { cfg with brightness := atoi val }
  else if name = "enable_adb".toList then { cfg with enable_adb := atoi val }
  else if name = "hide_internal".toList then { cfg with hide_internal := atoi val }
  else if name = "int_display_name".toList then { cfg with int_display_name := val }
  else if name = "rotation".toList then { cfg with rotation := atoi val }
  else cfg

/-- The body of the loop of `loadConfig` (lines 447-473) for one line read. -/
def loadConfig_line (cfg : config) (line : CStr) : config :=
  match strtok line with
  | none => cfg
  | some (name, rest) =>
    match strtok rest with
    | none => cfg
    | some (val, _) => setField cfg name val

/-- The method `MultiROM::loadConfig` (lines 435-479) on what `multirom.ini`
holds; `none` when `fopen` fails. -/
def loadConfig (TW_DEFAULT_ROTATION : Int) (f : Option CStr) : config :=
  match f with
  | none => config_default TW_DEFAULT_ROTATION
  | some text => (fgets_lines [] text).foldl loadConfig_line (config_default TW_DEFAULT_ROTATION)

/-- The method `MultiROM::saveConfig` (lines 481-498): what it writes into
`multirom.ini` when `fopen` succeeds. -/
def saveConfig (cfg : config) : CStr :=
  "current_rom=".toList ++ cfg.current_rom ++ "\n".toList
  ++ "auto_boot_seconds=".toList ++ print_d cfg.auto_boot_seconds ++ "\n".toList
  ++ "auto_boot_rom=".toList ++ cfg.auto_boot_rom ++ "\n".toList
  ++ "colors=".toList ++ print_d cfg.colors ++ "\n".toList
  ++ "brightness=".toList ++ print_d cfg.brightness ++ "\n".toList
  ++ "enable_adb=".toList ++ print_d cfg.enable_adb ++ "\n".toList
  ++ "hide_internal=".toList ++ print_d cfg.hide_internal ++ "\n".toList
  ++ "int_display_name=".toList ++ cfg.int_display_name ++ "\n".toList
  ++ "rotation=".toList ++ print_d cfg.rotation ++ "\n".toList

/-- The nine keys, in the order in which `saveConfig` writes them. -/
def knownKeys : List CStr :=
  ["current_rom".toList, "auto_boot_seconds".toList, "auto_boot_rom".toList, "colors".toList,
   "brightness".toList, "enable_adb".toList, "hide_internal".toList, "int_display_name".toList,
   "rotation".toList]

/-- The six keys of the integer fields. -/
def intKeys : List CStr :=
  ["auto_boot_seconds".toList, "colors".toList, "brightness".toList, "enable_adb".toList,
   "hide_internal".toList, "rotation".toList]

/-- The text that `saveConfig` writes for the field of a key. -/
def fieldText (cfg : config) (key : CStr) : CStr :=
  if key = "current_rom".toList then cfg.current_rom
  else if key = "auto_boot_seconds".toList then print_d cfg.auto_boot_seconds
  else if key = "auto_boot_rom".toList then cfg.auto_boot_rom
  else if key = "colors".toList then print_d cfg.colors
  else if key = "brightness".toList then print_d cfg.brightness
  else if key = "enable_adb".toList then print_d cfg.enable_adb
  else if key = "hide_internal".toList then print_d cfg.hide_internal
  else if key = "int_display_name".toList then cfg.int_display_name
  else if key = "rotation".toList then print_d cfg.rotation
  else []

/-- The key of a line as `loadConfig` reads it: the first token, if a second
one follows. -/
def keyOf (line : CStr) : Option CStr :=
  match strtok line with
  | none => none
  | some (name, rest) =>
    match strtok rest with
    | none => none
    | some _ => some name

/-- A text that can stand on either side of `=` in a line: not empty, without
`=` and without a newline. -/
def token (t : CStr) : Prop := t ≠ [] ∧ ∀ c ∈ t, isDelim c = false

/-- The six integer fields of a config. -/
def intFields (cfg : config) : List Int :=
  [cfg.auto_boot_seconds, cfg.colors, cfg.brightness, cfg.enable_adb, cfg.hide_internal,
   cfg.rotation]

/-- Spaces, tabs and carriage returns only. -/
def blanks (ws : CStr) : Prop := ∀ c ∈ ws, c = ' ' ∨ c = '\t' ∨ c = '\r'

/-- A config with values other than the defaults and a negative number. -/
def cfgSample : config :=
  { current_rom := "CM 13".toList
    auto_boot_seconds := -1
    auto_boot_rom := "Ubuntu".toList
    colors := 3
    brightness := 255
    enable_adb := 1
    hide_internal := 0
    int_display_name := "Stock ROM".toList
    rotation := 270 }

/-- A line of 520 characters with the unknown key `junk`, whose characters from
the 512th on read `colors=7`. -/
def longLine : CStr := "junk=".toList ++ List.replicate 506 'x' ++ "colors=7".toList

/-- The sign and the digits that `atoi` reads behind the leading white
space. -/
def atoi_signed (r : CStr) : Int :=
  match r with
  | '-' :: rest => - (atoi_digits rest 0 : Int)
  | '+' :: rest => (atoi_digits rest 0 : Int)
  | rest => (atoi_digits rest 0 : Int)

/-- Whether a line of the file has one of the nine known keys. -/
def hasKnownKey (l : CStr) : Bool :=
  match keyOf (l ++ ['\n']) with
  | some k => knownKeys.contains k
  | none => false

/-- The line that `saveConfig` writes for a key, without its newline. -/
def savedLine (cfg : config) (key : CStr) : CStr := key ++ "=".toList ++ fieldText cfg key

/-- A config file that holds the nine known keys once each, in another order
than `saveConfig` writes them, and a line with an unknown key. -/
def iniShuffled : List CStr :=
  ["rotation=90".toList,
   "junk=1".toList,
   "current_rom=My ROM".toList,
   "colors=2".toList,
   "auto_boot_rom=Internal".toList,
   "brightness=40".toList,
   "int_display_name=Stock".toList,
   "auto_boot_seconds=-1".toList,
   "hide_internal=0".toList,
   "enable_adb=1".toList]

/-! ## Queued scripts -/

/-- The macro `MASK_ANDROID`. -/
def MASK_ANDROID : Nat :=
  M ROM_ANDROID_USB_DIR ||| M ROM_ANDROID_USB_IMG ||| M ROM_ANDROID_INTERNAL

/-- The macro `MASK_UTOUCH`. -/
def MASK_UTOUCH : Nat :=
  M ROM_UTOUCH_INTERNAL ||| M ROM_UTOUCH_USB_IMG ||| M ROM_UTOUCH_USB_DIR

/-- The local struct `script_t` of `executeCacheScripts`. -/
structure script_t where
  mtime : Nat
  name : CStr
  type : Nat
deriving DecidableEq

/-- What the environment answers to `executeCacheScripts`: the paths
`SCRIPT_FILE_CACHE` and `UBUNTU_COMMAND_FILE` of the build, the call `stat` on a
script (`st_mtime` as the `unsigned long` it is compared as, `none` when the
file is missing), and what `changeMounts` and `fakeBootPartition` return for a
ROM. -/
structure ScriptEnv where
  SCRIPT_FILE_CACHE : CStr
  UBUNTU_COMMAND_FILE : CStr
  st_mtime : CStr → Option Nat
  changeMounts_ok : CStr → Bool
  fakeBootPartition_ok : CStr → Bool

/-- The script file that the scan looks for in a ROM of a type, if the type is
one with queued scripts (lines 2300-2323). -/
def scriptPath (env : ScriptEnv) (m_curr_roms_path name : CStr) (type : Nat) : Option CStr :=
  if type &&& MASK_ANDROID ≠ 0 then
    some (m_curr_roms_path ++ name ++ "/".toList ++ env.SCRIPT_FILE_CACHE)
  else if type &&& MASK_UTOUCH ≠ 0 then
    some (m_curr_roms_path ++ name ++ "/".toList ++ env.UBUNTU_COMMAND_FILE)
  else none

/-- The body of the loop of lines 2292-2324 for one entry of the ROMs
directory. -/
def scanStep (env : ScriptEnv) (m_curr_roms_path : CStr) (fs : FS) (script : script_t)
    (dt : dirent) : script_t :=
  if dt.d_type ≠ DT_DIR ∨ dt.d_name.head? = some '.' then script
  else
    match scriptPath env m_curr_roms_path dt.d_name (M (getType m_curr_roms_path fs dt.d_name)) with
    | none => script
    | some path =>
      match env.st_mtime path with
      | none => script
      | some t =>
        if t > script.mtime then
          { mtime := t, name := dt.d_name, type := M (getType m_curr_roms_path fs dt.d_name) }
        else script

/-- What `executeCacheScripts` does. -/
inductive ScriptOutcome
  | nothing
  | mounts_failed (name : CStr)
  | boot_failed (name : CStr)
  | ran (name : CStr) (type : Nat)
deriving DecidableEq

/-- The method `MultiROM::executeCacheScripts` (lines 2273-2370) up to the run of
the script: `have_folder` is the test of line 2275, `roms` what `opendir` and
`readdir` give for the ROMs path.  The field `type` of the script starts out
uninitialised; it is read only after it was set. -/
def executeCacheScripts (env : ScriptEnv) (have_folder : Bool) (m_curr_roms_path : CStr) (fs : FS)
    (roms : Option (List dirent)) : ScriptOutcome :=
  if !have_folder then ScriptOutcome.nothing
  else
    match roms with
    | none => ScriptOutcome.nothing
    | some entries =>
      let script := entries.foldl (scanStep env m_curr_roms_path fs)
        { mtime := 0, name := [], type := 0 }
      if script.mtime = 0 then ScriptOutcome.nothing
      else if !env.changeMounts_ok script.name then ScriptOutcome.mounts_failed script.name
      else if !env.fakeBootPartition_ok script.name then ScriptOutcome.boot_failed script.name
      else ScriptOutcome.ran script.name script.type

/-- The ROMs with a queued script, in the order of the directory: the ROM's
name, its type and the modification time of the script. -/
def queued (env : ScriptEnv) (m_curr_roms_path : CStr) (fs : FS) (entries : List dirent) :
    List script_t :=
  entries.filterMap (fun dt =>
    if dt.d_type ≠ DT_DIR ∨ dt.d_name.head? = some '.' then none
    else
      match scriptPath env m_curr_roms_path dt.d_name
          (M (getType m_curr_roms_path fs dt.d_name)) with
      | none => none
      | some path =>
        (env.st_mtime path).map (fun t =>
          { mtime := t, name := dt.d_name, type := M (getType m_curr_roms_path fs dt.d_name) }))

/-- The comparison of lines 2305 and 2316: a script takes the place of the one
kept when it is strictly newer. -/
def newer (kept c : script_t) : script_t := if c.mtime > kept.mtime then c else kept

/-- Two Android ROMs on internal storage. -/
def fsTwoRoms : FS :=
  [("/data/media/0/multirom/roms".toList, Node.dir),
   ("/data/media/0/multirom/roms/A".toList, Node.dir),
   ("/data/media/0/multirom/roms/A/system".toList, Node.dir),
   ("/data/media/0/multirom/roms/A/data".toList, Node.dir),
   ("/data/media/0/multirom/roms/A/cache".toList, Node.dir),
   ("/data/media/0/multirom/roms/A/boot".toList, Node.dir),
   ("/data/media/0/multirom/roms/B".toList, Node.dir),
   ("/data/media/0/multirom/roms/B/system".toList, Node.dir),
   ("/data/media/0/multirom/roms/B/data".toList, Node.dir),
   ("/data/media/0/multirom/roms/B/cache".toList, Node.dir),
   ("/data/media/0/multirom/roms/B/boot".toList, Node.dir)]

/-- An environment in which the ROM `A` has a queued script with the
modification time `t` and `changeMounts` returns `mounts`. -/
def envQueued (t : Nat) (mounts : Bool) : ScriptEnv :=
  { SCRIPT_FILE_CACHE := "/cache/recovery/openrecoveryscript".toList
    UBUNTU_COMMAND_FILE := "/cache/recovery/ubuntu_command".toList
    st_mtime := fun path =>
      if path = "/data/media/0/multirom/roms/A//cache/recovery/openrecoveryscript".toList
      then some t else none
    changeMounts_ok := fun _ => mounts
    fakeBootPartition_ok := fun _ => true }

/-! # Theorems -/

/-! ## Facts about the tokenizer -/

theorem strtok_from_eq_splitOn (s acc : CStr) :
    strtok_from acc s
      = ((s.splitOn '\n').modifyHead (fun l => acc ++ l)).filter (fun l => !l.isEmpty) := by
  induction s generalizing acc with
  | nil =>
    cases acc <;> simp [strtok_from, List.splitOn, List.modifyHead]
  | cons c rest ih =>
    unfold strtok_from
    rw [List.splitOn, List.splitOnP_cons]
    by_cases hc : c = '\n'
    · subst hc
      have h0 := ih []
      simp only [List.splitOn, List.nil_append] at h0
      have hid : (List.modifyHead (fun l : List Char => l) (List.splitOnP (fun x => x == '\n') rest))
          = List.splitOnP (fun x => x == '\n') rest := by
        cases List.splitOnP (fun x => x == '\n') rest <;> rfl
      rw [hid] at h0
      cases acc with
      | nil => simp [h0, List.modifyHead]
      | cons a as => simp [h0, List.modifyHead]
    · have h1 := ih (acc ++ [c])
      simp only [List.splitOn] at h1
      simp only [hc, if_false, beq_iff_eq, h1, List.modifyHead_modifyHead]
      congr 2
      funext l
      simp

theorem strtok_from_append_newline (t rest acc : CStr) (ht : '\n' ∉ t) (hne : acc ++ t ≠ []) :
    strtok_from acc (t ++ '\n' :: rest) = (acc ++ t) :: strtok_from [] rest := by
  induction t generalizing acc with
  | nil =>
    simp only [List.append_nil] at hne
    simp [strtok_from, hne]
  | cons c cs ih =>
    have hc : c ≠ '\n' := fun h => ht (by simp [h])
    have hcs : '\n' ∉ cs := fun h => ht (by simp [h])
    have h1 := ih (acc ++ [c]) hcs (by simp)
    rw [List.cons_append, strtok_from, if_neg hc, h1]
    simp

theorem strtok_from_flatMap (toks : List CStr)
    (h : ∀ t ∈ toks, t ≠ [] ∧ '\n' ∉ t) :
    strtok_from [] (toks.flatMap (fun t => t ++ ['\n'])) = toks := by
  induction toks with
  | nil => simp [strtok_from]
  | cons t ts ih =>
    have ht := h t (by simp)
    simp only [List.flatMap_cons, List.append_assoc, List.singleton_append]
    rw [strtok_from_append_newline t _ [] ht.2 (by simpa using ht.1)]
    rw [ih (fun u hu => h u (by simp [hu]))]
    simp

theorem mem_strtok_from (s acc : CStr) (hacc : '\n' ∉ acc) :
    ∀ t ∈ strtok_from acc s, t ≠ [] ∧ '\n' ∉ t := by
  induction s generalizing acc with
  | nil =>
    intro t ht
    by_cases ha : acc = []
    · simp [strtok_from, ha] at ht
    · simp only [strtok_from, ha, if_false, List.mem_singleton] at ht
      subst ht
      exact ⟨ha, hacc⟩
  | cons c rest ih =>
    intro t ht
    unfold strtok_from at ht
    by_cases hc : c = '\n'
    · simp only [hc, if_true] at ht
      by_cases ha : acc = []
      · simp only [ha, if_true] at ht
        exact ih [] (by simp) t ht
      · simp only [ha, if_false, List.mem_cons] at ht
        rcases ht with ht | ht
        · subst ht; exact ⟨ha, hacc⟩
        · exact ih [] (by simp) t ht
    · simp only [hc, if_false] at ht
      refine ih (acc ++ [c]) ?_ t ht
      simp only [List.mem_append, List.mem_singleton, not_or]
      exact ⟨hacc, fun h => hc h.symm⟩

theorem mem_strtok_lines (s : CStr) : ∀ t ∈ strtok_lines s, t ≠ [] ∧ '\n' ∉ t :=
  mem_strtok_from s [] (by simp)

/-! ## Facts about `strstr` and `skipLine` -/

theorem strstr_length_le (s n r : CStr) (h : strstr s n = some r) : r.length ≤ s.length := by
  induction s with
  | nil =>
    by_cases hn : n = []
    · simp [strstr, hn] at h; simp [← h]
    · simp [strstr, hn] at h
  | cons c rest ih =>
    unfold strstr at h
    by_cases hp : n.isPrefixOf (c :: rest) = true
    · simp only [hp, if_true, Option.some.injEq] at h
      simp [← h]
    · simp only [hp] at h
      have := ih h
      simp only [List.length_cons]
      omega

theorem strstr_eq_self_iff (p n : CStr) : strstr p n = some p ↔ n.isPrefixOf p = true := by
  cases p with
  | nil => cases n <;> simp [strstr, List.isPrefixOf]
  | cons c rest =>
    unfold strstr
    by_cases hp : n.isPrefixOf (c :: rest) = true
    · simp [hp]
    · rw [if_neg hp]
      constructor
      · intro h
        have := strstr_length_le _ _ _ h
        simp at this
      · intro h; exact absurd h hp

theorem strstr_isSome_of_isPrefixOf (p n : CStr) (h : n.isPrefixOf p = true) :
    (strstr p n).isSome = true := by
  rw [(strstr_eq_self_iff p n).2 h]; rfl

theorem strstr_dropWhile_isspace (l : CStr) (c : Char) (cs : CStr) (hc : isspace c = false) :
    (strstr (l.dropWhile isspace) (c :: cs)).isSome = (strstr l (c :: cs)).isSome := by
  induction l with
  | nil => rfl
  | cons a as ih =>
    rw [List.dropWhile_cons]
    by_cases ha : isspace a = true
    · rw [if_pos ha, ih]
      have hne : ¬ (c = a) := fun h => by rw [h, ha] at hc; exact Bool.noConfusion hc
      have hp : (c :: cs).isPrefixOf (a :: as) = false := by
        simp [List.isPrefixOf, hne]
      conv_rhs => rw [strstr, hp]
      simp
    · rw [if_neg ha]

theorem skipLine_chain (m u r w s f bt pl dd : Bool) :
    (if (m && !u && (r || (!w && !s))) = true then true
      else if f = true then true
      else if bt = true then false
      else if pl = true then true
      else if (dd && r) = true then true
      else false)
    = (((m && !u && (r || (!w && !s))) || f) || (!bt && (pl || (dd && r)))) := by
  cases m <;> cases u <;> cases r <;> cases w <;> cases s <;> cases f <;> cases bt <;>
    cases pl <;> cases dd <;> rfl

theorem skipLine_eq (b line : CStr) :
    skipLine b line = (dropsEarly line || (!refersToBoot b line && dropsLate line)) := by
  unfold skipLine dropsEarly dropsLate refersToBoot
  exact skipLine_chain _ _ _ _ _ _ _ _ _

theorem skipLine_of_format (b line : CStr) (h : (strstr line "format".toList).isSome = true) :
    skipLine b line = true := by
  rw [skipLine_eq, dropsEarly, h]; simp

theorem keptToken_of_setsFormatSystem (b t : CStr) (h : setsFormatSystem t = true) :
    keptToken b t = false := by
  unfold setsFormatSystem at h
  simp only [Bool.and_eq_true] at h
  have hf := strstr_isSome_of_isPrefixOf _ _ h.1
  have hs := skipLine_of_format b _ hf
  unfold keptToken
  cases hp : List.dropWhile isspace t with
  | nil => rw [hp] at h; simp [List.isPrefixOf] at h
  | cons c cs =>
    rw [hp] at h hs
    have hc : c = 'f' := by
      have := h.1
      simp [List.isPrefixOf] at this
      exact this.1.symm
    subst hc
    simp [hs]

theorem prepareZIP_token_eq (b : CStr) (st : ZipResult) (t : CStr) :
    prepareZIP_token b st t =
      if keptToken b t = true then { st with new_script := st.new_script ++ t ++ ['\n'] }
      else { st with changed := true, format_system := setsFormatSystem t || st.format_system } := by
  unfold prepareZIP_token keptToken setsFormatSystem
  simp only []
  generalize "format".toList = fmt
  generalize "/system".toList = sys
  cases hp : List.dropWhile isspace t with
  | nil => simp
  | cons c cs =>
    by_cases h1 : c = '#'
    · simp [h1]
    · by_cases h2 : skipLine b (c :: cs) = true
      · have e := strstr_eq_self_iff (c :: cs) fmt
        by_cases h3 : fmt.isPrefixOf (c :: cs) = true
        · simp [h1, h2, h3, e.2 h3]
        · have h4 : ¬ strstr (c :: cs) fmt = some (c :: cs) := fun h => h3 (e.1 h)
          simp [h1, h2, h3, h4]
      · simp [h1, h2]

theorem foldl_prepareZIP_token (b : CStr) (toks : List CStr) (st : ZipResult) :
    toks.foldl (prepareZIP_token b) st =
      { new_script := st.new_script ++ (toks.filter (keptToken b)).flatMap (fun l => l ++ ['\n'])
        changed := st.changed || toks.any (fun t => !keptToken b t)
        format_system := st.format_system || toks.any setsFormatSystem } := by
  induction toks generalizing st with
  | nil => simp
  | cons t ts ih =>
    rw [List.foldl_cons, ih, prepareZIP_token_eq]
    by_cases hk : keptToken b t = true
    · have hs : setsFormatSystem t = false := by
        cases h : setsFormatSystem t
        · rfl
        · rw [keptToken_of_setsFormatSystem b t h] at hk; exact Bool.noConfusion hk
      simp [hk, hs]
    · simp only [hk]
      simp only [Bool.not_eq_true] at hk
      simp [hk]
      cases st.changed <;> cases st.format_system <;> cases setsFormatSystem t <;> simp

theorem prepareZIP_eq (b script : CStr) (f0 : Bool) :
    prepareZIP b script f0 =
      { new_script := ((strtok_lines script).filter (keptToken b)).flatMap (fun l => l ++ ['\n'])
        changed := (strtok_lines script).any (fun t => !keptToken b t)
        format_system := f0 || (strtok_lines script).any setsFormatSystem } := by
  unfold prepareZIP
  rw [foldl_prepareZIP_token]
  simp

theorem strtok_lines_eq_splitOn (script : CStr) :
    strtok_lines script = (script.splitOn '\n').filter (fun l => !l.isEmpty) := by
  unfold strtok_lines
  rw [strtok_from_eq_splitOn]
  congr 1
  cases List.splitOn '\n' script <;> simp [List.modifyHead]

theorem strtok_lines_new_script (b script : CStr) (f0 : Bool) :
    strtok_lines (prepareZIP b script f0).new_script = (strtok_lines script).filter (keptToken b) := by
  rw [prepareZIP_eq]
  unfold strtok_lines
  apply strtok_from_flatMap
  intro t ht
  exact mem_strtok_lines script t (List.mem_filter.1 ht).1

theorem keptToken_false_iff (b l : CStr) :
    keptToken b l = false ↔
      l.dropWhile isspace ≠ [] ∧ (l.dropWhile isspace).head? ≠ some '#'
        ∧ skipLine b (l.dropWhile isspace) = true := by
  unfold keptToken
  cases hp : List.dropWhile isspace l with
  | nil => simp
  | cons c cs =>
    by_cases h1 : c = '#'
    · simp [h1]
    · cases h2 : skipLine b (c :: cs) <;> simp [h1, h2]

set_option maxRecDepth 100000 in
theorem flatMap_expectedS1 :
    (strtok_lines expectedS1).flatMap (fun l => l ++ ['\n']) = expectedS1 := by decide

set_option maxRecDepth 100000 in
theorem keptToken_S1 (b : CStr) :
    (strtok_lines scriptS1).filter (keptToken b) = strtok_lines expectedS1
    ∧ (strtok_lines scriptS1).any (fun t => !keptToken b t) = true
    ∧ (strtok_lines scriptS1).any setsFormatSystem = true := by
  have hl : strtok_lines scriptS1 =
      ["ui_print(\"hello\");".toList,
       "run_program(\"/sbin/busybox\", \"mount\", \"/system\");".toList,
       "format(\"ext4\",\"EMMC\",\"/dev/block/bootdevice/by-name/system\",\"0\",\"/system\");".toList,
       "package_extract_file(\"boot.img\",\"/dev/block/bootdevice/by-name/boot\");".toList,
       "symlink(\"/system/bin/sh\",\"/system/bin/sh\");".toList] := by decide
  have he : strtok_lines expectedS1 =
      ["ui_print(\"hello\");".toList,
       "package_extract_file(\"boot.img\",\"/dev/block/bootdevice/by-name/boot\");".toList,
       "symlink(\"/system/bin/sh\",\"/system/bin/sh\");".toList] := by decide
  have k1 : keptToken b "ui_print(\"hello\");".toList = true := by
    have hd : dropsEarly "ui_print(\"hello\");".toList = false := by decide
    have hd2 : dropsLate "ui_print(\"hello\");".toList = false := by decide
    have hw : List.dropWhile isspace "ui_print(\"hello\");".toList = "ui_print(\"hello\");".toList := by
      decide
    unfold keptToken
    simp only [hw, skipLine_eq, hd, hd2]
    simp
  have k2 : keptToken b "run_program(\"/sbin/busybox\", \"mount\", \"/system\");".toList = false := by
    have hd : dropsEarly "run_program(\"/sbin/busybox\", \"mount\", \"/system\");".toList = true := by
      decide
    have hw : List.dropWhile isspace "run_program(\"/sbin/busybox\", \"mount\", \"/system\");".toList
        = "run_program(\"/sbin/busybox\", \"mount\", \"/system\");".toList := by decide
    unfold keptToken
    simp only [hw, skipLine_eq, hd, Bool.true_or]
    decide
  have k3 : setsFormatSystem
      "format(\"ext4\",\"EMMC\",\"/dev/block/bootdevice/by-name/system\",\"0\",\"/system\");".toList
      = true := by decide
  have k3' := keptToken_of_setsFormatSystem b _ k3
  have k4 : keptToken b
      "package_extract_file(\"boot.img\",\"/dev/block/bootdevice/by-name/boot\");".toList = true := by
    have hd : dropsEarly
        "package_extract_file(\"boot.img\",\"/dev/block/bootdevice/by-name/boot\");".toList = false := by
      decide
    have hr : (strstr "package_extract_file(\"boot.img\",\"/dev/block/bootdevice/by-name/boot\");".toList
        "boot.img".toList).isSome = true := by decide
    have hw : List.dropWhile isspace
        "package_extract_file(\"boot.img\",\"/dev/block/bootdevice/by-name/boot\");".toList
        = "package_extract_file(\"boot.img\",\"/dev/block/bootdevice/by-name/boot\");".toList := by
      decide
    unfold keptToken
    simp only [hw, skipLine_eq, hd, refersToBoot, hr]
    simp
  have k5 : keptToken b "symlink(\"/system/bin/sh\",\"/system/bin/sh\");".toList = true := by
    have hd : dropsEarly "symlink(\"/system/bin/sh\",\"/system/bin/sh\");".toList = false := by decide
    have hd2 : dropsLate "symlink(\"/system/bin/sh\",\"/system/bin/sh\");".toList = false := by decide
    have hw : List.dropWhile isspace "symlink(\"/system/bin/sh\",\"/system/bin/sh\");".toList
        = "symlink(\"/system/bin/sh\",\"/system/bin/sh\");".toList := by decide
    unfold keptToken
    simp only [hw, skipLine_eq, hd, hd2]
    simp
  rw [hl, he]
  refine ⟨?_, ?_, ?_⟩
  · simp only [List.filter, k1, k2, k3', k4, k5]
  · simp only [List.any, k2]; simp
  · simp only [List.any, k3]; simp

/-- C1: the script that `prepareZIP` writes holds exactly the non-empty lines of
the input which, after their leading white space, are empty, start with `#` or
are kept by `skipLine`, in order, each followed by a newline; `changed` is set
exactly when some line was left out because `skipLine` dropped it; scenario S1
gives the expected three lines with `changed` (and `format_system`) set, for
every boot device path. -/
theorem C1_prepareZIP_lines :
    (∀ (m_boot_dev script : CStr) (format_system : Bool),
      (prepareZIP m_boot_dev script format_system).new_script
          = (((script.splitOn '\n').filter (fun l => !l.isEmpty)).filter
              (fun l => (l.dropWhile isspace).isEmpty
                  || (l.dropWhile isspace).head? == some '#'
                  || !skipLine m_boot_dev (l.dropWhile isspace))).flatMap (fun l => l ++ ['\n'])
      ∧ ((prepareZIP m_boot_dev script format_system).changed = true ↔
          ∃ l ∈ script.splitOn '\n', l ≠ [] ∧ l.dropWhile isspace ≠ []
            ∧ (l.dropWhile isspace).head? ≠ some '#'
            ∧ skipLine m_boot_dev (l.dropWhile isspace) = true))
    ∧ (∀ m_boot_dev : CStr,
        prepareZIP m_boot_dev scriptS1 false
          = { new_script := expectedS1, changed := true, format_system := true }) := by
  refine ⟨fun b script f0 => ⟨?_, ?_⟩, fun b => ?_⟩
  · rw [prepareZIP_eq, strtok_lines_eq_splitOn]
    rfl
  · rw [prepareZIP_eq, strtok_lines_eq_splitOn]
    simp only [List.any_eq_true, List.mem_filter, Bool.not_eq_true', keptToken_false_iff]
    constructor
    · rintro ⟨l, ⟨hl, hne⟩, h⟩
      refine ⟨l, hl, ?_, h⟩
      intro h0; simp [h0] at hne
    · rintro ⟨l, hl, hne, h⟩
      refine ⟨l, ⟨hl, ?_⟩, h⟩
      cases l with
      | nil => exact absurd rfl hne
      | cons _ _ => rfl
  · rw [prepareZIP_eq]
    obtain ⟨h1, h2, h3⟩ := keptToken_S1 b
    rw [h1, h2, h3, flatMap_expectedS1]
    rfl

/-- C2 (as stated, refuted): a `symlink(` line containing `mount` and `format`,
without `ui_print` and `run_program`, is dropped although neither (a) nor (b)
of the claim holds for it. -/
theorem C2_counterexample :
    containsTok lineC2 "mount" = true ∧ containsTok lineC2 "ui_print" = false
    ∧ skipLine bootDev lineC2 = true
    ∧ ¬ (containsTok lineC2 "run_program" = true
          ∨ (matchesMountPattern lineC2 = false ∧ containsTok lineC2 "symlink(" = false)) := by
  decide

/-- C2 (amended): a line that contains `mount` and no `ui_print` is dropped
exactly when it contains `run_program`, or neither matches `/system/?bin/?mount`
nor contains `symlink(`, or contains `format`, or contains
`/dev/block/platform/` without referring to the boot image or boot device. -/
theorem C2_mount_lines (m_boot_dev line : CStr)
    (hm : containsTok line "mount" = true) (hu : containsTok line "ui_print" = false) :
    skipLine m_boot_dev line = true ↔
      (containsTok line "run_program" = true
        ∨ (matchesMountPattern line = false ∧ containsTok line "symlink(" = false)
        ∨ containsTok line "format" = true
        ∨ (refersToBoot m_boot_dev line = false
            ∧ containsTok line "/dev/block/platform/" = true)) := by
  unfold containsTok at hm hu
  rw [skipLine_eq]
  unfold dropsEarly dropsLate containsTok matchesMountPattern
  rw [hm, hu]
  cases (strstr line "run_program".toList).isSome <;>
  cases (strstr_wildcard line "/system/?bin/?mount".toList).isSome <;>
  cases (strstr line "symlink(".toList).isSome <;>
  cases (strstr line "format".toList).isSome <;>
  cases refersToBoot m_boot_dev line <;>
  cases (strstr line "/dev/block/platform/".toList).isSome <;>
  cases (strstr line "\"dd\"".toList).isSome <;> decide

/-- C2 (amended), at a plain `mount(...)` call: it is dropped. -/
theorem C2_mount_lines_witness :
    containsTok lineMount "mount" = true ∧ containsTok lineMount "ui_print" = false
    ∧ (skipLine bootDev lineMount = true ↔
      (containsTok lineMount "run_program" = true
        ∨ (matchesMountPattern lineMount = false ∧ containsTok lineMount "symlink(" = false)
        ∨ containsTok lineMount "format" = true
        ∨ (refersToBoot bootDev lineMount = false
            ∧ containsTok lineMount "/dev/block/platform/" = true))) :=
  ⟨by decide, by decide, C2_mount_lines bootDev lineMount (by decide) (by decide)⟩

/-- C3 (as stated, refuted): a `format` call naming the boot block device is
dropped although it refers to the boot device. -/
theorem C3_counterexample :
    containsTok lineC3 "/dev/block/mmcblk0p2" = true ∧ refersToBoot bootDev lineC3 = true
      ∧ skipLine bootDev lineC3 = true := by
  decide

/-- C3 (amended): a line that refers to `boot.img`, the boot block device,
`bbootimg` or `zImage` is dropped exactly when the `mount` rule drops it or it
contains `format`; so such a line without `format` that the `mount` rule leaves
alone is kept, also when it contains `/dev/block/platform/` or a
`run_program` call of `"dd"`. -/
theorem C3_boot_lines (m_boot_dev line : CStr)
    (hb : containsTok line "boot.img" = true ∨ (strstr line m_boot_dev).isSome = true
        ∨ containsTok line "bbootimg" = true ∨ containsTok line "zImage" = true) :
    skipLine m_boot_dev line = true ↔
      ((containsTok line "mount" = true ∧ containsTok line "ui_print" = false
          ∧ (containsTok line "run_program" = true
              ∨ (matchesMountPattern line = false ∧ containsTok line "symlink(" = false)))
        ∨ containsTok line "format" = true) := by
  have hr : refersToBoot m_boot_dev line = true := by
    unfold refersToBoot
    unfold containsTok at hb
    rcases hb with h | h | h | h <;> rw [h] <;> simp
  rw [skipLine_eq, hr]
  unfold dropsEarly containsTok matchesMountPattern
  cases (strstr line "mount".toList).isSome <;>
  cases (strstr line "ui_print".toList).isSome <;>
  cases (strstr line "run_program".toList).isSome <;>
  cases (strstr_wildcard line "/system/?bin/?mount".toList).isSome <;>
  cases (strstr line "symlink(".toList).isSome <;>
  cases (strstr line "format".toList).isSome <;> simp

/-- C3 (amended), at a `dd` call that writes `boot.img` below
`/dev/block/platform/`: the line is kept. -/
theorem C3_boot_lines_witness :
    (containsTok lineDD "boot.img" = true ∧ containsTok lineDD "/dev/block/platform/" = true
      ∧ containsTok lineDD "\"dd\"" = true ∧ containsTok lineDD "run_program" = true)
    ∧ skipLine bootDev lineDD = false
    ∧ (skipLine bootDev lineDD = true ↔
      ((containsTok lineDD "mount" = true ∧ containsTok lineDD "ui_print" = false
          ∧ (containsTok lineDD "run_program" = true
              ∨ (matchesMountPattern lineDD = false ∧ containsTok lineDD "symlink(" = false)))
        ∨ containsTok lineDD "format" = true)) :=
  ⟨by decide, by decide, C3_boot_lines bootDev lineDD (Or.inl (by decide))⟩

/-- C4 (as stated, refuted): the only line of the script contains `format` and
`/system` and is dropped, yet `format_system` stays `false`, because `format`
is not at the start of the line. -/
theorem C4_counterexample :
    containsTok (scriptC4.dropLast) "format" = true
    ∧ containsTok (scriptC4.dropLast) "/system" = true
    ∧ prepareZIP bootDev scriptC4 false
        = { new_script := [], changed := true, format_system := false } := by
  decide

/-- C4 (amended): `prepareZIP` leaves out every non-blank, non-comment line that
contains `format`; and `format_system` comes out `true` exactly when it was
`true` on entry or some line begins, after its leading white space, with
`format` and also contains `/system`. -/
theorem C4_format_lines :
    ∀ (m_boot_dev script : CStr) (format_system : Bool),
      (∀ l ∈ script.splitOn '\n',
          l.dropWhile isspace ≠ [] → (l.dropWhile isspace).head? ≠ some '#' →
          containsTok l "format" = true →
          l ∉ strtok_lines (prepareZIP m_boot_dev script format_system).new_script)
      ∧ (prepareZIP m_boot_dev script format_system).format_system
          = (format_system ||
              (script.splitOn '\n').any (fun l =>
                "format".toList.isPrefixOf (l.dropWhile isspace) && containsTok l "/system")) := by
  intro b script f0
  constructor
  · intro l _ hne hc hf hmem
    rw [strtok_lines_new_script] at hmem
    have hk := (List.mem_filter.1 hmem).2
    have hf' : (strstr (l.dropWhile isspace) "format".toList).isSome = true := by
      have := strstr_dropWhile_isspace l 'f' "ormat".toList (by decide)
      rw [show "format".toList = 'f' :: "ormat".toList from rfl, this]
      exact hf
    have := (keptToken_false_iff b l).2 ⟨hne, hc, skipLine_of_format b _ hf'⟩
    rw [this] at hk
    exact Bool.noConfusion hk
  · rw [prepareZIP_eq, strtok_lines_eq_splitOn]
    show (f0 || _) = (f0 || _)
    congr 1
    rw [List.any_filter]
    congr 1
    funext l
    unfold setsFormatSystem containsTok
    have hs := strstr_dropWhile_isspace l '/' "system".toList (by decide)
    rw [show "/system".toList = '/' :: "system".toList from rfl, hs]
    cases l with
    | nil => rfl
    | cons c cs => rfl

/-- C5: sanitizing the script that `prepareZIP` wrote gives the same script
again, with `changed = false` and `format_system` untouched. -/
theorem C5_prepareZIP_idempotent :
    ∀ (m_boot_dev script : CStr) (f0 f1 : Bool),
      prepareZIP m_boot_dev (prepareZIP m_boot_dev script f0).new_script f1
        = { new_script := (prepareZIP m_boot_dev script f0).new_script
            changed := false
            format_system := f1 } := by
  intro b script f0 f1
  have ht := strtok_lines_new_script b script f0
  have hall : ∀ t ∈ (strtok_lines script).filter (keptToken b), keptToken b t = true :=
    fun t h => (List.mem_filter.1 h).2
  conv_lhs => rw [prepareZIP_eq, ht]
  have h1 : ((strtok_lines script).filter (keptToken b)).filter (keptToken b)
      = (strtok_lines script).filter (keptToken b) := List.filter_eq_self.2 hall
  have h2 : ((strtok_lines script).filter (keptToken b)).any (fun t => !keptToken b t) = false := by
    rw [List.any_eq_false]
    intro t h
    simp [hall t h]
  have h3 : ((strtok_lines script).filter (keptToken b)).any setsFormatSystem = false := by
    rw [List.any_eq_false]
    intro t h hs
    have := keptToken_of_setsFormatSystem b t hs
    rw [hall t h] at this
    exact Bool.noConfusion this
  rw [h1, h2, h3]
  conv_rhs => rw [prepareZIP_eq]
  simp

/-! ## Facts about the filesystem operations -/

theorem find_filter_ne (fs : FS) (k q : CStr) :
    find (fs.filter (fun e => !(e.1 == k))) q = if q = k then none else find fs q := by
  induction fs with
  | nil => simp [find]
  | cons e rest ih =>
    obtain ⟨k', n⟩ := e
    by_cases h : k' = k
    · subst h
      simp only [List.filter, beq_self_eq_true, Bool.not_true, ih, find]
      by_cases hq : q = k'
      · simp [hq]
      · have : ¬ k' = q := fun h => hq h.symm
        simp [hq, this]
    · have hb : (k' == k) = false := by simpa using h
      simp only [List.filter, hb, Bool.not_false, find, ih]
      by_cases hq : q = k
      · subst hq; simp [h]
      · simp [hq]

theorem lstat_write (fs : FS) (p q : CStr) (n : Node) :
    lstat (write fs p n) q = if normpath q = normpath p then some n else lstat fs q := by
  unfold lstat write
  simp only [find, find_filter_ne]
  by_cases h : normpath q = normpath p
  · simp [h]
  · have : ¬ normpath p = normpath q := fun e => h e.symm
    simp [h, this]

theorem lstat_erase (fs : FS) (p q : CStr) :
    lstat (erase fs p) q = if normpath q = normpath p then none else lstat fs q := by
  unfold lstat erase
  exact find_filter_ne fs _ _

theorem squeeze_append (b s : CStr) (c : Char) (hc : c ≠ '/') :
    squeeze (b ++ c :: s) = squeeze b ++ squeeze (c :: s) := by
  induction b with
  | nil => rfl
  | cons x xs ih =>
    have hh : (xs ++ c :: s).head? = some '/' ↔ xs.head? = some '/' := by
      cases xs with
      | nil => simp [hc]
      | cons y ys => simp
    rw [List.cons_append, squeeze, squeeze, ih]
    by_cases h1 : x = '/' ∧ xs.head? = some '/'
    · rw [if_pos h1, if_pos ⟨h1.1, hh.2 h1.2⟩]
    · rw [if_neg h1, if_neg (fun h => h1 ⟨h.1, hh.1 h.2⟩)]
      rfl

theorem normpath_orig (b : CStr) : normpath (b ++ "-orig".toList) = squeeze b ++ "-orig".toList := by
  unfold normpath
  have h : squeeze (b ++ "-orig".toList) = squeeze b ++ "-orig".toList :=
    squeeze_append b "orig".toList '-' (by decide)
  simp only [h]
  have hl : (squeeze b ++ "-orig".toList).getLast? = some 'g' := by
    rw [List.getLast?_append]
    rfl
  rw [hl]
  simp

theorem length_normpath_le (b : CStr) : (normpath b).length ≤ (squeeze b).length := by
  unfold normpath
  simp only []
  split
  · simp
  · exact Nat.le_refl _

theorem normpath_orig_ne (b : CStr) : normpath (b ++ "-orig".toList) ≠ normpath b := by
  intro h
  have h1 := congrArg List.length h
  rw [normpath_orig, List.length_append] at h1
  have h2 := length_normpath_le b
  have h3 : "-orig".toList.length = 5 := rfl
  omega

theorem normpath_orig_ne_breadcrumb (b : CStr) :
    normpath (b ++ "-orig".toList) ≠ normpath breadcrumb := by
  intro h
  rw [normpath_orig] at h
  have h1 := congrArg List.getLast? h
  rw [List.getLast?_append] at h1
  have h2 : "-orig".toList.getLast? = some 'g' := rfl
  have h3 : (normpath breadcrumb).getLast? = some 't' := by decide
  rw [h2, h3] at h1
  simp at h1

theorem sh_echo_eq (fs : FS) (t p : CStr) (h : lstat fs p ≠ some Node.dir) :
    sh_echo fs t p = write fs p (Node.file (t ++ ['\n'])) := by
  unfold sh_echo
  split
  · rename_i h'; exact absurd h' h
  · rfl

theorem rename_eq (fs : FS) (a b : CStr) (n : Node) (ha : lstat fs a = some n)
    (hn : n ≠ Node.dir) : rename fs a b = write (erase fs a) b n := by
  unfold rename
  rw [ha]
  cases n with
  | dir => exact absurd rfl hn
  | file d => rfl
  | symlink t => rfl
  | blockdev d => rfl

theorem sh_mv_eq (fs : FS) (a b : CStr) (n : Node) (ha : lstat fs a = some n)
    (hn : n ≠ Node.dir) (hb : lstat fs b ≠ some Node.dir) :
    sh_mv fs a b = write (erase fs a) b n := by
  unfold sh_mv
  rw [ha]
  simp only [hb, if_false]
  exact rename_eq fs a b n ha hn

theorem sh_ln_s_eq (fs : FS) (t l : CStr) (h : lstat fs l = none) :
    sh_ln_s fs t l = write fs l (Node.symlink t) := by
  unfold sh_ln_s
  rw [h]

theorem sh_rm_eq (fs : FS) (p : CStr) (n : Node) (h : lstat fs p = some n) (hn : n ≠ Node.dir) :
    sh_rm fs p = erase fs p := by
  unfold sh_rm
  rw [h]
  cases n with
  | dir => exact absurd rfl hn
  | file d => rfl
  | symlink t => rfl
  | blockdev d => rfl

theorem sh_rm_none (fs : FS) (p : CStr) (h : lstat fs p = none) : sh_rm fs p = fs := by
  unfold sh_rm
  rw [h]

theorem remove_eq (fs : FS) (p : CStr) (n : Node) (h : lstat fs p = some n) (hn : n ≠ Node.dir) :
    remove fs p = erase fs p := by
  unfold remove
  rw [h]
  cases n with
  | dir => exact absurd rfl hn
  | file d => rfl
  | symlink t => rfl
  | blockdev d => rfl

theorem seeded_spec (b img : CStr) (fs : FS) (n : Node)
    (hn : lstat fs b = some n) (ho : lstat fs (b ++ "-orig".toList) = none)
    (hc : lstat fs breadcrumb ≠ some Node.dir)
    (himg : access fs img = true ∨ (creat fs img).isSome = true) :
    ∃ fs1,
      (if access fs img then some fs
        else
          match creat fs img with
          | none => none
          | some fs1 => some (sh_dd fs1 b img)) = some fs1
      ∧ lstat fs1 b = some n
      ∧ lstat fs1 (b ++ "-orig".toList) ≠ some Node.dir
      ∧ lstat fs1 breadcrumb ≠ some Node.dir := by
  by_cases ha : access fs img = true
  · refine ⟨fs, by simp [ha], hn, ?_, hc⟩
    rw [ho]; simp
  · have hnone : lstat fs img = none := by
      unfold access at ha
      cases h : lstat fs img with
      | none => rfl
      | some _ => rw [h] at ha; simp at ha
    have hne : normpath b ≠ normpath img := by
      intro h
      unfold lstat at hn hnone
      rw [h, hnone] at hn
      exact Option.noConfusion hn
    have hcr : (creat fs img).isSome = true := by
      rcases himg with h | h
      · exact absurd h ha
      · exact h
    have hcreat : creat fs img = some (write fs img (Node.file [])) := by
      unfold creat at hcr ⊢
      rw [hnone] at hcr ⊢
      simp only [] at hcr ⊢
      by_cases hp : parentIsDir fs img = true
      · simp [hp]
      · simp [hp] at hcr
    have himg1 : lstat (write fs img (Node.file [])) img = some (Node.file []) := by
      rw [lstat_write, if_pos rfl]
    obtain ⟨d, hd⟩ : ∃ d, ∀ q, lstat (sh_dd (write fs img (Node.file [])) b img) q
        = if normpath q = normpath img then some (Node.file d) else lstat fs q := by
      unfold sh_dd
      cases readable (lstat (write fs img (Node.file [])) b) with
      | none => exact ⟨[], fun q => by simp only [lstat_write]⟩
      | some d =>
        refine ⟨d, fun q => ?_⟩
        rw [himg1]
        simp only [lstat_write]
        by_cases hq : normpath q = normpath img
        · simp [hq]
        · simp [hq]
    refine ⟨sh_dd (write fs img (Node.file [])) b img, by simp [ha, hcreat], ?_, ?_, ?_⟩
    · rw [hd, if_neg hne, hn]
    · rw [hd]
      split
      · simp
      · rw [ho]; simp
    · rw [hd]
      split
      · simp
      · exact hc

theorem normpath_breadcrumb : normpath breadcrumb = breadcrumb := by decide

theorem fakeBootPartition_eq (b img : CStr) (fs : FS) (n : Node)
    (hb : normpath b ≠ breadcrumb)
    (hn : lstat fs b = some n) (hnd : n ≠ Node.dir)
    (ho : lstat fs (b ++ "-orig".toList) = none)
    (hc : lstat fs breadcrumb ≠ some Node.dir)
    (himg : access fs img = true ∨ (creat fs img).isSome = true) :
    ∃ fs1, lstat fs1 b = some n
      ∧ fakeBootPartition b img fs
        = (true, write (write (erase (write fs1 breadcrumb (Node.file (b ++ ['\n']))) b)
                    (b ++ "-orig".toList) n) b (Node.symlink img)) := by
  obtain ⟨fs1, hseed, h1, h2, h3⟩ := seeded_spec b img fs n hn ho hc himg
  refine ⟨fs1, h1, ?_⟩
  have hacc : access fs (b ++ "-orig".toList) = false := by
    unfold access; rw [ho]; rfl
  have hbc : normpath b ≠ normpath breadcrumb := by rw [normpath_breadcrumb]; exact hb
  have e2 := sh_echo_eq fs1 b breadcrumb h3
  have hb2 : lstat (write fs1 breadcrumb (Node.file (b ++ ['\n']))) b = some n := by
    rw [lstat_write, if_neg hbc, h1]
  have ho2 : lstat (write fs1 breadcrumb (Node.file (b ++ ['\n']))) (b ++ "-orig".toList)
      ≠ some Node.dir := by
    rw [lstat_write, if_neg (normpath_orig_ne_breadcrumb b)]; exact h2
  have e3 := sh_mv_eq _ b (b ++ "-orig".toList) n hb2 hnd ho2
  have hb3 : lstat (write (erase (write fs1 breadcrumb (Node.file (b ++ ['\n']))) b)
      (b ++ "-orig".toList) n) b = none := by
    rw [lstat_write, if_neg (fun h => normpath_orig_ne b h.symm), lstat_erase, if_pos rfl]
  have e4 := sh_ln_s_eq _ img b hb3
  unfold fakeBootPartition
  simp only [hacc, hseed, e2, e3, e4]
  simp

/-- C8 (as stated, refuted): the boot device node exists and the `-orig` name
is free, yet `fakeBootPartition` returns `false` and changes nothing, because
the image does not exist and cannot be created. -/
theorem C8_counterexample :
    lstat fsRecovery bootDev = some (Node.blockdev "ANDROID!".toList)
    ∧ lstat fsRecovery (bootDev ++ "-orig".toList) = none
    ∧ fakeBootPartition bootDev imgNoDir fsRecovery = (false, fsRecovery) := by
  decide

/-- C8 (amended): when the boot device path names a node other than a
directory and is not the breadcrumb path, the `-orig` name is free, the
breadcrumb path is no directory, and the image exists or can be created,
`fakeBootPartition` returns `true` and leaves the boot device path a symbolic
link to the image, the `-orig` name the original node and the breadcrumb a file
holding the device path; `restoreBootPartition` then puts the original node
back and leaves neither the `-orig` name nor the breadcrumb. -/
theorem C8_fake_then_restore (m_boot_dev fakeImg : CStr) (fs : FS) (n : Node)
    (hb : normpath m_boot_dev ≠ breadcrumb)
    (hn : lstat fs m_boot_dev = some n) (hnd : n ≠ Node.dir)
    (ho : lstat fs (m_boot_dev ++ "-orig".toList) = none)
    (hc : lstat fs breadcrumb ≠ some Node.dir)
    (himg : access fs fakeImg = true ∨ (creat fs fakeImg).isSome = true) :
    (fakeBootPartition m_boot_dev fakeImg fs).1 = true
    ∧ lstat (fakeBootPartition m_boot_dev fakeImg fs).2 m_boot_dev = some (Node.symlink fakeImg)
    ∧ lstat (fakeBootPartition m_boot_dev fakeImg fs).2 (m_boot_dev ++ "-orig".toList) = some n
    ∧ lstat (fakeBootPartition m_boot_dev fakeImg fs).2 breadcrumb
        = some (Node.file (m_boot_dev ++ ['\n']))
    ∧ lstat (restoreBootPartition m_boot_dev (fakeBootPartition m_boot_dev fakeImg fs).2)
        m_boot_dev = some n
    ∧ lstat (restoreBootPartition m_boot_dev (fakeBootPartition m_boot_dev fakeImg fs).2)
        (m_boot_dev ++ "-orig".toList) = none
    ∧ lstat (restoreBootPartition m_boot_dev (fakeBootPartition m_boot_dev fakeImg fs).2)
        breadcrumb = none := by
  obtain ⟨fs1, h1, heq⟩ := fakeBootPartition_eq m_boot_dev fakeImg fs n hb hn hnd ho hc himg
  rw [heq]
  have hbc : normpath m_boot_dev ≠ normpath breadcrumb := by rw [normpath_breadcrumb]; exact hb
  have hbc' : normpath breadcrumb ≠ normpath m_boot_dev := fun h => hbc h.symm
  have hob := normpath_orig_ne m_boot_dev
  have hob' : normpath m_boot_dev ≠ normpath (m_boot_dev ++ "-orig".toList) := fun h => hob h.symm
  have hoc := normpath_orig_ne_breadcrumb m_boot_dev
  have hoc' : normpath breadcrumb ≠ normpath (m_boot_dev ++ "-orig".toList) := fun h => hoc h.symm
  generalize hF : write (write (erase (write fs1 breadcrumb (Node.file (m_boot_dev ++ ['\n'])))
      m_boot_dev) (m_boot_dev ++ "-orig".toList) n) m_boot_dev (Node.symlink fakeImg) = F
  have f1 : lstat F m_boot_dev = some (Node.symlink fakeImg) := by
    rw [← hF, lstat_write, if_pos rfl]
  have f2 : lstat F (m_boot_dev ++ "-orig".toList) = some n := by
    rw [← hF, lstat_write, if_neg hob, lstat_write, if_pos rfl]
  have f3 : lstat F breadcrumb = some (Node.file (m_boot_dev ++ ['\n'])) := by
    rw [← hF, lstat_write, if_neg hbc', lstat_write, if_neg hoc', lstat_erase, if_neg hbc',
      lstat_write, if_pos rfl]
  refine ⟨rfl, f1, f2, f3, ?_⟩
  have hacc : access F (m_boot_dev ++ "-orig".toList) = true := by
    unfold access; rw [f2]; rfl
  have r1 := sh_rm_eq F m_boot_dev _ f1 (by simp)
  have g2 : lstat (erase F m_boot_dev) (m_boot_dev ++ "-orig".toList) = some n := by
    rw [lstat_erase, if_neg hob, f2]
  have g1 : lstat (erase F m_boot_dev) m_boot_dev ≠ some Node.dir := by
    rw [lstat_erase, if_pos rfl]; simp
  have r2 := sh_mv_eq (erase F m_boot_dev) (m_boot_dev ++ "-orig".toList) m_boot_dev n g2 hnd g1
  have g3 : lstat (write (erase (erase F m_boot_dev) (m_boot_dev ++ "-orig".toList)) m_boot_dev n)
      breadcrumb = some (Node.file (m_boot_dev ++ ['\n'])) := by
    rw [lstat_write, if_neg hbc', lstat_erase, if_neg hoc', lstat_erase, if_neg hbc', f3]
  have r3 := remove_eq _ breadcrumb _ g3 (by simp)
  have hR : restoreBootPartition m_boot_dev F
      = erase (write (erase (erase F m_boot_dev) (m_boot_dev ++ "-orig".toList)) m_boot_dev n)
          breadcrumb := by
    unfold restoreBootPartition
    simp only [hacc, r1, r2, r3]
    simp
  rw [hR]
  refine ⟨?_, ?_, ?_⟩
  · rw [lstat_erase, if_neg hbc, lstat_write, if_pos rfl]
  · rw [lstat_erase, if_neg hoc, lstat_write, if_neg hob, lstat_erase, if_pos rfl]
  · rw [lstat_erase, if_pos rfl]

/-- C8 (amended), on the recovery filesystem with the image of ROM `A`. -/
theorem C8_fake_then_restore_witness :
    (fakeBootPartition bootDev imgA fsRecovery).1 = true
    ∧ lstat (fakeBootPartition bootDev imgA fsRecovery).2 bootDev = some (Node.symlink imgA)
    ∧ lstat (fakeBootPartition bootDev imgA fsRecovery).2 (bootDev ++ "-orig".toList)
        = some (Node.blockdev "ANDROID!".toList)
    ∧ lstat (fakeBootPartition bootDev imgA fsRecovery).2 breadcrumb
        = some (Node.file (bootDev ++ ['\n']))
    ∧ lstat (restoreBootPartition bootDev (fakeBootPartition bootDev imgA fsRecovery).2)
        bootDev = some (Node.blockdev "ANDROID!".toList)
    ∧ lstat (restoreBootPartition bootDev (fakeBootPartition bootDev imgA fsRecovery).2)
        (bootDev ++ "-orig".toList) = none
    ∧ lstat (restoreBootPartition bootDev (fakeBootPartition bootDev imgA fsRecovery).2)
        breadcrumb = none :=
  C8_fake_then_restore bootDev imgA fsRecovery (Node.blockdev "ANDROID!".toList)
    (by decide) (by decide) (by decide) (by decide) (by decide) (by decide)

/-- C9: when the `-orig` name already exists, `fakeBootPartition` returns
`false` and leaves the filesystem as it is: no image, no breadcrumb, no rename,
no link. -/
theorem C9_fake_refuses_second_run (m_boot_dev fakeImg : CStr) (fs : FS)
    (h : access fs (m_boot_dev ++ "-orig".toList) = true) :
    fakeBootPartition m_boot_dev fakeImg fs = (false, fs) := by
  unfold fakeBootPartition
  rw [h]
  rfl

/-- C9, on the filesystem a first hijack left: a second hijack with another
image is refused and the original node stays under the `-orig` name. -/
theorem C9_fake_refuses_second_run_witness :
    access fsCrashed (bootDev ++ "-orig".toList) = true
    ∧ lstat fsCrashed (bootDev ++ "-orig".toList) = some (Node.blockdev "ANDROID!".toList)
    ∧ fakeBootPartition bootDev imgNoDir fsCrashed = (false, fsCrashed) :=
  ⟨by decide, by decide, C9_fake_refuses_second_run bootDev imgNoDir fsCrashed (by decide)⟩

theorem lstat_sh_rm (fs : FS) (p q : CStr) (h : lstat fs p ≠ some Node.dir) :
    lstat (sh_rm fs p) q = if normpath q = normpath p then none else lstat fs q := by
  cases hp : lstat fs p with
  | none =>
    rw [sh_rm_none fs p hp]
    by_cases hq : normpath q = normpath p
    · rw [if_pos hq]
      unfold lstat at hp ⊢
      rw [hq, hp]
    · rw [if_neg hq]
  | some n =>
    have hn : n ≠ Node.dir := fun e => h (by rw [hp, e])
    rw [sh_rm_eq fs p n hp hn, lstat_erase]

theorem readable_ne_dir (o : Option Node) (d : CStr) (h : readable o = some d) :
    o ≠ some Node.dir ∧ o ≠ none ∧ ∀ t, o ≠ some (Node.symlink t) := by
  refine ⟨?_, ?_, ?_⟩
  · intro e; rw [e] at h; simp [readable] at h
  · intro e; rw [e] at h; simp [readable] at h
  · intro t e; rw [e] at h; simp [readable] at h

/-- C10 (as stated, refuted): in the state of scenario S6, where the boot device
path is a regular file, `failsafeCheckBootPartition` changes nothing: the
regular file, the `-orig` node and the breadcrumb all stay. -/
theorem C10_counterexample :
    lstat fsS6 bootDev = some (Node.file "boot.img of a ROM".toList)
    ∧ lstat fsS6 (bootDev ++ "-orig".toList) = some (Node.blockdev "ANDROID!".toList)
    ∧ read_file fsS6 breadcrumb = some (bootDev ++ ['\n'])
    ∧ failsafeCheckBootPartition fsS6 = some fsS6 := by
  decide

/-- C10 (amended): with a breadcrumb whose text, trailing white space dropped,
is `dev`, `failsafeCheckBootPartition` changes nothing when `dev-orig` is
missing or `dev` exists and is no symbolic link; when `dev-orig` exists (as a
node other than a directory) and `dev` is missing or a symbolic link, it puts
that node back under `dev` and leaves neither `dev-orig` nor the breadcrumb. -/
theorem C10_failsafe_restores (fs : FS) (text dev : CStr)
    (hr : read_file fs breadcrumb = some text) (ht : trimTrailing text = some dev) :
    ((lstat fs (dev ++ "-orig".toList) = none
        ∨ (∃ n, lstat fs dev = some n ∧ ∀ t, n ≠ Node.symlink t))
      → failsafeCheckBootPartition fs = some fs)
    ∧ (∀ n, lstat fs (dev ++ "-orig".toList) = some n → n ≠ Node.dir →
        (lstat fs dev = none ∨ ∃ t, lstat fs dev = some (Node.symlink t)) →
        ∃ fs', failsafeCheckBootPartition fs = some fs'
          ∧ lstat fs' dev = some n
          ∧ lstat fs' (dev ++ "-orig".toList) = none
          ∧ lstat fs' breadcrumb = none) := by
  have hrd := readable_ne_dir _ _ hr
  have hacc : access fs breadcrumb = true := by
    unfold access
    cases h : lstat fs breadcrumb with
    | none => exact absurd h hrd.2.1
    | some _ => rfl
  constructor
  · intro h
    unfold failsafeCheckBootPartition
    simp only [hacc, hr, ht]
    have : (!access fs (dev ++ "-orig".toList) || existsNotLink (lstat fs dev)) = true := by
      rcases h with h | ⟨n, hn, hl⟩
      · unfold access; rw [h]; rfl
      · rw [hn]
        cases n with
        | symlink t => exact absurd rfl (hl t)
        | file d => simp [existsNotLink]
        | blockdev d => simp [existsNotLink]
        | dir => simp [existsNotLink]
    simp only [Bool.not_true, Bool.false_eq_true, if_false]
    rw [if_pos this]
  · intro n ho hnd hdev
    have hnl : existsNotLink (lstat fs dev) = false := by
      rcases hdev with h | ⟨t, h⟩ <;> rw [h] <;> rfl
    have hao : access fs (dev ++ "-orig".toList) = true := by
      unfold access; rw [ho]; rfl
    have hdd : lstat fs dev ≠ some Node.dir := by
      rcases hdev with h | ⟨t, h⟩ <;> rw [h] <;> simp
    have hdb : normpath dev ≠ normpath breadcrumb := by
      intro e
      have : lstat fs dev = lstat fs breadcrumb := by unfold lstat; rw [e]
      rcases hdev with h | ⟨t, h⟩
      · exact hrd.2.1 (by rw [← this, h])
      · exact hrd.2.2 t (by rw [← this, h])
    have hbd : normpath breadcrumb ≠ normpath dev := fun e => hdb e.symm
    have hob := normpath_orig_ne dev
    have hoc := normpath_orig_ne_breadcrumb dev
    have hoc' : normpath breadcrumb ≠ normpath (dev ++ "-orig".toList) := fun h => hoc h.symm
    have g1 : lstat (sh_rm fs dev) (dev ++ "-orig".toList) = some n := by
      rw [lstat_sh_rm fs dev _ hdd, if_neg hob, ho]
    have g2 : lstat (sh_rm fs dev) dev ≠ some Node.dir := by
      rw [lstat_sh_rm fs dev _ hdd, if_pos rfl]; simp
    have r2 := sh_mv_eq (sh_rm fs dev) (dev ++ "-orig".toList) dev n g1 hnd g2
    have g3 : lstat (write (erase (sh_rm fs dev) (dev ++ "-orig".toList)) dev n) breadcrumb
        = lstat fs breadcrumb := by
      rw [lstat_write, if_neg hbd, lstat_erase, if_neg hoc', lstat_sh_rm fs dev _ hdd, if_neg hbd]
    obtain ⟨m, hm⟩ : ∃ m, lstat fs breadcrumb = some m := by
      cases h : lstat fs breadcrumb with
      | none => exact absurd h hrd.2.1
      | some m => exact ⟨m, rfl⟩
    have hmd : m ≠ Node.dir := fun e => hrd.1 (by rw [hm, e])
    have r3 := remove_eq _ breadcrumb m (g3.trans hm) hmd
    refine ⟨erase (write (erase (sh_rm fs dev) (dev ++ "-orig".toList)) dev n) breadcrumb,
      ?_, ?_, ?_, ?_⟩
    · unfold failsafeCheckBootPartition
      simp only [hacc, hr, ht, hao, hnl, r2, r3]
      simp
    · rw [lstat_erase, if_neg hdb, lstat_write, if_pos rfl]
    · rw [lstat_erase, if_neg hoc, lstat_write, if_neg hob, lstat_erase, if_pos rfl]
    · rw [lstat_erase, if_pos rfl]

/-- C10 (amended), on the filesystem a crash left in the middle of a hijack:
the boot device path is a symbolic link, and the original block node comes
back. -/
theorem C10_failsafe_restores_witness :
    (∃ t, lstat fsCrashed bootDev = some (Node.symlink t))
    ∧ ∃ fs', failsafeCheckBootPartition fsCrashed = some fs'
          ∧ lstat fs' bootDev = some (Node.blockdev "ANDROID!".toList)
          ∧ lstat fs' (bootDev ++ "-orig".toList) = none
          ∧ lstat fs' breadcrumb = none :=
  ⟨⟨imgA, by decide⟩,
   (C10_failsafe_restores fsCrashed (bootDev ++ ['\n']) bootDev (by decide) (by decide)).2
     (Node.blockdev "ANDROID!".toList) (by decide) (by decide) (Or.inr ⟨imgA, by decide⟩)⟩

/-- C6 (code defect): `changeMounts` on the ROM `My ROM` with the mount of the
fake `/system` failing returns `false` with the saved partition table back and
`/sbin/umount` in place, but the ROM directory stays under the spaceless name
`My-ROM`, nothing is left under `My ROM`, and the `space_renamed` pair stays
filled. -/
theorem C6_failed_changeMounts_keeps_rename :
    (changeMounts mountNoSystem stateSpaceROM "My ROM".toList).1 = false
    ∧ (changeMounts mountNoSystem stateSpaceROM "My ROM".toList).2.partitions
        = stateSpaceROM.partitions
    ∧ lstat (changeMounts mountNoSystem stateSpaceROM "My ROM".toList).2.fs "/sbin/umount".toList
        = some (Node.file [])
    ∧ lstat stateSpaceROM.fs "/data/media/0/multirom/roms/My ROM".toList = some Node.dir
    ∧ lstat (changeMounts mountNoSystem stateSpaceROM "My ROM".toList).2.fs
        "/data/media/0/multirom/roms/My ROM".toList = none
    ∧ lstat (changeMounts mountNoSystem stateSpaceROM "My ROM".toList).2.fs
        "/data/media/0/multirom/roms/My-ROM".toList = some Node.dir
    ∧ (changeMounts mountNoSystem stateSpaceROM "My ROM".toList).2.m_mount_rom_paths_0
        = "/data/media/0/multirom/roms/My ROM".toList
    ∧ (changeMounts mountNoSystem stateSpaceROM "My ROM".toList).2.m_mount_rom_paths_1
        = "/data/media/0/multirom/roms/My-ROM".toList := by
  decide

theorem fromRealdataSetting_toRealdataSetting (x : CStr)
    (h : "/realdata/media".toList.isPrefixOf x = false) :
    fromRealdataSetting (toRealdataSetting x) = x := by
  unfold toRealdataSetting
  by_cases hd : "/data/media".toList.isPrefixOf x = true
  · rw [if_pos hd]
    obtain ⟨rest, rfl⟩ := List.isPrefixOf_iff_prefix.1 hd
    have e : replace0 ("/data/media".toList ++ rest) 5 REALDATA
        = "/realdata/media".toList ++ rest := rfl
    rw [e]
    unfold fromRealdataSetting
    have hp : "/realdata/media".toList.isPrefixOf ("/realdata/media".toList ++ rest) = true :=
      List.isPrefixOf_iff_prefix.2 (List.prefix_append _ _)
    rw [if_pos hp]
    rfl
  · rw [if_neg hd]
    unfold fromRealdataSetting
    rw [h]
    rfl

theorem normalizeROMPath_settings (s : State) (path : CStr) :
    (normalizeROMPath s path).2.tw_internal_path = s.tw_internal_path
    ∧ (normalizeROMPath s path).2.tw_storage_path = s.tw_storage_path := by
  unfold normalizeROMPath
  split
  · exact ⟨rfl, rfl⟩
  · split
    · exact ⟨rfl, rfl⟩
    · exact ⟨rfl, rfl⟩

theorem Pop_Context_settings (s : State) :
    (Pop_Context s).tw_internal_path = s.tw_internal_path
    ∧ (Pop_Context s).tw_storage_path = s.tw_storage_path := by
  unfold Pop_Context
  split <;> exact ⟨rfl, rfl⟩

theorem restoreMounts_settings (s : State) :
    (restoreMounts s).tw_internal_path = fromRealdataSetting s.tw_internal_path
    ∧ (restoreMounts s).tw_storage_path = fromRealdataSetting s.tw_storage_path := by
  have hp := Pop_Context_settings
    { s with fs := sh_mv s.fs "/sbin/umount.bak".toList "/sbin/umount".toList }
  unfold restoreMounts restoreROMPath
  simp only []
  split
  · exact ⟨congrArg fromRealdataSetting hp.1, congrArg fromRealdataSetting hp.2⟩
  · exact ⟨congrArg fromRealdataSetting hp.1, congrArg fromRealdataSetting hp.2⟩

theorem changeMounts_hijack_settings (mount : TWPartition → Bool) (type : Nat) (base : CStr)
    (s s' : State) (h : changeMounts_hijack mount type base s = (true, s')) :
    s'.tw_internal_path = toRealdataSetting s.tw_internal_path
    ∧ s'.tw_storage_path = toRealdataSetting s.tw_storage_path := by
  unfold changeMounts_hijack at h
  simp only [] at h
  split at h
  · simp at h
  · split at h
    · simp at h
    · split at h
      · simp at h
      · simp only [Prod.mk.injEq, true_and] at h
        subst h
        exact ⟨rfl, rfl⟩

theorem changeMounts_settings (mount : TWPartition → Bool) (s s' : State) (name : CStr)
    (h : changeMounts mount s name = (true, s')) :
    s'.tw_internal_path = toRealdataSetting s.tw_internal_path
    ∧ s'.tw_storage_path = toRealdataSetting s.tw_storage_path := by
  have hn := normalizeROMPath_settings s (s.m_curr_roms_path ++ name)
  unfold changeMounts at h
  have := changeMounts_hijack_settings _ _ _ _ _ h
  simp only [Copy_And_Push_Context] at this
  rw [← hn.1, ← hn.2]
  exact this

/-- C7 (as stated, refuted): with the storage setting at `/realdata/media/0`
before the hijack, a successful `changeMounts` followed by `restoreMounts`
leaves it at `/data/media/0`. -/
theorem C7_counterexample :
    stateRealdataSetting.tw_storage_path = "/realdata/media/0".toList
    ∧ (changeMounts mountAll stateRealdataSetting "My ROM".toList).1 = true
    ∧ (restoreMounts (changeMounts mountAll stateRealdataSetting "My ROM".toList).2).tw_storage_path
        = "/data/media/0".toList := by
  decide

/-- C7 (amended): for settings that do not begin with `/realdata/media` before
the hijack, a successful `changeMounts` followed by `restoreMounts` leaves
`tw_storage_path` and the internal storage path as they were. -/
theorem C7_settings_round_trip (mount : TWPartition → Bool) (s s' : State) (name : CStr)
    (h : changeMounts mount s name = (true, s'))
    (hi : "/realdata/media".toList.isPrefixOf s.tw_internal_path = false)
    (hs : "/realdata/media".toList.isPrefixOf s.tw_storage_path = false) :
    (restoreMounts s').tw_internal_path = s.tw_internal_path
    ∧ (restoreMounts s').tw_storage_path = s.tw_storage_path := by
  obtain ⟨h1, h2⟩ := changeMounts_settings mount s s' name h
  obtain ⟨r1, r2⟩ := restoreMounts_settings s'
  rw [r1, r2, h1, h2]
  exact ⟨fromRealdataSetting_toRealdataSetting _ hi, fromRealdataSetting_toRealdataSetting _ hs⟩

/-- C7 (amended), on the device with the ROM `My ROM` and both settings at
`/data/media/0`: in between they are `/realdata/media/0`, afterwards
`/data/media/0` again. -/
theorem C7_settings_round_trip_witness :
    (changeMounts mountAll stateSpaceROM "My ROM".toList).2.tw_storage_path
        = "/realdata/media/0".toList
    ∧ (restoreMounts (changeMounts mountAll stateSpaceROM "My ROM".toList).2).tw_internal_path
        = stateSpaceROM.tw_internal_path
    ∧ (restoreMounts (changeMounts mountAll stateSpaceROM "My ROM".toList).2).tw_storage_path
        = stateSpaceROM.tw_storage_path :=
  ⟨by decide,
   C7_settings_round_trip mountAll stateSpaceROM
     (changeMounts mountAll stateSpaceROM "My ROM".toList).2 "My ROM".toList
     (by decide) (by decide) (by decide)⟩

/-! ## The crash recovery run twice -/

theorem lstat_remove_self (fs : FS) (p : CStr) :
    lstat (remove fs p) p = none ∨ lstat (remove fs p) p = some Node.dir := by
  unfold remove
  cases h : lstat fs p with
  | none => left; simp only []; exact h
  | some n =>
    cases n with
    | dir =>
      simp only []
      split
      · right; exact h
      · left; rw [lstat_erase, if_pos rfl]
    | file d => left; simp only []; rw [lstat_erase, if_pos rfl]
    | symlink t => left; simp only []; rw [lstat_erase, if_pos rfl]
    | blockdev d => left; simp only []; rw [lstat_erase, if_pos rfl]

theorem failsafe_of_no_breadcrumb (fs : FS) (h : access fs breadcrumb = false) :
    failsafeCheckBootPartition fs = some fs := by
  unfold failsafeCheckBootPartition
  rw [h]
  rfl

theorem failsafe_of_unreadable (fs : FS) (h : read_file fs breadcrumb = none) :
    failsafeCheckBootPartition fs = some fs := by
  unfold failsafeCheckBootPartition
  rw [h]
  split <;> rfl

theorem failsafe_after_remove (fs : FS) :
    failsafeCheckBootPartition (remove fs breadcrumb) = some (remove fs breadcrumb) := by
  rcases lstat_remove_self fs breadcrumb with h | h
  · apply failsafe_of_no_breadcrumb
    unfold access
    rw [h]
    rfl
  · apply failsafe_of_unreadable
    unfold read_file
    rw [h]
    rfl

theorem failsafe_fixed (fs fs1 : FS) (h : failsafeCheckBootPartition fs = some fs1) :
    failsafeCheckBootPartition fs1 = some fs1 := by
  have h0 := h
  unfold failsafeCheckBootPartition at h
  split at h
  · cases h; exact h0
  · split at h
    · cases h; exact h0
    · split at h
      · exact Option.noConfusion h
      · split at h
        · cases h; exact h0
        · cases h
          exact failsafe_after_remove _

/-- C11: `failsafeCheckBootPartition` run on the filesystem it left gives that
filesystem again, so running it twice is running it once (where the source
reads outside the breadcrumb text neither run has a result); and without the
breadcrumb it leaves the filesystem as it is. -/
theorem C11_failsafe_idempotent :
    ∀ fs : FS,
      (failsafeCheckBootPartition fs).bind failsafeCheckBootPartition
          = failsafeCheckBootPartition fs
      ∧ (∀ fs1, failsafeCheckBootPartition fs = some fs1 →
          failsafeCheckBootPartition fs1 = some fs1)
      ∧ (access fs breadcrumb = false → failsafeCheckBootPartition fs = some fs) := by
  intro fs
  refine ⟨?_, fun fs1 h => failsafe_fixed fs fs1 h, failsafe_of_no_breadcrumb fs⟩
  cases h : failsafeCheckBootPartition fs with
  | none => rfl
  | some fs1 => exact failsafe_fixed fs fs1 h

/-- C11, on the filesystem a crash left in the middle of a hijack (the first
run restores the boot device node, the second run changes nothing) and on the
recovery filesystem that has no breadcrumb. -/
theorem C11_failsafe_idempotent_witness :
    (∃ fs1, failsafeCheckBootPartition fsCrashed = some fs1 ∧ fs1 ≠ fsCrashed
        ∧ failsafeCheckBootPartition fs1 = some fs1)
    ∧ access fsNoBreadcrumb breadcrumb = false
    ∧ failsafeCheckBootPartition fsNoBreadcrumb = some fsNoBreadcrumb := by
  obtain ⟨fs1, h⟩ : ∃ fs1, failsafeCheckBootPartition fsCrashed = some fs1 ∧ fs1 ≠ fsCrashed :=
    by decide
  exact ⟨⟨fs1, h.1, h.2, (C11_failsafe_idempotent fsCrashed).2.1 fs1 h.1⟩, by decide,
    (C11_failsafe_idempotent fsNoBreadcrumb).2.2 (by decide)⟩

/-! ## Type detection, ramdisk magic, trampoline version -/

/-- C14: `getType(name)` returns the type of the detection table for the
presence of `system`, `data`, `cache`, `boot`, `root`, `system.img`,
`data.img`, `cache.img` and `root.img` in the ROM root, the ROMs path being
external exactly when it begins with `/mnt`; the layout of scenario S4 gives
Android on internal storage. -/
theorem C14_getType_table :
    (∀ (m_curr_roms_path : CStr) (fs : FS) (name : CStr),
      getType m_curr_roms_path fs name =
        detectionTable (!("/mnt".toList.isPrefixOf m_curr_roms_path))
          (access fs (romEntry m_curr_roms_path name "system"))
          (access fs (romEntry m_curr_roms_path name "data"))
          (access fs (romEntry m_curr_roms_path name "cache"))
          (access fs (romEntry m_curr_roms_path name "boot"))
          (access fs (romEntry m_curr_roms_path name "root"))
          (access fs (romEntry m_curr_roms_path name "system.img"))
          (access fs (romEntry m_curr_roms_path name "data.img"))
          (access fs (romEntry m_curr_roms_path name "cache.img"))
          (access fs (romEntry m_curr_roms_path name "root.img")))
    ∧ getType "/data/media/0/multirom/roms/".toList fsS4 "CM13".toList = ROM_ANDROID_INTERNAL := by
  refine ⟨fun roms fs name => ?_, by decide⟩
  unfold getType romEntry
  simp only []
  generalize "/mnt".toList.isPrefixOf roms = m
  generalize access fs (roms ++ "/".toList ++ name ++ "/".toList ++ "system".toList) = a1
  generalize access fs (roms ++ "/".toList ++ name ++ "/".toList ++ "data".toList) = a2
  generalize access fs (roms ++ "/".toList ++ name ++ "/".toList ++ "cache".toList) = a3
  generalize access fs (roms ++ "/".toList ++ name ++ "/".toList ++ "boot".toList) = a4
  generalize access fs (roms ++ "/".toList ++ name ++ "/".toList ++ "root".toList) = a5
  generalize access fs (roms ++ "/".toList ++ name ++ "/".toList ++ "system.img".toList) = a6
  generalize access fs (roms ++ "/".toList ++ name ++ "/".toList ++ "data.img".toList) = a7
  generalize access fs (roms ++ "/".toList ++ name ++ "/".toList ++ "cache.img".toList) = a8
  generalize access fs (roms ++ "/".toList ++ name ++ "/".toList ++ "root.img".toList) = a9
  cases m <;> cases a1 <;> cases a2 <;> cases a3 <;> cases a4 <;> cases a5 <;> cases a6
    <;> cases a7 <;> cases a8 <;> cases a9 <;> rfl

theorem magic16_gzip (a b : Nat) (ha : a < 256) (hb : b < 256) :
    magic16 a b = 0x8B1F ↔ a = 0x1F ∧ b = 0x8B := by
  unfold magic16
  rw [Nat.mod_eq_of_lt ha, Nat.mod_eq_of_lt hb]
  omega

theorem magic32_eq (a b c d : Nat) (ha : a < 256) (hb : b < 256) (hc : c < 256) (hd : d < 256)
    (a' b' c' d' : Nat) (ha' : a' < 256) (hb' : b' < 256) (hc' : c' < 256) :
    magic32 a b c d = a' + 256 * b' + 65536 * c' + 16777216 * d'
      ↔ a = a' ∧ b = b' ∧ c = c' ∧ d = d' := by
  unfold magic32
  rw [Nat.mod_eq_of_lt ha, Nat.mod_eq_of_lt hb, Nat.mod_eq_of_lt hc, Nat.mod_eq_of_lt hd]
  omega

/-- C16: the compression `decompressRamdisk` reports is that of the first four
bytes: gzip for `1F 8B`, lz4 for `02 21 4C 18`, lzma for `5D 00 00 00` and
`5D 00 00 80`, the error value for all other bytes, for a blob of fewer than
four bytes and for a file that cannot be opened; the three patterns exclude
each other. -/
theorem C16_ramdisk_magic :
    (∀ (a b c d : Nat) (rest : List Nat), a < 256 → b < 256 → c < 256 → d < 256 →
      decompressRamdisk (some (a :: b :: c :: d :: rest)) = decompressRamdisk (some [a, b, c, d])
      ∧ (decompressRamdisk (some (a :: b :: c :: d :: rest)) = CMPR_GZIP ↔ (a = 0x1F ∧ b = 0x8B))
      ∧ (decompressRamdisk (some (a :: b :: c :: d :: rest)) = CMPR_LZ4
          ↔ (a = 0x02 ∧ b = 0x21 ∧ c = 0x4C ∧ d = 0x18))
      ∧ (decompressRamdisk (some (a :: b :: c :: d :: rest)) = CMPR_LZMA
          ↔ (a = 0x5D ∧ b = 0 ∧ c = 0 ∧ (d = 0 ∨ d = 0x80)))
      ∧ (decompressRamdisk (some (a :: b :: c :: d :: rest)) = -1
          ↔ ¬ (a = 0x1F ∧ b = 0x8B) ∧ ¬ (a = 0x02 ∧ b = 0x21 ∧ c = 0x4C ∧ d = 0x18)
            ∧ ¬ (a = 0x5D ∧ b = 0 ∧ c = 0 ∧ (d = 0 ∨ d = 0x80))))
    ∧ (∀ blob : List Nat, blob.length < 4 → decompressRamdisk (some blob) = -1)
    ∧ decompressRamdisk none = -1
    ∧ decompressRamdisk (some [0x1F, 0x8B, 0x08, 0x00]) = CMPR_GZIP
    ∧ decompressRamdisk (some [0x02, 0x21, 0x4C, 0x18]) = CMPR_LZ4
    ∧ decompressRamdisk (some [0x5D, 0x00, 0x00, 0x00]) = CMPR_LZMA
    ∧ decompressRamdisk (some [0x00, 0x00, 0x00, 0x00]) = -1 := by
  refine ⟨?_, ?_, by decide, by decide, by decide, by decide, by decide⟩
  · intro a b c d rest ha hb hc hd
    have g := magic16_gzip a b ha hb
    have l4 := magic32_eq a b c d ha hb hc hd 0x02 0x21 0x4C 0x18 (by omega) (by omega)
      (by omega)
    have z1 := magic32_eq a b c d ha hb hc hd 0x5D 0 0 0 (by omega) (by omega) (by omega)
    have z2 := magic32_eq a b c d ha hb hc hd 0x5D 0 0 0x80 (by omega) (by omega) (by omega)
    norm_num at g l4 z1 z2
    unfold decompressRamdisk CMPR_GZIP CMPR_LZ4 CMPR_LZMA
    simp only []
    by_cases h1 : magic16 a b = 0x8B1F
    · have e := g.1 h1
      simp only [h1, if_true]
      refine ⟨trivial, ?_, ?_, ?_, ?_⟩ <;> simp <;> omega
    · have n1 : ¬ (a = 31 ∧ b = 139) := fun h => h1 (g.2 h)
      by_cases h2 : magic32 a b c d = 0x184C2102
      · have e := l4.1 h2
        simp only [h1, h2, if_true, if_false]
        refine ⟨trivial, ?_, ?_, ?_, ?_⟩ <;> simp <;> omega
      · have n2 : ¬ (a = 2 ∧ b = 33 ∧ c = 76 ∧ d = 24) := fun h => h2 (l4.2 h)
        by_cases h3 : magic32 a b c d = 0x0000005D ∨ magic32 a b c d = 0x8000005D
        · have e : a = 93 ∧ b = 0 ∧ c = 0 ∧ (d = 0 ∨ d = 128) := by
            rcases h3 with h | h
            · have := z1.1 h; omega
            · have := z2.1 h; omega
          simp only [h1, h2, h3, if_true, if_false]
          refine ⟨trivial, ?_, ?_, ?_, ?_⟩ <;> simp <;> omega
        · have n3 : ¬ (a = 93 ∧ b = 0 ∧ c = 0 ∧ (d = 0 ∨ d = 128)) := by
            intro h
            apply h3
            rcases h with ⟨ea, eb, ec, ed | ed⟩
            · left; exact z1.2 ⟨ea, eb, ec, ed⟩
            · right; exact z2.2 ⟨ea, eb, ec, ed⟩
          simp only [h1, h2, h3, if_false]
          refine ⟨trivial, ?_, ?_, ?_, ?_⟩ <;> simp <;> omega
  · intro blob hl
    match blob, hl with
    | [], _ => rfl
    | [_], _ => rfl
    | [_, _], _ => rfl
    | [_, _, _], _ => rfl
    | _ :: _ :: _ :: _ :: _, h => simp at h; omega

/-- C17 (as stated, refuted): with `only_if_older` set and both version probes
failing, the version of the ramdisk (−1) equals that of the device (−1), yet
`injectBoot` does not skip: it injects and writes the image. -/
theorem C17_counterexample :
    getTrampolineVersion envProbeFails.exec "/tmp/boot/rd/init".toList = -1
    ∧ getTrampolineVersion envProbeFails.exec
        ("/data/media/0/multirom".toList ++ "/trampoline".toList) = -1
    ∧ injectBoot envProbeFails "/data/media/0/multirom".toList true
        = { returned := true, image_written := true } := by
  decide

/-- C17 (amended): with `only_if_older` set and the image unpacked,
`injectBoot` returns `true` without touching the image exactly when the version
of the ramdisk's `init` is at least the version of the device's trampoline and
the latter is positive; in every other case, a failed probe of the device's
trampoline (−1) included, it goes on to inject. -/
theorem C17_skip_iff (env : InjectEnv) (m_path : CStr)
    (h1 : env.trampoline_found = true) (h2 : env.unpack_ok = true)
    (h3 : env.rd_cmpr ≠ -1) (h4 : env.init_found = true) :
    (getTrampolineVersion env.exec "/tmp/boot/rd/init".toList
        ≥ getTrampolineVersion env.exec (m_path ++ "/trampoline".toList)
      ∧ getTrampolineVersion env.exec (m_path ++ "/trampoline".toList) > 0
      → injectBoot env m_path true = { returned := true, image_written := false })
    ∧ (¬ (getTrampolineVersion env.exec "/tmp/boot/rd/init".toList
          ≥ getTrampolineVersion env.exec (m_path ++ "/trampoline".toList)
        ∧ getTrampolineVersion env.exec (m_path ++ "/trampoline".toList) > 0)
      → injectBoot env m_path true = injectBoot_inject env) := by
  unfold injectBoot
  simp only [h1, h2, h3, h4, Bool.not_true, Bool.false_eq_true, if_false, false_or, true_and]
  constructor
  · intro h; rw [if_pos h]
  · intro h; rw [if_neg h]

/-- C17 (amended), with both trampolines at version 17: the injection is
skipped. -/
theorem C17_skip_iff_witness :
    getTrampolineVersion envSameVersion.exec "/tmp/boot/rd/init".toList = 17
    ∧ injectBoot envSameVersion "/data/media/0/multirom".toList true
        = { returned := true, image_written := false } :=
  ⟨by decide,
   (C17_skip_iff envSameVersion "/data/media/0/multirom".toList rfl rfl (by decide) rfl).1
     (by decide)⟩

/-! ## Listing the ROMs and naming a new one -/

theorem compare_neg_irrefl (a : CStr) : compare_neg a a = false := by
  induction a with
  | nil => rfl
  | cons x xs ih => simp [compare_neg, ih]

theorem compare_neg_trans : ∀ a b c : CStr,
    compare_neg a b = true → compare_neg b c = true → compare_neg a c = true
  | [], [], _, h, _ => by simp [compare_neg] at h
  | [], _ :: _, [], _, h => by simp [compare_neg] at h
  | [], _ :: _, _ :: _, _, _ => by simp [compare_neg]
  | _ :: _, [], _, h, _ => by simp [compare_neg] at h
  | _ :: _, _ :: _, [], _, h => by simp [compare_neg] at h
  | x :: xs, y :: ys, z :: zs, h1, h2 => by
    simp only [compare_neg] at h1 h2 ⊢
    by_cases hxy : x.toNat < y.toNat
    · by_cases hyz : y.toNat < z.toNat
      · rw [if_pos (by omega)]
      · rw [if_neg hyz] at h2
        by_cases hzy : z.toNat < y.toNat
        · rw [if_pos hzy] at h2; cases h2
        · rw [if_pos (by omega)]
    · rw [if_neg hxy] at h1
      by_cases hyx : y.toNat < x.toNat
      · rw [if_pos hyx] at h1; cases h1
      · rw [if_neg hyx] at h1
        by_cases hyz : y.toNat < z.toNat
        · rw [if_pos (by omega)]
        · rw [if_neg hyz] at h2
          by_cases hzy : z.toNat < y.toNat
          · rw [if_pos hzy] at h2; cases h2
          · rw [if_neg hzy] at h2
            rw [if_neg (by omega), if_neg (by omega)]
            exact compare_neg_trans xs ys zs h1 h2

theorem compare_neg_total : ∀ a b : CStr, a ≠ b → compare_neg b a = false →
    compare_neg a b = true
  | [], [], h, _ => absurd rfl h
  | [], _ :: _, _, _ => by simp [compare_neg]
  | _ :: _, [], _, h => by simp [compare_neg] at h
  | x :: xs, y :: ys, hne, h => by
    simp only [compare_neg] at h ⊢
    by_cases hxy : x.toNat < y.toNat
    · rw [if_pos hxy]
    · rw [if_neg hxy]
      by_cases hyx : y.toNat < x.toNat
      · rw [if_pos hyx] at h; cases h
      · rw [if_neg hyx, if_neg hxy] at h
        rw [if_neg hyx]
        have hx : x = y := Char.ext (UInt32.ext (by
          have : x.toNat = y.toNat := by omega
          exact this))
        subst hx
        exact compare_neg_total xs ys (fun e => hne (by rw [e])) h

theorem compare_neg_iff_lt : ∀ a b : CStr, compare_neg a b = true ↔ a < b
  | [], [] => by
    simp only [compare_neg, Bool.false_eq_true, false_iff]
    intro h; cases h
  | [], _ :: _ => by
    simp only [compare_neg, true_iff]
    exact List.Lex.nil
  | _ :: _, [] => by
    simp only [compare_neg, Bool.false_eq_true, false_iff]
    intro h; cases h
  | x :: xs, y :: ys => by
    have ih := compare_neg_iff_lt xs ys
    simp only [compare_neg]
    have hlt : ∀ p q : Char, p < q ↔ p.toNat < q.toNat := fun p q => Iff.rfl
    by_cases hxy : x.toNat < y.toNat
    · rw [if_pos hxy]
      simp only [true_iff]
      exact List.Lex.rel ((hlt x y).2 hxy)
    · rw [if_neg hxy]
      by_cases hyx : y.toNat < x.toNat
      · rw [if_pos hyx]
        simp only [Bool.false_eq_true, false_iff]
        intro h
        cases h with
        | rel h => exact hxy ((hlt _ _).1 h)
        | cons h => omega
      · rw [if_neg hyx]
        have hx : x = y := Char.ext (UInt32.ext (by
          have : x.toNat = y.toNat := by omega
          exact this))
        subst hx
        rw [ih]
        constructor
        · intro h; exact List.Lex.cons h
        · intro h
          cases h with
          | rel h => exact absurd ((hlt _ _).1 h) hxy
          | cons h => exact h

theorem sort_insert_perm (lt : CStr → CStr → Bool) (x : CStr) (l : List CStr) :
    (sort_insert lt x l).Perm (x :: l) := by
  induction l with
  | nil => exact List.Perm.refl _
  | cons y ys ih =>
    simp only [sort_insert]
    by_cases h : lt y x = true
    · rw [if_pos h]
      exact (List.Perm.cons y ih).trans (List.Perm.swap x y ys)
    · rw [if_neg h]

theorem std_sort_perm (lt : CStr → CStr → Bool) (l : List CStr) : (std_sort lt l).Perm l := by
  induction l with
  | nil => exact List.Perm.refl _
  | cons x xs ih =>
    show (sort_insert lt x (std_sort lt xs)).Perm (x :: xs)
    exact (sort_insert_perm lt x _).trans (List.Perm.cons x ih)

theorem sort_insert_pairwise (lt : CStr → CStr → Bool)
    (htrans : ∀ a b c, lt a b = true → lt b c = true → lt a c = true)
    (x : CStr) (l : List CStr) (hl : l.Pairwise (fun a b => lt a b = true))
    (hx : ∀ y ∈ l, lt y x = false → lt x y = true) :
    (sort_insert lt x l).Pairwise (fun a b => lt a b = true) := by
  induction l with
  | nil => simp [sort_insert]
  | cons y ys ih =>
    rw [List.pairwise_cons] at hl
    simp only [sort_insert]
    by_cases h : lt y x = true
    · rw [if_pos h, List.pairwise_cons]
      refine ⟨fun z hz => ?_, ih hl.2 (fun z hz => hx z (List.mem_cons_of_mem _ hz))⟩
      rcases List.mem_cons.1 ((sort_insert_perm lt x ys).subset hz) with e | e
      · rw [e]; exact h
      · exact hl.1 z e
    · rw [if_neg h, List.pairwise_cons, List.pairwise_cons]
      have hxy : lt x y = true := hx y (List.mem_cons_self _ _) (by simpa using h)
      refine ⟨fun z hz => ?_, hl⟩
      rcases List.mem_cons.1 hz with e | e
      · rw [e]; exact hxy
      · exact htrans x y z hxy (hl.1 z e)

theorem std_sort_pairwise (lt : CStr → CStr → Bool)
    (htrans : ∀ a b c, lt a b = true → lt b c = true → lt a c = true)
    (htotal : ∀ a b, a ≠ b → lt b a = false → lt a b = true)
    (l : List CStr) (hn : l.Nodup) :
    (std_sort lt l).Pairwise (fun a b => lt a b = true) := by
  induction l with
  | nil => exact List.Pairwise.nil
  | cons x xs ih =>
    rw [List.nodup_cons] at hn
    show (sort_insert lt x (std_sort lt xs)).Pairwise _
    refine sort_insert_pairwise lt htrans x _ (ih hn.2) (fun y hy h => ?_)
    have hy' : y ∈ xs := (std_sort_perm lt xs).subset hy
    exact htotal x y (fun e => hn.1 (e ▸ hy')) h

theorem rom_sort_trans (a b c : CStr) (h1 : rom_sort a b = true) (h2 : rom_sort b c = true) :
    rom_sort a c = true := by
  unfold rom_sort at h1 h2 ⊢
  by_cases ha : a = INTERNAL_NAME
  · rw [if_pos ha]
  · rw [if_neg ha] at h1 ⊢
    by_cases hb : b = INTERNAL_NAME
    · rw [if_pos hb] at h1; cases h1
    · rw [if_neg hb] at h1 h2
      by_cases hc : c = INTERNAL_NAME
      · rw [if_pos hc] at h2; cases h2
      · rw [if_neg hc] at h2 ⊢
        exact compare_neg_trans a b c h1 h2

theorem rom_sort_total (a b : CStr) (hne : a ≠ b) (h : rom_sort b a = false) :
    rom_sort a b = true := by
  unfold rom_sort at h ⊢
  by_cases ha : a = INTERNAL_NAME
  · rw [if_pos ha]
  · rw [if_neg ha] at h ⊢
    by_cases hb : b = INTERNAL_NAME
    · rw [if_pos hb] at h; cases h
    · rw [if_neg hb] at h ⊢
      exact compare_neg_total a b hne h

theorem rom_sort_shape (s : List CStr) (hp : s.Pairwise (fun a b => rom_sort a b = true))
    (hn : s.Nodup) :
    ∃ rest, s = (if INTERNAL_NAME ∈ s then [INTERNAL_NAME] else []) ++ rest
      ∧ rest.Pairwise (fun a b => a < b)
      ∧ ∀ n, n ∈ rest ↔ (n ∈ s ∧ n ≠ INTERNAL_NAME) := by
  have key : ∀ t : List CStr, t.Pairwise (fun a b => rom_sort a b = true) →
      INTERNAL_NAME ∉ t → t.Pairwise (fun a b => a < b) := by
    intro t ht hi
    refine List.Pairwise.imp_of_mem (fun {a b} ha hb h => ?_) ht
    have ha' : a ≠ INTERNAL_NAME := fun e => hi (e ▸ ha)
    have hb' : b ≠ INTERNAL_NAME := fun e => hi (e ▸ hb)
    unfold rom_sort at h
    rw [if_neg ha', if_neg hb'] at h
    exact (compare_neg_iff_lt a b).1 h
  by_cases hi : INTERNAL_NAME ∈ s
  · rw [if_pos hi]
    cases s with
    | nil => cases hi
    | cons x t =>
      rw [List.pairwise_cons] at hp
      rw [List.nodup_cons] at hn
      have hx : x = INTERNAL_NAME := by
        by_contra hx
        rcases List.mem_cons.1 hi with e | e
        · exact hx e.symm
        · have := hp.1 _ e
          unfold rom_sort at this
          rw [if_neg hx, if_pos rfl] at this
          cases this
      subst hx
      refine ⟨t, rfl, key t hp.2 hn.1, fun n => ?_⟩
      constructor
      · intro h; exact ⟨List.mem_cons_of_mem _ h, fun e => hn.1 (e ▸ h)⟩
      · rintro ⟨h, hne⟩
        rcases List.mem_cons.1 h with e | e
        · exact absurd e hne
        · exact e
  · rw [if_neg hi]
    refine ⟨s, rfl, key s hp hi, fun n => ?_⟩
    constructor
    · intro h; exact ⟨h, fun e => hi (e ▸ h)⟩
    · rintro ⟨h, _⟩; exact h

/-- C15: for directory entries whose listed names (directories not beginning
with a dot) are distinct, `listRoms` returns these names one per line,
`Internal` first when it is among them and all the others after it in strictly
ascending lexicographic order of their characters. -/
theorem C15_listRoms_sorted (entries : List dirent)
    (hd : ((entries.filter listed).map dirent.d_name).Nodup) :
    ∃ rest : List CStr,
      listRoms (some entries)
        = ((if INTERNAL_NAME ∈ (entries.filter listed).map dirent.d_name
              then [INTERNAL_NAME] else []) ++ rest).flatMap (fun name => name ++ ['\n'])
      ∧ rest.Pairwise (fun a b => a < b)
      ∧ (∀ n, n ∈ rest ↔
          (n ≠ INTERNAL_NAME ∧ ∃ dr ∈ entries, dr.d_type = DT_DIR
            ∧ dr.d_name.head? ≠ some '.' ∧ dr.d_name = n)) := by
  obtain ⟨rest, h1, h2, h3⟩ := rom_sort_shape
    (std_sort rom_sort ((entries.filter listed).map dirent.d_name))
    (std_sort_pairwise rom_sort rom_sort_trans rom_sort_total _ hd)
    ((std_sort_perm rom_sort _).nodup_iff.2 hd)
  have hmem : ∀ n, n ∈ std_sort rom_sort ((entries.filter listed).map dirent.d_name)
      ↔ n ∈ (entries.filter listed).map dirent.d_name :=
    fun n => (std_sort_perm rom_sort _).mem_iff
  refine ⟨rest, ?_, h2, fun n => ?_⟩
  · show (std_sort rom_sort _).flatMap _ = _
    have e : (if INTERNAL_NAME ∈ std_sort rom_sort ((entries.filter listed).map dirent.d_name)
        then [INTERNAL_NAME] else [])
      = (if INTERNAL_NAME ∈ (entries.filter listed).map dirent.d_name
          then [INTERNAL_NAME] else []) := by
      by_cases hi : INTERNAL_NAME ∈ (entries.filter listed).map dirent.d_name
      · rw [if_pos hi, if_pos ((hmem _).2 hi)]
      · rw [if_neg hi, if_neg (fun h => hi ((hmem _).1 h))]
    rw [← e, ← h1]
  · rw [h3 n, hmem n]
    simp only [List.mem_map, List.mem_filter, listed, Bool.and_eq_true, beq_iff_eq,
      Bool.not_eq_true', beq_eq_false_iff_ne, ne_eq]
    constructor
    · rintro ⟨⟨dr, ⟨hin, ht, hh⟩, hnm⟩, hne⟩
      exact ⟨hne, dr, hin, ht, hh, hnm⟩
    · rintro ⟨hne, dr, hin, ht, hh, hnm⟩
      exact ⟨⟨dr, ⟨hin, ht, hh⟩, hnm⟩, hne⟩

/-- C15 on the ROMs directory of scenario S8, with a hidden directory and a
file added. -/
theorem C15_listRoms_sorted_witness :
    ∃ rest : List CStr,
      listRoms (some ({ d_name := ".cache".toList, d_type := DT_DIR }
          :: { d_name := "notes".toList, d_type := DT_REG } :: dirS8))
        = ((if INTERNAL_NAME ∈ (({ d_name := ".cache".toList, d_type := DT_DIR }
              :: { d_name := "notes".toList, d_type := DT_REG } :: dirS8).filter listed).map
                dirent.d_name
              then [INTERNAL_NAME] else []) ++ rest).flatMap (fun name => name ++ ['\n'])
      ∧ rest.Pairwise (fun a b => a < b)
      ∧ (∀ n, n ∈ rest ↔
          (n ≠ INTERNAL_NAME ∧ ∃ dr ∈ ({ d_name := ".cache".toList, d_type := DT_DIR }
              :: { d_name := "notes".toList, d_type := DT_REG } :: dirS8), dr.d_type = DT_DIR
            ∧ dr.d_name.head? ≠ some '.' ∧ dr.d_name = n)) :=
  C15_listRoms_sorted _ (by decide)

/-! ## The decimal printer and the collision loop -/

theorem digitChar_spec (d : Nat) :
    ('0' ≤ digitChar d ∧ digitChar d ≤ '9') ∧ (digitChar d).toNat - 48 = d % 10 := by
  have h : d % 10 < 10 := Nat.mod_lt _ (by decide)
  unfold digitChar
  generalize d % 10 = r at h
  interval_cases r <;> decide

theorem dec_core_append : ∀ (fuel n : Nat) (ds : CStr),
    dec_core fuel n ds = dec_core fuel n [] ++ ds
  | 0, _, _ => rfl
  | fuel + 1, n, ds => by
    simp only [dec_core]
    by_cases h : n / 10 = 0
    · rw [if_pos h, if_pos h]; rfl
    · rw [if_neg h, if_neg h, dec_core_append fuel (n / 10) (digitChar n :: ds),
        dec_core_append fuel (n / 10) [digitChar n], List.append_assoc]
      rfl

theorem atoi_digits_digit (d : Nat) (rest : CStr) (acc : Nat) :
    atoi_digits (digitChar d :: rest) acc = atoi_digits rest (10 * acc + d % 10) := by
  have h := digitChar_spec d
  simp only [atoi_digits]
  rw [if_pos h.1, h.2]

theorem dec_core_spec : ∀ (fuel n : Nat), n < fuel →
    ∃ k, (dec_core fuel n []).length = k ∧ 1 ≤ k ∧ n < 10 ^ k ∧ (k = 1 ∨ 10 ^ (k - 1) ≤ n)
      ∧ ∀ (acc : Nat) (rest : CStr),
          atoi_digits (dec_core fuel n [] ++ rest) acc = atoi_digits rest (acc * 10 ^ k + n)
  | 0, _, h => absurd h (Nat.not_lt_zero _)
  | fuel + 1, n, h => by
    simp only [dec_core]
    by_cases h0 : n / 10 = 0
    · rw [if_pos h0]
      have hn : n < 10 := by omega
      refine ⟨1, rfl, le_refl _, by simpa using hn, Or.inl rfl, fun acc rest => ?_⟩
      rw [List.singleton_append, atoi_digits_digit, Nat.mod_eq_of_lt hn]
      congr 1; ring
    · rw [if_neg h0]
      obtain ⟨k, hk1, hk2, hk3, hk4, hk5⟩ := dec_core_spec fuel (n / 10) (by omega)
      rw [dec_core_append]
      refine ⟨k + 1, by rw [List.length_append, hk1]; rfl, by omega, ?_, Or.inr ?_,
        fun acc rest => ?_⟩
      · rw [pow_succ]; omega
      · rw [Nat.add_sub_cancel]
        rcases hk4 with e | e
        · subst e; simp; omega
        · have : 10 ^ k = 10 ^ (k - 1) * 10 := by
            rw [← pow_succ]; congr 1; omega
          omega
      · rw [List.append_assoc, hk5, List.singleton_append, atoi_digits_digit]
        congr 1
        rw [pow_succ]
        have := Nat.div_add_mod n 10
        ring_nf
        omega

theorem dec_spec (n : Nat) :
    ∃ k, (dec n).length = k ∧ 1 ≤ k ∧ n < 10 ^ k ∧ (k = 1 ∨ 10 ^ (k - 1) ≤ n)
      ∧ ∀ (acc : Nat) (rest : CStr),
          atoi_digits (dec n ++ rest) acc = atoi_digits rest (acc * 10 ^ k + n) :=
  dec_core_spec (n + 1) n (Nat.lt_succ_self n)

theorem atoi_digits_dec (n : Nat) : atoi_digits (dec n) 0 = n := by
  obtain ⟨k, _, _, _, _, h⟩ := dec_spec n
  have := h 0 []
  rw [List.append_nil] at this
  rw [this]
  simp [atoi_digits]

theorem dec_injective (a b : Nat) (h : dec a = dec b) : a = b := by
  rw [← atoi_digits_dec a, ← atoi_digits_dec b, h]

theorem dec_length_le (n k : Nat) (h : n < 10 ^ k) (hk : 1 ≤ k) : (dec n).length ≤ k := by
  obtain ⟨j, hj1, hj2, hj3, hj4, _⟩ := dec_spec n
  rw [hj1]
  rcases hj4 with e | e
  · omega
  · by_contra hc
    have : 10 ^ k ≤ 10 ^ (j - 1) := Nat.pow_le_pow_right (by decide) (by omega)
    omega

theorem dec_length_seven (n : Nat) (h1 : 1000000 ≤ n) (h2 : n < 10000000) :
    (dec n).length = 7 := by
  obtain ⟨j, hj1, hj2, hj3, hj4, _⟩ := dec_spec n
  rw [hj1]
  have hle : j ≤ 7 := by
    rw [← hj1]; exact dec_length_le n 7 (by norm_num; exact h2) (by decide)
  by_contra hc
  have : 10 ^ j ≤ 10 ^ 6 := Nat.pow_le_pow_right (by decide) (by omega)
  norm_num at this
  omega

theorem candidate_injOn_seven (name : CStr) (a b : Nat)
    (ha1 : 1000000 ≤ a) (ha2 : a < 10000000) (hb1 : 1000000 ≤ b) (hb2 : b < 10000000)
    (h : candidate name a = candidate name b) : a = b := by
  unfold candidate at h
  simp only [dec_length_seven a ha1 ha2, dec_length_seven b hb1 hb2] at h
  apply dec_injective
  split at h
  · exact List.append_cancel_left h
  · exact List.append_cancel_left h

theorem candidate_length_le (name : CStr) (k : Nat) (hk : k < 10000000)
    (hn : name.length ≤ MAX_ROM_NAME) : (candidate name k).length ≤ MAX_ROM_NAME := by
  have hl := dec_length_le k 7 (by norm_num; exact hk) (by decide)
  unfold candidate
  simp only []
  split
  · rename_i h
    rw [List.length_append, List.length_take]
    unfold MAX_ROM_NAME at *
    omega
  · rename_i h
    rw [List.length_append]
    omega

theorem collisionLoop_found (roms : List CStr) (name : CStr) : ∀ (d j fuel : Nat),
    (∀ i, j ≤ i → i < j + d → nthCandidate name i ∈ roms) →
    nthCandidate name (j + d) ∉ roms → j + d < 10000000 → d + 1 ≤ fuel →
    collisionLoop fuel roms name (nthCandidate name j) (j + 1)
      = some (nthCandidate name (j + d))
  | 0, j, fuel, _, hfree, _, hf => by
    obtain ⟨f, rfl⟩ : ∃ f, fuel = f + 1 := ⟨fuel - 1, by omega⟩
    rw [collisionLoop, if_neg (by simpa using hfree)]
    rfl
  | d + 1, j, fuel, hin, hfree, hlt, hf => by
    obtain ⟨f, rfl⟩ : ∃ f, fuel = f + 1 := ⟨fuel - 1, by omega⟩
    have hj : nthCandidate name j ∈ roms := hin j (le_refl _) (by omega)
    rw [collisionLoop, if_pos (by simpa using hj), if_neg (by omega)]
    have e : candidate name (j + 1) = nthCandidate name (j + 1) := by
      unfold nthCandidate; rw [if_neg (by omega)]
    rw [e]
    have := collisionLoop_found roms name d (j + 1) f
      (fun i h1 h2 => hin i (by omega) (by omega))
      (by rw [show j + 1 + d = j + (d + 1) by omega]; exact hfree) (by omega) (by omega)
    rw [this, show j + 1 + d = j + (d + 1) by omega]

theorem collisionLoop_overflow (roms : List CStr) (name : CStr)
    (hall : ∀ i, i < 10000000 → nthCandidate name i ∈ roms) : ∀ (fuel j : Nat),
    j < 10000000 → collisionLoop fuel roms name (nthCandidate name j) (j + 1) = none
  | 0, _, _ => rfl
  | fuel + 1, j, hj => by
    rw [collisionLoop, if_pos (by simpa using hall j hj)]
    by_cases h : j + 1 ≥ 10000000
    · rw [if_pos h]
    · rw [if_neg h]
      have e : candidate name (j + 1) = nthCandidate name (j + 1) := by
        unfold nthCandidate; rw [if_neg (by omega)]
      rw [e]
      exact collisionLoop_overflow roms name hall fuel (j + 1) (by omega)

theorem exists_free_candidate (roms : List CStr) (name : CStr) (h : roms.length < 9000000) :
    ∃ k, k < 10000000 ∧ nthCandidate name k ∉ roms := by
  by_contra hc
  push_neg at hc
  have hsub : ∀ i ∈ Finset.Ico 1000000 10000000, candidate name i ∈ roms.toFinset := by
    intro i hi
    rw [Finset.mem_Ico] at hi
    have := hc i hi.2
    unfold nthCandidate at this
    rw [if_neg (by omega)] at this
    exact List.mem_toFinset.2 this
  have hinj : Set.InjOn (candidate name) (Finset.Ico 1000000 10000000 : Finset Nat) := by
    intro a ha b hb hab
    simp only [Finset.coe_Ico, Set.mem_Ico] at ha hb
    exact candidate_injOn_seven name a b ha.1 ha.2 hb.1 hb.2 hab
  have hcard := Finset.card_le_card_of_injOn (candidate name) hsub hinj
  rw [Nat.card_Ico] at hcard
  have := List.toFinset_card_le roms
  omega

theorem collisionLoop_romsFull (fuel : Nat) :
    collisionLoop fuel romsFull "ROM".toList "ROM".toList 1 = none := by
  have hall : ∀ i, i < 10000000 → nthCandidate "ROM".toList i ∈ romsFull := by
    intro i hi
    exact List.mem_map.2 ⟨i, List.mem_range.2 hi, rfl⟩
  exact collisionLoop_overflow romsFull "ROM".toList hall fuel 0 (by decide)

/-- C18 (as stated, refuted): with the ten million names `ROM`, `ROM1`, …,
`ROM9999999` taken the loop reaches the number 10000000, whose eight digits do
not fit the buffer `num[8]`; it returns no name, with the rounds that
`getNewRomName` gives it and with twice as many. -/
theorem C18_counterexample :
    collisionLoop 10000001 romsFull "ROM".toList "ROM".toList 1 = none
    ∧ collisionLoop 20000002 romsFull "ROM".toList "ROM".toList 1 = none :=
  ⟨collisionLoop_romsFull 10000001, collisionLoop_romsFull 20000002⟩

/-- C18 (amended): for every base name and every list of fewer than 9,000,000
existing names the collision loop of `getNewRomName` returns a name of at most
26 characters that is not among the existing names: the candidate of the
smallest round `k` that is free, round 0 being the base cut to 26 characters
and round `k ≥ 1` the cut base with `k` appended when that fits in 26
characters and written over its last characters otherwise. -/
theorem C18_collision_loop (add_source : CStr) (entries : List dirent) (zip default name : CStr)
    (hname : deriveName add_source zip default = some name)
    (hlen : ((entries.filter collected).map dirent.d_name).length < 9000000) :
    ∃ k, k < 10000000
      ∧ getNewRomName add_source (some entries) zip default
          = some (nthCandidate (name.take MAX_ROM_NAME) k)
      ∧ nthCandidate (name.take MAX_ROM_NAME) k ∉ (entries.filter collected).map dirent.d_name
      ∧ (∀ j, j < k →
          nthCandidate (name.take MAX_ROM_NAME) j ∈ (entries.filter collected).map dirent.d_name)
      ∧ (nthCandidate (name.take MAX_ROM_NAME) k).length ≤ MAX_ROM_NAME
      ∧ nthCandidate (name.take MAX_ROM_NAME) 0 = name.take MAX_ROM_NAME
      ∧ (∀ c, 1 ≤ c → nthCandidate (name.take MAX_ROM_NAME) c =
          if (name.take MAX_ROM_NAME).length + (dec c).length ≤ MAX_ROM_NAME
          then name.take MAX_ROM_NAME ++ dec c
          else (name.take MAX_ROM_NAME).take ((name.take MAX_ROM_NAME).length - (dec c).length)
            ++ dec c) := by
  generalize hroms : (entries.filter collected).map dirent.d_name = roms at hlen ⊢
  generalize hbase : name.take MAX_ROM_NAME = base
  have hbl : base.length ≤ MAX_ROM_NAME := by
    rw [← hbase, List.length_take]; exact Nat.min_le_left _ _
  classical
  have hex := exists_free_candidate roms base hlen
  have hk := Nat.find_spec hex
  have hmin : ∀ j, j < Nat.find hex → nthCandidate base j ∈ roms := by
    intro j hj
    by_contra hc
    exact Nat.find_min hex hj ⟨by omega, hc⟩
  refine ⟨Nat.find hex, hk.1, ?_, hk.2, hmin, ?_, rfl, fun c hc => ?_⟩
  · unfold getNewRomName
    rw [hname]
    simp only [hroms, hbase]
    have := collisionLoop_found roms base (Nat.find hex) 0 10000001
      (fun i _ h2 => hmin i (by omega)) (by rw [Nat.zero_add]; exact hk.2)
      (by rw [Nat.zero_add]; exact hk.1) (by omega)
    rw [Nat.zero_add (Nat.find hex)] at this
    exact this
  · unfold nthCandidate
    split
    · exact hbl
    · exact candidate_length_le base _ hk.1 hbl
  · unfold nthCandidate candidate
    rw [if_neg (by omega)]
    simp only []
    by_cases h : base.length + (dec c).length ≤ MAX_ROM_NAME
    · rw [if_pos h, if_neg (by omega)]
    · rw [if_neg h, if_pos (by omega)]

/-- C18 (amended) for a default name of 26 characters that is taken, as is its
first candidate. -/
theorem C18_collision_loop_witness :
    ∃ k, k < 10000000
      ∧ getNewRomName [] (some [{ d_name := "abcdefghijklmnopqrstuvwxyz".toList, d_type := DT_DIR },
            { d_name := "abcdefghijklmnopqrstuvwxy1".toList, d_type := DT_LNK }])
          "/sdcard/rom.zip".toList "abcdefghijklmnopqrstuvwxyz0123".toList
          = some (nthCandidate ("abcdefghijklmnopqrstuvwxyz0123".toList.take MAX_ROM_NAME) k)
      ∧ nthCandidate ("abcdefghijklmnopqrstuvwxyz0123".toList.take MAX_ROM_NAME) k ∉
          ([{ d_name := "abcdefghijklmnopqrstuvwxyz".toList, d_type := DT_DIR },
            { d_name := "abcdefghijklmnopqrstuvwxy1".toList, d_type := DT_LNK }].filter
              collected).map dirent.d_name
      ∧ (∀ j, j < k →
          nthCandidate ("abcdefghijklmnopqrstuvwxyz0123".toList.take MAX_ROM_NAME) j ∈
            ([{ d_name := "abcdefghijklmnopqrstuvwxyz".toList, d_type := DT_DIR },
              { d_name := "abcdefghijklmnopqrstuvwxy1".toList, d_type := DT_LNK }].filter
                collected).map dirent.d_name)
      ∧ (nthCandidate ("abcdefghijklmnopqrstuvwxyz0123".toList.take MAX_ROM_NAME) k).length
          ≤ MAX_ROM_NAME
      ∧ nthCandidate ("abcdefghijklmnopqrstuvwxyz0123".toList.take MAX_ROM_NAME) 0
          = "abcdefghijklmnopqrstuvwxyz0123".toList.take MAX_ROM_NAME
      ∧ (∀ c, 1 ≤ c → nthCandidate ("abcdefghijklmnopqrstuvwxyz0123".toList.take MAX_ROM_NAME) c =
          if ("abcdefghijklmnopqrstuvwxyz0123".toList.take MAX_ROM_NAME).length + (dec c).length
              ≤ MAX_ROM_NAME
          then "abcdefghijklmnopqrstuvwxyz0123".toList.take MAX_ROM_NAME ++ dec c
          else ("abcdefghijklmnopqrstuvwxyz0123".toList.take MAX_ROM_NAME).take
              (("abcdefghijklmnopqrstuvwxyz0123".toList.take MAX_ROM_NAME).length - (dec c).length)
            ++ dec c) :=
  C18_collision_loop [] _ "/sdcard/rom.zip".toList "abcdefghijklmnopqrstuvwxyz0123".toList
    "abcdefghijklmnopqrstuvwxyz0123".toList (by decide) (by decide)

/-- C19 (as stated, refuted): the path `cm-13.zip` holds no slash, so
`zip.substr(idx)` is called with `npos` and throws: no name is returned; and
for `/sdcard/cm-13.zip` the name returned is `cm-13`, which none of `Internal`,
`CM13`, `CM13-1` equals. -/
theorem C19_counterexample :
    getNewRomName "zip".toList (some dirS8) "cm-13.zip".toList [] = none
    ∧ getNewRomName "zip".toList (some dirS8) "/sdcard/cm-13.zip".toList [] ≠
        some "cm-13-2".toList := by
  decide

/-- C19 (amended): with the directories `Internal`, `CM13` and `CM13-1`,
`getNewRomName("/sdcard/cm-13.zip", "")` returns `cm-13`; with `Internal`,
`cm-13` and `cm-131` it returns `cm-132`, the number following the base without
a hyphen. -/
theorem C19_new_name :
    getNewRomName "zip".toList (some dirS8) "/sdcard/cm-13.zip".toList [] = some "cm-13".toList
    ∧ getNewRomName "zip".toList (some dirTaken) "/sdcard/cm-13.zip".toList []
        = some "cm-132".toList := by
  decide

/-- C29: for a source path without a slash, the empty path included, and an
empty default name, `getNewRomName` calls `zip.substr(npos)`, which throws
`std::out_of_range`; `cm-13.zip` is such a path. -/
theorem C29_substr_out_of_range :
    (∀ (add_source : CStr) (d : Option (List dirent)) (zip : CStr), '/' ∉ zip →
      find_last_of zip '/' = none ∧ substr zip (find_last_of zip '/') = none
      ∧ getNewRomName add_source d zip [] = none)
    ∧ getNewRomName "zip".toList (some dirS8) "cm-13.zip".toList [] = none
    ∧ getNewRomName "zip".toList (some dirS8) [] [] = none := by
  refine ⟨fun add_source d zip hz => ?_, by decide, by decide⟩
  have h : find_last_of zip '/' = none := by
    induction zip with
    | nil => rfl
    | cons x xs ih =>
      rw [List.mem_cons, not_or] at hz
      rw [find_last_of, ih hz.2]
      simp only []
      rw [if_neg (fun e => hz.1 e.symm)]
  refine ⟨h, by rw [h]; rfl, ?_⟩
  unfold getNewRomName deriveName
  rw [if_pos rfl]
  simp only [h, substr]

/-! ## Adding a ROM -/

/-- C12: on a drive that runs out of space while `data.img` is written,
`createDirs` fails after it has made the ROM directory, `boot` and `cache.img`;
`addROM` returns `false` through line 1621 without removing anything, so the
directory `cm-13` stays in the ROMs directory and `listRoms` lists it. -/
theorem C12_failed_addROM_leaves_directory :
    ∃ s1 : State,
      addROM envNoSpace stateDrive "/sdcard/cm-13.zip".toList 1 "/dev/block/sda1 (vfat)".toList
        = some (false, s1)
      ∧ s1.m_curr_roms_path = "/mnt/multirom-hammerhead/".toList
      ∧ lstat s1.fs "/mnt/multirom-hammerhead/cm-13".toList = some Node.dir
      ∧ lstat s1.fs "/mnt/multirom-hammerhead/cm-13/boot".toList = some Node.dir
      ∧ access s1.fs "/mnt/multirom-hammerhead/cm-13/cache.img".toList = true
      ∧ listRoms (opendir s1.fs s1.m_curr_roms_path) = "cm-13\n".toList := by
  refine ⟨_, rfl, ?_⟩
  decide

/-! ## Paths below a directory -/

theorem head?_squeeze : ∀ p : CStr, (squeeze p).head? = p.head?
  | [] => rfl
  | c :: rest => by
    rw [squeeze]
    by_cases h : c = '/' ∧ rest.head? = some '/'
    · rw [if_pos h, head?_squeeze rest, h.2, h.1]; rfl
    · rw [if_neg h]; rfl

theorem squeeze_idem : ∀ p : CStr, squeeze (squeeze p) = squeeze p
  | [] => rfl
  | c :: rest => by
    rw [squeeze]
    by_cases h : c = '/' ∧ rest.head? = some '/'
    · rw [if_pos h]; exact squeeze_idem rest
    · rw [if_neg h, squeeze, head?_squeeze, if_neg h, squeeze_idem rest]

theorem squeeze_no_slash : ∀ x : CStr, '/' ∉ x → squeeze x = x
  | [], _ => rfl
  | c :: rest, h => by
    rw [List.mem_cons, not_or] at h
    rw [squeeze, if_neg (fun e => h.1 e.1.symm), squeeze_no_slash rest h.2]

theorem getLast?_append_no_slash (p x : CStr) (hx : x ≠ []) (hs : '/' ∉ x) :
    (p ++ x).getLast? ≠ some '/' := by
  rw [List.getLast?_append]
  cases hl : x.getLast? with
  | none => exact absurd (List.getLast?_eq_none_iff.1 hl) hx
  | some z =>
    have hz : z ∈ x := List.mem_of_getLast?_eq_some hl
    intro e
    simp only [Option.or_some, Option.some.injEq] at e
    exact hs (e ▸ hz)

theorem normpath_no_trailing (q : CStr) (h : q.getLast? ≠ some '/') (hq : squeeze q = q) :
    normpath q = q := by
  unfold normpath
  simp only [hq]
  rw [if_neg (fun e => h e.1)]

theorem endsNoSlash_append (p x : CStr) (hx : childName x) : endsNoSlash (p ++ x) := by
  rcases List.eq_nil_or_concat x with e | ⟨x', c, e⟩
  · exact absurd e hx.1
  · refine ⟨p ++ x', c, by rw [e, List.concat_eq_append, List.append_assoc], fun hc => hx.2 ?_⟩
    rw [e, List.concat_eq_append]
    exact List.mem_append_right _ (hc ▸ List.mem_singleton_self c)

theorem normpath_endsNoSlash (b' : CStr) (c : Char) (hc : c ≠ '/') :
    normpath (b' ++ [c]) = squeeze b' ++ [c] := by
  have hs : squeeze (b' ++ [c]) = squeeze b' ++ [c] := by
    rw [squeeze_append b' [] c hc]
    congr 1
    rw [squeeze, if_neg (fun e => hc e.1)]; rfl
  unfold normpath
  simp only [hs]
  rw [if_neg]
  rintro ⟨e, _⟩
  rw [List.getLast?_append] at e
  simp only [List.getLast?_singleton, Option.or_some, Option.some.injEq] at e
  exact hc e

theorem normpath_child (b x : CStr) (hb : endsNoSlash b) (hx : childName x) :
    normpath (b ++ '/' :: x) = normpath b ++ '/' :: x := by
  obtain ⟨b', c, rfl, hc⟩ := hb
  rw [normpath_endsNoSlash b' c hc]
  obtain ⟨x0, x', rfl⟩ := List.exists_cons_of_ne_nil hx.1
  have hx0 : x0 ≠ '/' := fun e => hx.2 (e ▸ List.mem_cons_self _ _)
  have hs : squeeze (b' ++ [c] ++ '/' :: x0 :: x') = squeeze b' ++ [c] ++ '/' :: x0 :: x' := by
    rw [List.append_assoc, List.singleton_append, squeeze_append b' _ c hc, List.append_assoc,
      List.singleton_append]
    congr 1
    rw [squeeze, if_neg (fun e => hc e.1), squeeze,
      if_neg (fun e => hx0 (by have := e.2; simpa using this)), squeeze_no_slash _ hx.2]
  unfold normpath
  simp only [hs]
  rw [if_neg]
  rintro ⟨e, _⟩
  exact getLast?_append_no_slash (squeeze b' ++ [c] ++ ['/']) (x0 :: x') hx.1 hx.2
    (by rw [List.append_assoc, List.singleton_append]; exact e)

theorem normpath_idem_endsNoSlash (b : CStr) (hb : endsNoSlash b) :
    normpath (normpath b) = normpath b := by
  obtain ⟨b', c, rfl, hc⟩ := hb
  rw [normpath_endsNoSlash b' c hc]
  have := normpath_endsNoSlash (squeeze b') c hc
  rw [squeeze_idem] at this
  exact this

theorem dirname_child (p x : CStr) (hs : '/' ∉ x) : dirname (p ++ '/' :: x) = p := by
  unfold dirname
  rw [List.reverse_append, List.reverse_cons, List.append_assoc, List.singleton_append]
  have h : ∀ (r t : CStr), '/' ∉ r →
      List.dropWhile (fun c => !(c == '/')) (r ++ '/' :: t) = '/' :: t := by
    intro r t hr
    induction r with
    | nil => simp [List.dropWhile]
    | cons y ys ih =>
      rw [List.mem_cons, not_or] at hr
      rw [List.cons_append, List.dropWhile_cons]
      have : (!(y == '/')) = true := by simpa using fun e => hr.1 e.symm
      rw [if_pos this]
      exact ih hr.2
  rw [h _ _ (by simpa using hs)]
  simp

theorem normpath_child_ne_self (b x : CStr) (hb : endsNoSlash b) (hx : childName x) :
    normpath (b ++ '/' :: x) ≠ normpath b := by
  rw [normpath_child b x hb hx]
  intro e
  have := congrArg List.length e
  rw [List.length_append, List.length_cons] at this
  omega

theorem normpath_child_inj (b x y : CStr) (hb : endsNoSlash b) (hx : childName x)
    (hy : childName y) : normpath (b ++ '/' :: x) = normpath (b ++ '/' :: y) ↔ x = y := by
  rw [normpath_child b x hb hx, normpath_child b y hb hy]
  constructor
  · intro e
    have := List.append_cancel_left e
    exact (List.cons.inj this).2
  · intro e; rw [e]

theorem parentIsDir_child (fs : FS) (b x : CStr) (hb : endsNoSlash b) (hx : childName x)
    (hd : lstat fs b = some Node.dir) : parentIsDir fs (b ++ '/' :: x) = true := by
  unfold parentIsDir
  rw [normpath_child b x hb hx, dirname_child _ _ hx.2]
  have : lstat fs (normpath b) = some Node.dir := by
    unfold lstat at hd ⊢
    rw [normpath_idem_endsNoSlash b hb]; exact hd
  simp [this]

theorem lstat_mkdir_child (fs : FS) (b x : CStr) (hb : endsNoSlash b) (hx : childName x)
    (hd : lstat fs b = some Node.dir) (hfree : lstat fs (b ++ '/' :: x) = none) :
    mkdir_fails fs (b ++ '/' :: x) = false
    ∧ lstat (mkdir fs (b ++ '/' :: x)) b = some Node.dir
    ∧ ∀ y, childName y → lstat (mkdir fs (b ++ '/' :: x)) (b ++ '/' :: y)
        = if y = x then some Node.dir else lstat fs (b ++ '/' :: y) := by
  have hp := parentIsDir_child fs b x hb hx hd
  have hm : mkdir fs (b ++ '/' :: x) = write fs (b ++ '/' :: x) Node.dir := by
    unfold mkdir; rw [hfree]; simp only []; rw [if_pos hp]
  refine ⟨by unfold mkdir_fails; rw [hfree, hp]; rfl, ?_, fun y hy => ?_⟩
  · rw [hm, lstat_write, if_neg (fun e => normpath_child_ne_self b x hb hx e.symm)]
    exact hd
  · rw [hm, lstat_write]
    by_cases h : y = x
    · rw [if_pos h, if_pos (by rw [h])]
    · rw [if_neg h, if_neg (fun e => h ((normpath_child_inj b y x hb hy hx).1 e))]

theorem lstat_dd_zero_child (fs : FS) (b x : CStr) (hb : endsNoSlash b) (hx : childName x)
    (hd : lstat fs b = some Node.dir) (hfree : lstat fs (b ++ '/' :: x) = none) :
    lstat (sh_dd_zero fs (b ++ '/' :: x)) b = some Node.dir
    ∧ ∀ y, childName y → lstat (sh_dd_zero fs (b ++ '/' :: x)) (b ++ '/' :: y)
        = if y = x then some (Node.file []) else lstat fs (b ++ '/' :: y) := by
  have hp := parentIsDir_child fs b x hb hx hd
  have hm : sh_dd_zero fs (b ++ '/' :: x) = write fs (b ++ '/' :: x) (Node.file []) := by
    unfold sh_dd_zero; rw [hfree]; simp only []; rw [if_pos hp]
  refine ⟨?_, fun y hy => ?_⟩
  · rw [hm, lstat_write, if_neg (fun e => normpath_child_ne_self b x hb hx e.symm)]
    exact hd
  · rw [hm, lstat_write]
    by_cases h : y = x
    · rw [if_pos h, if_pos (by rw [h])]
    · rw [if_neg h, if_neg (fun e => h ((normpath_child_inj b y x hb hy hx).1 e))]

theorem mkdirs_children (b : CStr) (hb : endsNoSlash b) : ∀ (xs : List CStr) (fs : FS),
    xs.Nodup → (∀ x ∈ xs, childName x) → lstat fs b = some Node.dir →
    (∀ x ∈ xs, lstat fs (b ++ '/' :: x) = none) →
    (mkdirs (xs.map (fun x => b ++ '/' :: x)) fs).1 = true
    ∧ lstat (mkdirs (xs.map (fun x => b ++ '/' :: x)) fs).2 b = some Node.dir
    ∧ ∀ y, childName y → lstat (mkdirs (xs.map (fun x => b ++ '/' :: x)) fs).2 (b ++ '/' :: y)
        = if y ∈ xs then some Node.dir else lstat fs (b ++ '/' :: y)
  | [], fs, _, _, hd, _ => ⟨rfl, hd, fun y _ => by simp [mkdirs]⟩
  | x :: xs, fs, hn, hc, hd, hf => by
    rw [List.nodup_cons] at hn
    obtain ⟨h1, h2, h3⟩ := lstat_mkdir_child fs b x hb (hc x (List.mem_cons_self _ _)) hd
      (hf x (List.mem_cons_self _ _))
    have ih := mkdirs_children b hb xs (mkdir fs (b ++ '/' :: x)) hn.2
      (fun z hz => hc z (List.mem_cons_of_mem _ hz)) h2
      (fun z hz => by
        rw [h3 z (hc z (List.mem_cons_of_mem _ hz)), if_neg (fun (e : z = x) => hn.1 (e ▸ hz))]
        exact hf z (List.mem_cons_of_mem _ hz))
    rw [List.map_cons, mkdirs, h1]
    simp only [Bool.false_eq_true, if_false]
    refine ⟨ih.1, ih.2.1, fun y hy => ?_⟩
    rw [ih.2.2 y hy, h3 y hy]
    by_cases e1 : y ∈ xs
    · rw [if_pos e1, if_pos (List.mem_cons_of_mem _ e1)]
    · rw [if_neg e1]
      by_cases e2 : y = x
      · rw [if_pos e2, if_pos (by rw [e2]; exact List.mem_cons_self _ _)]
      · rw [if_neg e2, if_neg (by rw [List.mem_cons, not_or]; exact ⟨e2, e1⟩)]

theorem createDirsFromBase_children (b : CStr) (hb : endsNoSlash b) :
    ∀ (folders : List base_folder) (fs : FS),
    (folders.map base_folder.name).Nodup → (∀ x ∈ folders.map base_folder.name, childName x) →
    lstat fs b = some Node.dir →
    (∀ x ∈ folders.map base_folder.name, lstat fs (b ++ '/' :: x) = none) →
    (createDirsFromBase b folders fs).1 = true
    ∧ lstat (createDirsFromBase b folders fs).2 b = some Node.dir
    ∧ ∀ y, childName y → lstat (createDirsFromBase b folders fs).2 (b ++ '/' :: y)
        = if y ∈ folders.map base_folder.name then some Node.dir else lstat fs (b ++ '/' :: y)
  | [], fs, _, _, hd, _ => ⟨rfl, hd, fun y _ => by simp [createDirsFromBase]⟩
  | f :: rest, fs, hn, hc, hd, hf => by
    rw [List.map_cons] at hn hc hf ⊢
    rw [List.nodup_cons] at hn
    have e : b ++ "/".toList ++ f.name = b ++ '/' :: f.name := by
      rw [List.append_assoc]; rfl
    obtain ⟨h1, h2, h3⟩ := lstat_mkdir_child fs b f.name hb (hc _ (List.mem_cons_self _ _)) hd
      (hf _ (List.mem_cons_self _ _))
    have ih := createDirsFromBase_children b hb rest (mkdir fs (b ++ '/' :: f.name)) hn.2
      (fun z hz => hc z (List.mem_cons_of_mem _ hz)) h2
      (fun z hz => by
        rw [h3 z (hc z (List.mem_cons_of_mem _ hz)), if_neg (fun (e : z = f.name) => hn.1 (e ▸ hz))]
        exact hf z (List.mem_cons_of_mem _ hz))
    rw [createDirsFromBase, e, h1]
    simp only [Bool.false_eq_true, if_false]
    refine ⟨ih.1, ih.2.1, fun y hy => ?_⟩
    rw [ih.2.2 y hy, h3 y hy]
    by_cases e1 : y ∈ rest.map base_folder.name
    · rw [if_pos e1, if_pos (List.mem_cons_of_mem _ e1)]
    · rw [if_neg e1]
      by_cases e2 : y = f.name
      · rw [if_pos e2, if_pos (by rw [e2]; exact List.mem_cons_self _ _)]
      · rw [if_neg e2, if_neg (by rw [List.mem_cons, not_or]; exact ⟨e2, e1⟩)]

theorem createImagesFromBase_children (dd_ok : CStr → Bool) (hdd : ∀ p, dd_ok p = true)
    (b : CStr) (hb : endsNoSlash b) :
    ∀ (folders : List base_folder) (fs : FS),
    (folders.map (fun f => f.name ++ ".img".toList)).Nodup →
    (∀ x ∈ folders.map (fun f => f.name ++ ".img".toList), childName x) →
    (∀ f ∈ folders, 0 < f.size) →
    lstat fs b = some Node.dir →
    (∀ x ∈ folders.map (fun f => f.name ++ ".img".toList), lstat fs (b ++ '/' :: x) = none) →
    (createImagesFromBase dd_ok b folders fs).1 = true
    ∧ lstat (createImagesFromBase dd_ok b folders fs).2 b = some Node.dir
    ∧ ∀ y, childName y → lstat (createImagesFromBase dd_ok b folders fs).2 (b ++ '/' :: y)
        = if y ∈ folders.map (fun f => f.name ++ ".img".toList) then some (Node.file [])
          else lstat fs (b ++ '/' :: y)
  | [], fs, _, _, _, hd, _ => ⟨rfl, hd, fun y _ => by simp [createImagesFromBase]⟩
  | f :: rest, fs, hn, hc, hs, hd, hf => by
    rw [List.map_cons] at hn hc hf ⊢
    rw [List.nodup_cons] at hn
    have e : b ++ "/".toList ++ f.name ++ ".img".toList = b ++ '/' :: (f.name ++ ".img".toList) := by
      rw [List.append_assoc, List.append_assoc]; rfl
    have hcx := hc _ (List.mem_cons_self _ _)
    obtain ⟨h2, h3⟩ := lstat_dd_zero_child fs b (f.name ++ ".img".toList) hb hcx hd
      (hf _ (List.mem_cons_self _ _))
    have hci : createImage dd_ok fs b f.name f.size
        = (true, sh_dd_zero fs (b ++ '/' :: (f.name ++ ".img".toList))) := by
      unfold createImage
      rw [if_neg (by have := hs f (List.mem_cons_self _ _); omega)]
      simp only [e, hdd, Bool.not_true, Bool.false_eq_true, if_false]
      have : access (sh_dd_zero fs (b ++ '/' :: (f.name ++ ".img".toList)))
          (b ++ '/' :: (f.name ++ ".img".toList)) = true := by
        unfold access; rw [h3 _ hcx, if_pos rfl]; rfl
      rw [this]; rfl
    have ih := createImagesFromBase_children dd_ok hdd b hb rest
      (sh_dd_zero fs (b ++ '/' :: (f.name ++ ".img".toList))) hn.2
      (fun z hz => hc z (List.mem_cons_of_mem _ hz))
      (fun g hg => hs g (List.mem_cons_of_mem _ hg)) h2
      (fun z hz => by
        rw [h3 z (hc z (List.mem_cons_of_mem _ hz)), if_neg (fun (e : z = f.name ++ ".img".toList) => hn.1 (e ▸ hz))]
        exact hf z (List.mem_cons_of_mem _ hz))
    rw [createImagesFromBase, hci]
    simp only [Bool.not_true, Bool.false_eq_true, if_false]
    refine ⟨ih.1, ih.2.1, fun y hy => ?_⟩
    rw [ih.2.2 y hy, h3 y hy]
    by_cases e1 : y ∈ rest.map (fun f => f.name ++ ".img".toList)
    · rw [if_pos e1, if_pos (List.mem_cons_of_mem _ e1)]
    · rw [if_neg e1]
      by_cases e2 : y = f.name ++ ".img".toList
      · rw [if_pos e2, if_pos (by rw [e2]; exact List.mem_cons_self _ _)]
      · rw [if_neg e2, if_neg (by rw [List.mem_cons, not_or]; exact ⟨e2, e1⟩)]

theorem getType_children (roms : CStr) (fs : FS) (name : CStr) :
    getType roms fs name =
      detectionTable (!("/mnt".toList.isPrefixOf roms))
        (access fs (roms ++ "/".toList ++ name ++ '/' :: "system".toList))
        (access fs (roms ++ "/".toList ++ name ++ '/' :: "data".toList))
        (access fs (roms ++ "/".toList ++ name ++ '/' :: "cache".toList))
        (access fs (roms ++ "/".toList ++ name ++ '/' :: "boot".toList))
        (access fs (roms ++ "/".toList ++ name ++ '/' :: "root".toList))
        (access fs (roms ++ "/".toList ++ name ++ '/' :: "system.img".toList))
        (access fs (roms ++ "/".toList ++ name ++ '/' :: "data.img".toList))
        (access fs (roms ++ "/".toList ++ name ++ '/' :: "cache.img".toList))
        (access fs (roms ++ "/".toList ++ name ++ '/' :: "root.img".toList)) := by
  have e : ∀ x : CStr, roms ++ "/".toList ++ name ++ "/".toList ++ x
      = roms ++ "/".toList ++ name ++ '/' :: x := fun x => by
    rw [List.append_assoc _ "/".toList x]; rfl
  unfold getType
  simp only [e]
  generalize "/mnt".toList.isPrefixOf roms = m
  generalize access fs (roms ++ "/".toList ++ name ++ '/' :: "system".toList) = a1
  generalize access fs (roms ++ "/".toList ++ name ++ '/' :: "data".toList) = a2
  generalize access fs (roms ++ "/".toList ++ name ++ '/' :: "cache".toList) = a3
  generalize access fs (roms ++ "/".toList ++ name ++ '/' :: "boot".toList) = a4
  generalize access fs (roms ++ "/".toList ++ name ++ '/' :: "root".toList) = a5
  generalize access fs (roms ++ "/".toList ++ name ++ '/' :: "system.img".toList) = a6
  generalize access fs (roms ++ "/".toList ++ name ++ '/' :: "data.img".toList) = a7
  generalize access fs (roms ++ "/".toList ++ name ++ '/' :: "cache.img".toList) = a8
  generalize access fs (roms ++ "/".toList ++ name ++ '/' :: "root.img".toList) = a9
  cases m <;> cases a1 <;> cases a2 <;> cases a3 <;> cases a4 <;> cases a5 <;> cases a6
    <;> cases a7 <;> cases a8 <;> cases a9 <;> rfl

theorem getType_of_entries (roms : CStr) (fs : FS) (name : CStr) (created : List CStr)
    (hacc : ∀ y, childName y →
      access fs (roms ++ "/".toList ++ name ++ '/' :: y) = decide (y ∈ created)) :
    getType roms fs name =
      detectionTable (!("/mnt".toList.isPrefixOf roms))
        (decide ("system".toList ∈ created)) (decide ("data".toList ∈ created))
        (decide ("cache".toList ∈ created)) (decide ("boot".toList ∈ created))
        (decide ("root".toList ∈ created)) (decide ("system.img".toList ∈ created))
        (decide ("data.img".toList ∈ created)) (decide ("cache.img".toList ∈ created))
        (decide ("root.img".toList ∈ created)) := by
  rw [getType_children, hacc _ (by decide), hacc _ (by decide), hacc _ (by decide),
    hacc _ (by decide), hacc _ (by decide), hacc _ (by decide), hacc _ (by decide),
    hacc _ (by decide), hacc _ (by decide)]

theorem getType_never_installer (roms : CStr) (fs : FS) (name : CStr) :
    getType roms fs name ≠ ROM_INSTALLER_INTERNAL ∧ getType roms fs name ≠ ROM_INSTALLER_USB_DIR
    ∧ getType roms fs name ≠ ROM_INSTALLER_USB_IMG := by
  rw [getType_children]
  generalize "/mnt".toList.isPrefixOf roms = m
  generalize access fs (roms ++ "/".toList ++ name ++ '/' :: "system".toList) = a1
  generalize access fs (roms ++ "/".toList ++ name ++ '/' :: "data".toList) = a2
  generalize access fs (roms ++ "/".toList ++ name ++ '/' :: "cache".toList) = a3
  generalize access fs (roms ++ "/".toList ++ name ++ '/' :: "boot".toList) = a4
  generalize access fs (roms ++ "/".toList ++ name ++ '/' :: "root".toList) = a5
  generalize access fs (roms ++ "/".toList ++ name ++ '/' :: "system.img".toList) = a6
  generalize access fs (roms ++ "/".toList ++ name ++ '/' :: "data.img".toList) = a7
  generalize access fs (roms ++ "/".toList ++ name ++ '/' :: "cache.img".toList) = a8
  generalize access fs (roms ++ "/".toList ++ name ++ '/' :: "root.img".toList) = a9
  cases m <;> cases a1 <;> cases a2 <;> cases a3 <;> cases a4 <;> cases a5 <;> cases a6
    <;> cases a7 <;> cases a8 <;> cases a9 <;> decide

/-- C13 (as stated, refuted): an installer ROM of type `ROM_INSTALLER_INTERNAL`
with the base folder `root` is added with success, and `getType(name)` then
classifies it as `ROM_UBUNTU_INTERNAL`. -/
theorem C13_counterexample :
    ∃ s1 : State,
      addROM envInstaller stateDrive "/sdcard/sailfish.mrom".toList 3 INTERNAL_MEM_LOC_TXT
        = some (true, s1)
      ∧ getType_os envInstaller.m_installer 3 INTERNAL_MEM_LOC_TXT = some ROM_INSTALLER_INTERNAL
      ∧ getType s1.m_curr_roms_path s1.fs "SailfishOS".toList = ROM_UBUNTU_INTERNAL := by
  refine ⟨_, rfl, ?_⟩
  decide

/-- C13 (amended): for each of the nine types `t` that are not installer types,
in a ROMs directory that lies on internal storage exactly when `t` is an
internal type and in which the ROM directory can be made and holds nothing,
with the base folders of the type (`root` for Ubuntu, `cache`, `data`, `system`
for images of Android and Ubuntu Touch, each of positive size) and every image
written, `createDirs(name, t)` succeeds, the entries of the ROM directory are
exactly those of the skeleton of `t`, and `getType(name)` classifies it as `t`;
`getType(name)` never reports an installer type. -/
theorem C13_skeleton_classified (dd_ok : CStr → Bool) (roms name : CStr) (fs : FS)
    (folders : List base_folder) (t : Nat)
    (hdd : ∀ p, dd_ok p = true)
    (hname : childName name)
    (hbase : mkdir_fails fs (roms ++ "/".toList ++ name) = false)
    (hfresh : ∀ x, childName x → lstat fs (roms ++ "/".toList ++ name ++ '/' :: x) = none)
    (ht : t ∈ plainTypes)
    (hint : M t &&& MASK_INTERNAL ≠ 0 ↔ "/mnt".toList.isPrefixOf roms = false)
    (hfold : ∀ names, foldersFor t = some names →
      folders.map base_folder.name = names ∧ ∀ f ∈ folders, 0 < f.size) :
    (createDirs dd_ok roms folders fs name t).1 = true
    ∧ (∀ y, childName y →
        access (createDirs dd_ok roms folders fs name t).2 (roms ++ "/".toList ++ name ++ '/' :: y)
          = decide (y ∈ skeletonEntries t))
    ∧ getType roms (createDirs dd_ok roms folders fs name t).2 name = t
    ∧ (∀ (roms' : CStr) (fs' : FS) (name' : CStr),
        getType roms' fs' name' ≠ ROM_INSTALLER_INTERNAL
        ∧ getType roms' fs' name' ≠ ROM_INSTALLER_USB_DIR
        ∧ getType roms' fs' name' ≠ ROM_INSTALLER_USB_IMG) := by
  have hb : endsNoSlash (roms ++ "/".toList ++ name) := endsNoSlash_append _ _ hname
  have hfree0 : lstat fs (roms ++ "/".toList ++ name) = none := by
    unfold mkdir_fails at hbase
    cases h : lstat fs (roms ++ "/".toList ++ name) with
    | none => rfl
    | some n => rw [h] at hbase; simp at hbase
  have hpar : parentIsDir fs (roms ++ "/".toList ++ name) = true := by
    unfold mkdir_fails at hbase
    rw [hfree0] at hbase
    simpa using hbase
  have hmk : mkdir fs (roms ++ "/".toList ++ name)
      = write fs (roms ++ "/".toList ++ name) Node.dir := by
    unfold mkdir; rw [hfree0]; simp only []; rw [if_pos hpar]
  have hd1 : lstat (mkdir fs (roms ++ "/".toList ++ name)) (roms ++ "/".toList ++ name)
      = some Node.dir := by
    rw [hmk, lstat_write, if_pos rfl]
  have hfree1 : ∀ x, childName x →
      lstat (mkdir fs (roms ++ "/".toList ++ name)) (roms ++ "/".toList ++ name ++ '/' :: x)
        = none := by
    intro x hx
    rw [hmk, lstat_write, if_neg (normpath_child_ne_self _ x hb hx)]
    exact hfresh x hx
  have hfin : ∀ (fs' : FS) (created : List CStr),
      (∀ y, childName y → lstat fs' (roms ++ "/".toList ++ name ++ '/' :: y)
        = if y ∈ created then some Node.dir
          else lstat (mkdir fs (roms ++ "/".toList ++ name))
            (roms ++ "/".toList ++ name ++ '/' :: y)) →
      ∀ y, childName y → access fs' (roms ++ "/".toList ++ name ++ '/' :: y)
        = decide (y ∈ created) := by
    intro fs' created h y hy
    unfold access
    rw [h y hy, hfree1 y hy]
    by_cases e : y ∈ created <;> simp [e]
  have hfinF : ∀ (fs' : FS) (created : List CStr),
      (∀ y, childName y → lstat fs' (roms ++ "/".toList ++ name ++ '/' :: y)
        = if y ∈ created then some (Node.file [])
          else lstat (mkdir fs (roms ++ "/".toList ++ name))
            (roms ++ "/".toList ++ name ++ '/' :: y)) →
      ∀ y, childName y → access fs' (roms ++ "/".toList ++ name ++ '/' :: y)
        = decide (y ∈ created) := by
    intro fs' created h y hy
    unfold access
    rw [h y hy, hfree1 y hy]
    by_cases e : y ∈ created <;> simp [e]
  have key : (createDirs dd_ok roms folders fs name t).1 = true
      ∧ (∀ y, childName y →
        access (createDirs dd_ok roms folders fs name t).2 (roms ++ "/".toList ++ name ++ '/' :: y)
          = decide (y ∈ skeletonEntries t)) := by
    simp only [plainTypes, List.mem_cons, List.mem_singleton, List.not_mem_nil, or_false] at ht
    rcases ht with rfl | rfl | rfl | rfl | rfl | rfl | rfl | rfl | rfl
    · have hc : ∀ x ∈ (["boot".toList, "system".toList, "data".toList, "cache".toList] : List CStr), childName x := by decide
      have h := mkdirs_children (roms ++ "/".toList ++ name) hb ["boot".toList, "system".toList, "data".toList, "cache".toList]
        (mkdir fs (roms ++ "/".toList ++ name)) (by decide) hc hd1 (fun x hx => hfree1 x (hc x hx))
      have hcd : createDirs dd_ok roms folders fs name ROM_ANDROID_INTERNAL
          = mkdirs (List.map (fun x => (roms ++ "/".toList ++ name) ++ '/' :: x) ["boot".toList, "system".toList, "data".toList, "cache".toList])
              (mkdir fs (roms ++ "/".toList ++ name)) := by
        unfold createDirs; simp only [hbase]; rfl
      rw [hcd]
      exact ⟨h.1, hfin _ _ h.2.2⟩
    · have hc : ∀ x ∈ (["boot".toList, "system".toList, "data".toList, "cache".toList] : List CStr), childName x := by decide
      have h := mkdirs_children (roms ++ "/".toList ++ name) hb ["boot".toList, "system".toList, "data".toList, "cache".toList]
        (mkdir fs (roms ++ "/".toList ++ name)) (by decide) hc hd1 (fun x hx => hfree1 x (hc x hx))
      have hcd : createDirs dd_ok roms folders fs name ROM_ANDROID_USB_DIR
          = mkdirs (List.map (fun x => (roms ++ "/".toList ++ name) ++ '/' :: x) ["boot".toList, "system".toList, "data".toList, "cache".toList])
              (mkdir fs (roms ++ "/".toList ++ name)) := by
        unfold createDirs; simp only [hbase]; rfl
      rw [hcd]
      exact ⟨h.1, hfin _ _ h.2.2⟩
    · obtain ⟨hn, hs⟩ := hfold _ rfl
      have hi : folders.map (fun f => f.name ++ ".img".toList)
          = ["cache.img".toList, "data.img".toList, "system.img".toList] := by
        have : folders.map (fun f => f.name ++ ".img".toList)
            = (folders.map base_folder.name).map (fun n => n ++ ".img".toList) := by
          rw [List.map_map]; rfl
        rw [this, hn]; rfl
      have hc : ∀ x ∈ folders.map (fun f => f.name ++ ".img".toList), childName x := by
        rw [hi]; decide
      have hboot : childName "boot".toList := by decide
      obtain ⟨h1, h2, h3⟩ := lstat_mkdir_child (mkdir fs (roms ++ "/".toList ++ name)) (roms ++ "/".toList ++ name) "boot".toList hb hboot hd1
        (hfree1 _ hboot)
      have h := createImagesFromBase_children dd_ok hdd (roms ++ "/".toList ++ name) hb folders
        (mkdir (mkdir fs (roms ++ "/".toList ++ name)) ((roms ++ "/".toList ++ name) ++ '/' :: "boot".toList)) (by rw [hi]; decide) hc hs h2
        (fun x hx => by
          rw [h3 x (hc x hx), if_neg (by rw [hi] at hx; revert x; decide)]
          exact hfree1 x (hc x hx))
      have hcd : createDirs dd_ok roms folders fs name ROM_ANDROID_USB_IMG
          = createImagesFromBase dd_ok (roms ++ "/".toList ++ name) folders
              (mkdir (mkdir fs (roms ++ "/".toList ++ name)) ((roms ++ "/".toList ++ name) ++ '/' :: "boot".toList)) := by
        unfold createDirs
        simp only [hbase]
        show (if mkdir_fails (mkdir fs (roms ++ "/".toList ++ name)) ((roms ++ "/".toList ++ name) ++ '/' :: "boot".toList) = true then _ else _) = _
        rw [h1]; rfl
      rw [hcd]
      rw [hi] at h
      refine ⟨h.1, fun y hy => ?_⟩
      unfold access
      rw [h.2.2 y hy, h3 y hy, hfree1 y hy]
      show _ = decide (y ∈ ["boot".toList, "cache.img".toList, "data.img".toList,
        "system.img".toList])
      by_cases e1 : y ∈ ["cache.img".toList, "data.img".toList, "system.img".toList]
      · rw [if_pos e1]
        have : y ∈ ["boot".toList, "cache.img".toList, "data.img".toList, "system.img".toList] :=
          List.mem_cons_of_mem _ e1
        simp only [this, decide_True]; rfl
      · rw [if_neg e1]
        by_cases e2 : y = "boot".toList
        · rw [if_pos e2]
          have : y ∈ ["boot".toList, "cache.img".toList, "data.img".toList, "system.img".toList] := by
            rw [e2]; exact List.mem_cons_self _ _
          simp only [this, decide_True]; rfl
        · rw [if_neg e2]
          have : y ∉ ["boot".toList, "cache.img".toList, "data.img".toList, "system.img".toList] := by
            rw [List.mem_cons, not_or]; exact ⟨e2, e1⟩
          simp only [this, decide_False]; rfl
    · obtain ⟨hn, hs⟩ := hfold _ rfl
      have hc : ∀ x ∈ folders.map base_folder.name, childName x := by rw [hn]; decide
      have h := createDirsFromBase_children (roms ++ "/".toList ++ name) hb folders
        (mkdir fs (roms ++ "/".toList ++ name)) (by rw [hn]; decide) hc hd1 (fun x hx => hfree1 x (hc x hx))
      have hcd : createDirs dd_ok roms folders fs name ROM_UBUNTU_INTERNAL
          = createDirsFromBase (roms ++ "/".toList ++ name) folders (mkdir fs (roms ++ "/".toList ++ name)) := by
        unfold createDirs; simp only [hbase]; rfl
      rw [hcd]
      rw [hn] at h
      exact ⟨h.1, hfin _ _ h.2.2⟩
    · obtain ⟨hn, hs⟩ := hfold _ rfl
      have hc : ∀ x ∈ folders.map base_folder.name, childName x := by rw [hn]; decide
      have h := createDirsFromBase_children (roms ++ "/".toList ++ name) hb folders
        (mkdir fs (roms ++ "/".toList ++ name)) (by rw [hn]; decide) hc hd1 (fun x hx => hfree1 x (hc x hx))
      have hcd : createDirs dd_ok roms folders fs name ROM_UBUNTU_USB_DIR
          = createDirsFromBase (roms ++ "/".toList ++ name) folders (mkdir fs (roms ++ "/".toList ++ name)) := by
        unfold createDirs; simp only [hbase]; rfl
      rw [hcd]
      rw [hn] at h
      exact ⟨h.1, hfin _ _ h.2.2⟩
    · obtain ⟨hn, hs⟩ := hfold _ rfl
      have hi : folders.map (fun f => f.name ++ ".img".toList) = ["root.img".toList] := by
        have : folders.map (fun f => f.name ++ ".img".toList)
            = (folders.map base_folder.name).map (fun n => n ++ ".img".toList) := by
          rw [List.map_map]; rfl
        rw [this, hn]; rfl
      have hc : ∀ x ∈ folders.map (fun f => f.name ++ ".img".toList), childName x := by
        rw [hi]; decide
      have h := createImagesFromBase_children dd_ok hdd (roms ++ "/".toList ++ name) hb folders
        (mkdir fs (roms ++ "/".toList ++ name)) (by rw [hi]; decide) hc hs hd1 (fun x hx => hfree1 x (hc x hx))
      have hcd : createDirs dd_ok roms folders fs name ROM_UBUNTU_USB_IMG
          = createImagesFromBase dd_ok (roms ++ "/".toList ++ name) folders (mkdir fs (roms ++ "/".toList ++ name)) := by
        unfold createDirs; simp only [hbase]; rfl
      rw [hcd]
      rw [hi] at h
      exact ⟨h.1, hfinF _ _ h.2.2⟩
    · have hc : ∀ x ∈ (["system".toList, "data".toList, "cache".toList] : List CStr), childName x := by decide
      have h := mkdirs_children (roms ++ "/".toList ++ name) hb ["system".toList, "data".toList, "cache".toList]
        (mkdir fs (roms ++ "/".toList ++ name)) (by decide) hc hd1 (fun x hx => hfree1 x (hc x hx))
      have hcd : createDirs dd_ok roms folders fs name ROM_UTOUCH_INTERNAL
          = mkdirs (List.map (fun x => (roms ++ "/".toList ++ name) ++ '/' :: x) ["system".toList, "data".toList, "cache".toList])
              (mkdir fs (roms ++ "/".toList ++ name)) := by
        unfold createDirs; simp only [hbase]; rfl
      rw [hcd]
      exact ⟨h.1, hfin _ _ h.2.2⟩
    · have hc : ∀ x ∈ (["system".toList, "data".toList, "cache".toList] : List CStr), childName x := by decide
      have h := mkdirs_children (roms ++ "/".toList ++ name) hb ["system".toList, "data".toList, "cache".toList]
        (mkdir fs (roms ++ "/".toList ++ name)) (by decide) hc hd1 (fun x hx => hfree1 x (hc x hx))
      have hcd : createDirs dd_ok roms folders fs name ROM_UTOUCH_USB_DIR
          = mkdirs (List.map (fun x => (roms ++ "/".toList ++ name) ++ '/' :: x) ["system".toList, "data".toList, "cache".toList])
              (mkdir fs (roms ++ "/".toList ++ name)) := by
        unfold createDirs; simp only [hbase]; rfl
      rw [hcd]
      exact ⟨h.1, hfin _ _ h.2.2⟩
    · obtain ⟨hn, hs⟩ := hfold _ rfl
      have hi : folders.map (fun f => f.name ++ ".img".toList) = ["cache.img".toList, "data.img".toList, "system.img".toList] := by
        have : folders.map (fun f => f.name ++ ".img".toList)
            = (folders.map base_folder.name).map (fun n => n ++ ".img".toList) := by
          rw [List.map_map]; rfl
        rw [this, hn]; rfl
      have hc : ∀ x ∈ folders.map (fun f => f.name ++ ".img".toList), childName x := by
        rw [hi]; decide
      have h := createImagesFromBase_children dd_ok hdd (roms ++ "/".toList ++ name) hb folders
        (mkdir fs (roms ++ "/".toList ++ name)) (by rw [hi]; decide) hc hs hd1 (fun x hx => hfree1 x (hc x hx))
      have hcd : createDirs dd_ok roms folders fs name ROM_UTOUCH_USB_IMG
          = createImagesFromBase dd_ok (roms ++ "/".toList ++ name) folders (mkdir fs (roms ++ "/".toList ++ name)) := by
        unfold createDirs; simp only [hbase]; rfl
      rw [hcd]
      rw [hi] at h
      exact ⟨h.1, hfinF _ _ h.2.2⟩
  refine ⟨key.1, key.2, ?_, getType_never_installer⟩
  rw [getType_of_entries roms _ name (skeletonEntries t) key.2]
  have hm : "/mnt".toList.isPrefixOf roms = decide (M t &&& MASK_INTERNAL = 0) := by
    by_cases h : M t &&& MASK_INTERNAL = 0
    · cases hp : "/mnt".toList.isPrefixOf roms with
      | false => exact absurd h (hint.2 hp)
      | true => simp [h]
    · rw [hint.1 h]; simp [h]
  rw [hm]
  simp only [plainTypes, List.mem_cons, List.mem_singleton, List.not_mem_nil, or_false] at ht
  rcases ht with rfl | rfl | rfl | rfl | rfl | rfl | rfl | rfl | rfl <;> decide

/-- C13 (amended) for an Android ROM in images on a drive: the skeleton of
`cm-13` in the empty ROMs directory of the drive. -/
theorem C13_skeleton_classified_witness :
    (createDirs (fun _ => true) "/mnt/multirom-hammerhead/".toList androidFolders fsDrive
        "cm-13".toList ROM_ANDROID_USB_IMG).1 = true
    ∧ (∀ y, childName y →
        access (createDirs (fun _ => true) "/mnt/multirom-hammerhead/".toList androidFolders fsDrive
            "cm-13".toList ROM_ANDROID_USB_IMG).2
          ("/mnt/multirom-hammerhead/".toList ++ "/".toList ++ "cm-13".toList ++ '/' :: y)
          = decide (y ∈ skeletonEntries ROM_ANDROID_USB_IMG))
    ∧ getType "/mnt/multirom-hammerhead/".toList
        (createDirs (fun _ => true) "/mnt/multirom-hammerhead/".toList androidFolders fsDrive
          "cm-13".toList ROM_ANDROID_USB_IMG).2 "cm-13".toList = ROM_ANDROID_USB_IMG
    ∧ (∀ (roms' : CStr) (fs' : FS) (name' : CStr),
        getType roms' fs' name' ≠ ROM_INSTALLER_INTERNAL
        ∧ getType roms' fs' name' ≠ ROM_INSTALLER_USB_DIR
        ∧ getType roms' fs' name' ≠ ROM_INSTALLER_USB_IMG) :=
  C13_skeleton_classified (fun _ => true) "/mnt/multirom-hammerhead/".toList "cm-13".toList fsDrive
    androidFolders ROM_ANDROID_USB_IMG (fun _ => rfl) (by decide) (by decide)
    (fun x hx => by
      unfold lstat
      rw [normpath_child _ x (endsNoSlash_append _ _ (by decide)) hx]
      have : normpath ("/mnt/multirom-hammerhead/".toList ++ "/".toList ++ "cm-13".toList)
          = "/mnt/multirom-hammerhead/cm-13".toList := by decide
      rw [this]
      simp [find, fsDrive])
    (by decide) (by decide)
    (fun names h => by
      have : names = ["cache".toList, "data".toList, "system".toList] := by
        have h2 : foldersFor ROM_ANDROID_USB_IMG
            = some ["cache".toList, "data".toList, "system".toList] := by decide
        rw [h2] at h; exact (Option.some.inj h).symm
      subst this
      decide)

/-! ## Renaming a directory and back -/

theorem find_append (l1 l2 : FS) (q : CStr) : find (l1 ++ l2) q = (find l1 q).or (find l2 q) := by
  induction l1 with
  | nil => simp [find]
  | cons e rest ih =>
    obtain ⟨k, n⟩ := e
    rw [List.cons_append, find, find]
    by_cases h : k = q
    · rw [if_pos h, if_pos h]; rfl
    · rw [if_neg h, if_neg h, ih]

theorem find_filter_key (p : CStr → Bool) (fs : FS) (q : CStr) :
    find (fs.filter (fun e => p e.1)) q = if p q = true then find fs q else none := by
  induction fs with
  | nil => simp [find]
  | cons e rest ih =>
    obtain ⟨k, n⟩ := e
    rw [List.filter_cons]
    by_cases hk : p k = true
    · simp only [hk, if_true]
      rw [find, find, ih]
      by_cases h : k = q
      · rw [if_pos h, if_pos h, ← h, if_pos hk]
      · rw [if_neg h, if_neg h]
    · simp only [hk, Bool.false_eq_true, if_false]
      rw [ih, find]
      by_cases h : k = q
      · rw [← h, if_neg hk, if_neg hk]
      · rw [if_neg h]

theorem under_iff (d q : CStr) :
    under d q = true ↔ ∃ r, q = d ++ r ∧ (r = [] ∨ r.head? = some '/') := by
  unfold under
  rw [Bool.or_eq_true, beq_iff_eq, List.isPrefixOf_iff_prefix]
  constructor
  · rintro (h | ⟨t, h⟩)
    · exact ⟨[], by rw [h, List.append_nil], Or.inl rfl⟩
    · exact ⟨'/' :: t, by rw [← h, List.append_assoc]; rfl, Or.inr rfl⟩
  · rintro ⟨r, h, hr | hr⟩
    · left; rw [h, hr, List.append_nil]
    · right
      cases r with
      | nil => cases hr
      | cons c t =>
        simp only [List.head?_cons, Option.some.injEq] at hr
        subst hr
        exact ⟨t, by rw [h, List.append_assoc]; rfl⟩

theorem under_starts (d q : CStr) (h : under d q = true) : d <+: q := by
  obtain ⟨r, hq, _⟩ := (under_iff d q).1 h
  exact ⟨r, hq.symm⟩

theorem find_map_shift (A B : CStr) : ∀ (l : FS), (∀ e ∈ l, ∃ r, e.1 = A ++ r) → ∀ r : CStr,
    find (l.map (fun e => (B ++ e.1.drop A.length, e.2))) (B ++ r) = find l (A ++ r)
  | [], _, _ => rfl
  | (k, n) :: rest, hl, r => by
    obtain ⟨rk, hk⟩ := hl (k, n) (List.mem_cons_self _ _)
    simp only at hk
    subst hk
    rw [List.map_cons, find, find]
    simp only [List.drop_left]
    by_cases h : rk = r
    · rw [if_pos (by rw [h]), if_pos (by rw [h])]
    · rw [if_neg (fun e => h (List.append_cancel_left e)),
        if_neg (fun e => h (List.append_cancel_left e))]
      exact find_map_shift A B rest (fun e he => hl e (List.mem_cons_of_mem _ he)) r

theorem find_map_shift_none (A B : CStr) : ∀ (l : FS), (∀ e ∈ l, under A e.1 = true) →
    ∀ q : CStr, under B q = false →
    find (l.map (fun e => (B ++ e.1.drop A.length, e.2))) q = none
  | [], _, _, _ => rfl
  | (k, n) :: rest, hl, q, hq => by
    obtain ⟨rk, hk, hr⟩ := (under_iff A k).1 (hl (k, n) (List.mem_cons_self _ _))
    subst hk
    rw [List.map_cons, find]
    simp only [List.drop_left]
    rw [if_neg]
    · exact find_map_shift_none A B rest (fun e he => hl e (List.mem_cons_of_mem _ he)) q hq
    · intro e
      have : under B q = true := (under_iff B q).2 ⟨rk, e.symm, hr⟩
      rw [hq] at this; cases this

theorem rename_dir_find (fs : FS) (a b : CStr) (ha : lstat fs a = some Node.dir) (q : CStr) :
    find (rename fs a b) q =
      if under (normpath b) q = true then find fs (normpath a ++ q.drop (normpath b).length)
      else if under (normpath a) q = true then none
      else find fs q := by
  unfold rename
  rw [ha]
  simp only []
  rw [find_append]
  have hl : ∀ e ∈ fs.filter (fun e => under (normpath a) e.1), under (normpath a) e.1 = true :=
    fun e he => (List.mem_filter.1 he).2
  by_cases hb : under (normpath b) q = true
  · rw [if_pos hb]
    obtain ⟨r, hq, hr⟩ := (under_iff _ _).1 hb
    subst hq
    rw [find_map_shift (normpath a) (normpath b) _
      (fun e he => by
        obtain ⟨r', h', _⟩ := (under_iff _ _).1 (hl e he)
        exact ⟨r', h'⟩) r]
    rw [find_filter_key (fun k => under (normpath a) k), if_pos ((under_iff _ _).2 ⟨r, rfl, hr⟩)]
    rw [find_filter_key (fun k => !under (normpath a) k && !under (normpath b) k)]
    simp only [hb, Bool.not_true, Bool.and_false, Bool.false_eq_true, if_false, Option.or_none,
      List.drop_left]
  · have hb' : under (normpath b) q = false := by simpa using hb
    rw [if_neg hb, find_map_shift_none (normpath a) (normpath b) _ hl q hb']
    rw [find_filter_key (fun k => !under (normpath a) k && !under (normpath b) k)]
    by_cases hA : under (normpath a) q = true
    · simp [hA, hb']
    · have hA' : under (normpath a) q = false := by simpa using hA
      simp [hA', hb']

theorem rename_dir_back (fs : FS) (a b : CStr) (ha : lstat fs a = some Node.dir)
    (hx : ∀ q, ¬ (under (normpath a) q = true ∧ under (normpath b) q = true)) :
    lstat (rename fs a b) b = some Node.dir
    ∧ lstat (rename fs a b) a = none
    ∧ (∀ r, (r = [] ∨ r.head? = some '/') →
        find (rename fs a b) (normpath b ++ r) = find fs (normpath a ++ r))
    ∧ ∀ q, find (rename (rename fs a b) b a) q
        = if under (normpath b) q = true then none else find fs q := by
  have hself : ∀ d : CStr, under d d = true := fun d => (under_iff d d).2 ⟨[], by simp, Or.inl rfl⟩
  have hAB : under (normpath b) (normpath a) = false := by
    by_contra h
    exact hx (normpath a) ⟨hself _, by simpa using h⟩
  have h1 : ∀ r, (r = [] ∨ r.head? = some '/') →
      find (rename fs a b) (normpath b ++ r) = find fs (normpath a ++ r) := by
    intro r hr
    rw [rename_dir_find fs a b ha, if_pos ((under_iff _ _).2 ⟨r, rfl, hr⟩), List.drop_left]
  have hb : lstat (rename fs a b) b = some Node.dir := by
    have := h1 [] (Or.inl rfl)
    rw [List.append_nil, List.append_nil] at this
    unfold lstat at ha ⊢
    rw [this]; exact ha
  refine ⟨hb, ?_, h1, fun q => ?_⟩
  · unfold lstat
    rw [rename_dir_find fs a b ha, if_neg (by rw [hAB]; simp), if_pos (hself _)]
  · rw [rename_dir_find (rename fs a b) b a hb]
    by_cases hA : under (normpath a) q = true
    · have hB : ¬ under (normpath b) q = true := fun h => hx q ⟨hA, h⟩
      rw [if_pos hA, if_neg hB]
      obtain ⟨r, hq, hr⟩ := (under_iff _ _).1 hA
      subst hq
      rw [List.drop_left, h1 r hr]
    · rw [if_neg hA]
      by_cases hB : under (normpath b) q = true
      · rw [if_pos hB, if_pos hB]
      · rw [if_neg hB, if_neg hB, rename_dir_find fs a b ha, if_neg hB, if_neg hA]

theorem head?_map_dash (p : CStr) : (p.map dash).head? = some '/' ↔ p.head? = some '/' := by
  cases p with
  | nil => simp
  | cons c rest =>
    simp only [List.map_cons, List.head?_cons, Option.some.injEq]
    unfold dash
    by_cases h : c = ' '
    · rw [if_pos h, h]; decide
    · rw [if_neg h]

theorem dash_eq_slash (c : Char) : dash c = '/' ↔ c = '/' := by
  unfold dash
  by_cases h : c = ' '
  · rw [if_pos h, h]; decide
  · rw [if_neg h]

theorem squeeze_map_dash : ∀ p : CStr, squeeze (p.map dash) = (squeeze p).map dash
  | [] => rfl
  | c :: rest => by
    rw [List.map_cons, squeeze, squeeze]
    by_cases h : c = '/' ∧ rest.head? = some '/'
    · rw [if_pos h, if_pos ⟨(dash_eq_slash c).2 h.1, (head?_map_dash rest).2 h.2⟩]
      exact squeeze_map_dash rest
    · rw [if_neg h, if_neg (fun e => h ⟨(dash_eq_slash c).1 e.1, (head?_map_dash rest).1 e.2⟩),
        List.map_cons, squeeze_map_dash rest]

theorem normpath_map_dash (p : CStr) : normpath (p.map dash) = (normpath p).map dash := by
  unfold normpath
  simp only [squeeze_map_dash, List.getLast?_map, List.length_map]
  have e : Option.map dash (squeeze p).getLast? = some '/' ↔ (squeeze p).getLast? = some '/' := by
    cases (squeeze p).getLast? with
    | none => simp
    | some c => simp [dash_eq_slash]
  by_cases h : (squeeze p).getLast? = some '/' ∧ 1 < (squeeze p).length
  · rw [if_pos h, if_pos ⟨e.2 h.1, h.2⟩, List.map_dropLast]
  · rw [if_neg h, if_neg (fun h' => h ⟨e.1 h'.1, h'.2⟩)]

theorem squeeze_eq_normpath_append (p : CStr) : ∃ t, squeeze p = normpath p ++ t := by
  unfold normpath
  simp only []
  split
  · obtain ⟨t, ht⟩ := List.dropLast_prefix (squeeze p)
    exact ⟨t, ht.symm⟩
  · exact ⟨[], by simp⟩

theorem normpath_append_a (p : CStr) (k : Nat) (hk : 1 ≤ k) :
    normpath (p ++ List.replicate k 'a') = squeeze p ++ List.replicate k 'a' := by
  obtain ⟨j, rfl⟩ : ∃ j, k = j + 1 := ⟨k - 1, by omega⟩
  have hns : '/' ∉ List.replicate (j + 1) 'a' := by
    intro h
    have := (List.mem_replicate.1 h).2
    revert this; decide
  have hs : squeeze (p ++ List.replicate (j + 1) 'a') = squeeze p ++ List.replicate (j + 1) 'a' := by
    rw [List.replicate_succ, squeeze_append p _ 'a' (by decide), ← List.replicate_succ,
      squeeze_no_slash _ hns]
  unfold normpath
  simp only [hs]
  rw [if_neg]
  rintro ⟨e, _⟩
  exact getLast?_append_no_slash (squeeze p) _ (by simp) hns e

theorem mem_squeeze (c : Char) (hc : c ≠ '/') : ∀ p : CStr, c ∈ p → c ∈ squeeze p
  | [], h => h
  | x :: rest, h => by
    rw [squeeze]
    rcases List.mem_cons.1 h with e | e
    · subst e
      rw [if_neg (fun e => hc e.1)]
      exact List.mem_cons_self _ _
    · split
      · exact mem_squeeze c hc rest e
      · exact List.mem_cons_of_mem _ (mem_squeeze c hc rest e)

theorem mem_normpath (c : Char) (hc : c ≠ '/') (p : CStr) (h : c ∈ p) : c ∈ normpath p := by
  have hs := mem_squeeze c hc p h
  unfold normpath
  simp only []
  split
  · rename_i hl
    have := List.dropLast_append_getLast? '/' (by rw [hl.1]; rfl : '/' ∈ (squeeze p).getLast?)
    rw [← this] at hs
    rcases List.mem_append.1 hs with e | e
    · exact e
    · exact absurd (List.mem_singleton.1 e) hc
  · exact hs

theorem not_mem_map_dash (p : CStr) : ' ' ∉ p.map dash := by
  intro h
  obtain ⟨c, _, hc⟩ := List.mem_map.1 h
  unfold dash at hc
  by_cases e : c = ' '
  · rw [if_pos e] at hc; revert hc; decide
  · rw [if_neg e] at hc; exact e hc

theorem no_overlap (path : CStr) (k : Nat) (hsp : ' ' ∈ path) (q : CStr) :
    ¬ (under (normpath path) q = true
      ∧ under (normpath (path.map dash ++ List.replicate k 'a')) q = true) := by
  rintro ⟨hA, hB⟩
  have hpre : (normpath path).map dash <+: normpath (path.map dash ++ List.replicate k 'a') := by
    rcases Nat.eq_zero_or_pos k with e | e
    · subst e
      rw [List.replicate_zero, List.append_nil, normpath_map_dash]
    · rw [normpath_append_a _ k e, squeeze_map_dash]
      obtain ⟨t, ht⟩ := squeeze_eq_normpath_append path
      rw [ht, List.map_append, List.append_assoc]
      exact List.prefix_append _ _
  have h1 : normpath path <+: q := under_starts _ _ hA
  have h2 : (normpath path).map dash <+: q := hpre.trans (under_starts _ _ hB)
  have h3 : (normpath path).map dash <+: normpath path :=
    List.prefix_of_prefix_length_le h2 h1 (by rw [List.length_map])
  have h4 : (normpath path).map dash = normpath path :=
    h3.eq_of_length (by rw [List.length_map])
  have h5 : ' ' ∈ normpath path := mem_normpath ' ' (by decide) path hsp
  rw [← h4] at h5
  exact not_mem_map_dash _ h5

theorem find_isSome_mem (fs : FS) (q : CStr) (h : (find fs q).isSome = true) :
    q ∈ fs.map Prod.fst := by
  induction fs with
  | nil => simp [find] at h
  | cons e rest ih =>
    obtain ⟨k, n⟩ := e
    rw [find] at h
    by_cases hk : k = q
    · rw [List.map_cons, hk]; exact List.mem_cons_self _ _
    · rw [if_neg hk] at h
      exact List.mem_cons_of_mem _ (ih h)

theorem exists_free_suffix (fs : FS) (p : CStr) :
    ∃ k, k < fs.length + 1 ∧ access fs (p ++ List.replicate k 'a') = false := by
  by_contra hc
  push_neg at hc
  have hsub : ∀ k ∈ Finset.range (fs.length + 1),
      normpath (p ++ List.replicate k 'a') ∈ (fs.map Prod.fst).toFinset := by
    intro k hk
    have := hc k (Finset.mem_range.1 hk)
    have ht : access fs (p ++ List.replicate k 'a') = true := by simpa using this
    unfold access lstat at ht
    exact List.mem_toFinset.2 (find_isSome_mem fs _ ht)
  have hlen : ∀ k, 1 ≤ k →
      (normpath (p ++ List.replicate k 'a')).length = (squeeze p).length + k := by
    intro k hk
    rw [normpath_append_a p k hk, List.length_append, List.length_replicate]
  have hlen0 : (normpath (p ++ List.replicate 0 'a')).length ≤ (squeeze p).length := by
    rw [List.replicate_zero, List.append_nil]
    exact length_normpath_le p
  have hinj : Set.InjOn (fun k => normpath (p ++ List.replicate k 'a'))
      (Finset.range (fs.length + 1) : Finset Nat) := by
    intro i _ j _ hij
    have hl := congrArg List.length hij
    simp only at hl
    rcases Nat.eq_zero_or_pos i with hi | hi <;> rcases Nat.eq_zero_or_pos j with hj | hj
    · omega
    · subst hi; rw [hlen j hj] at hl; omega
    · subst hj; rw [hlen i hi] at hl; omega
    · rw [hlen i hi, hlen j hj] at hl; omega
  have hcard := Finset.card_le_card_of_injOn _ hsub hinj
  rw [Finset.card_range] at hcard
  have h1 := List.toFinset_card_le (fs.map Prod.fst)
  rw [List.length_map] at h1
  omega

theorem appendUntilFree_spec (fs : FS) : ∀ (fuel : Nat) (p : CStr),
    (∃ k, k < fuel ∧ access fs (p ++ List.replicate k 'a') = false) →
    ∃ k, appendUntilFree fs fuel p = p ++ List.replicate k 'a'
      ∧ access fs (p ++ List.replicate k 'a') = false
  | 0, _, ⟨_, hk, _⟩ => absurd hk (Nat.not_lt_zero _)
  | fuel + 1, p, ⟨k, hk, hf⟩ => by
    rw [appendUntilFree]
    by_cases h : access fs p = true
    · rw [if_pos h]
      obtain ⟨j, rfl⟩ : ∃ j, k = j + 1 := by
        rcases Nat.eq_zero_or_pos k with e | e
        · subst e; rw [List.replicate_zero, List.append_nil, h] at hf; cases hf
        · exact ⟨k - 1, by omega⟩
      have e : ∀ n, p ++ List.replicate (n + 1) 'a' = (p ++ ['a']) ++ List.replicate n 'a' := by
        intro n; rw [List.replicate_succ, List.append_assoc]; rfl
      obtain ⟨m, hm1, hm2⟩ := appendUntilFree_spec fs fuel (p ++ ['a'])
        ⟨j, by omega, by rw [← e]; exact hf⟩
      exact ⟨m + 1, by rw [e]; exact hm1, by rw [e]; exact hm2⟩
    · rw [if_neg h]
      exact ⟨0, by simp, by simpa using h⟩
theorem normalizeROMPath_space (s : State) (path : CStr) (h0 : s.m_mount_rom_paths_0 = [])
    (hsp : ' ' ∈ path) (hd : lstat s.fs path = some Node.dir) :
    ∃ k, (normalizeROMPath s path).1 = path.map dash ++ List.replicate k 'a'
      ∧ lstat s.fs (path.map dash ++ List.replicate k 'a') = none
      ∧ (normalizeROMPath s path).2 =
          { s with
            m_mount_rom_paths_0 := path
            m_mount_rom_paths_1 := path.map dash ++ List.replicate k 'a'
            fs := rename s.fs path (path.map dash ++ List.replicate k 'a') } := by
  obtain ⟨k, hk1, hk2⟩ := appendUntilFree_spec s.fs (s.fs.length + 1) (path.map dash)
    (exists_free_suffix s.fs (path.map dash))
  have hfree : lstat s.fs (path.map dash ++ List.replicate k 'a') = none := by
    unfold access at hk2
    cases h : lstat s.fs (path.map dash ++ List.replicate k 'a') with
    | none => rfl
    | some n => rw [h] at hk2; cases hk2
  have hk1' : appendUntilFree s.fs (s.fs.length + 1)
      (path.map (fun c => if c = ' ' then '-' else c)) = path.map dash ++ List.replicate k 'a' :=
    hk1
  have hmv : sh_mv s.fs path (path.map dash ++ List.replicate k 'a')
      = rename s.fs path (path.map dash ++ List.replicate k 'a') := by
    unfold sh_mv
    rw [hd, hfree]
    simp
  refine ⟨k, ?_, hfree, ?_⟩
  · unfold normalizeROMPath
    rw [if_neg (by rw [h0]; simp), if_neg (by simpa using hsp)]
    exact hk1'
  · unfold normalizeROMPath
    rw [if_neg (by rw [h0]; simp), if_neg (by simpa using hsp)]
    simp only [hk1', hmv]

/-- C20: for the path of a ROM directory in a ROMs path without spaces, with
or without spaces in the ROM's name, and an empty pair `m_mount_rom_paths`:
the path that `normalizeROMPath` hands back contains no space, stays in the
ROMs path and names the directory with all it holds; after `restoreROMPath` the
first slot of the pair is empty, the directory is under its original name,
nothing is at or below the spaceless name if the directory was renamed, and
every other path gives what it gave before. -/
theorem C20_normalize_restore (s : State) (roms name : CStr)
    (h0 : s.m_mount_rom_paths_0 = []) (hroms : ' ' ∉ roms) (hname : '/' ∉ name)
    (hd : lstat s.fs (roms ++ name) = some Node.dir) :
    ' ' ∉ (normalizeROMPath s (roms ++ name)).1
    ∧ (∃ name', (normalizeROMPath s (roms ++ name)).1 = roms ++ name' ∧ '/' ∉ name')
    ∧ lstat (normalizeROMPath s (roms ++ name)).2.fs (normalizeROMPath s (roms ++ name)).1
        = some Node.dir
    ∧ (∀ r, (r = [] ∨ r.head? = some '/') →
        find (normalizeROMPath s (roms ++ name)).2.fs
            (normpath (normalizeROMPath s (roms ++ name)).1 ++ r)
          = find s.fs (normpath (roms ++ name) ++ r))
    ∧ (restoreROMPath (normalizeROMPath s (roms ++ name)).2).m_mount_rom_paths_0 = []
    ∧ lstat (restoreROMPath (normalizeROMPath s (roms ++ name)).2).fs (roms ++ name)
        = some Node.dir
    ∧ (∀ q, lstat (restoreROMPath (normalizeROMPath s (roms ++ name)).2).fs q
        = if ' ' ∈ name
            ∧ under (normpath (normalizeROMPath s (roms ++ name)).1) (normpath q) = true
          then none else lstat s.fs q) := by
  by_cases hsp : ' ' ∈ name
  · have hsp' : ' ' ∈ roms ++ name := List.mem_append_right _ hsp
    obtain ⟨k, hk1, hk2, hk3⟩ := normalizeROMPath_space s (roms ++ name) h0 hsp' hd
    have hx := no_overlap (roms ++ name) k hsp'
    obtain ⟨b1, b2, b3, b4⟩ := rename_dir_back s.fs (roms ++ name)
      ((roms ++ name).map dash ++ List.replicate k 'a') hd hx
    have hne : roms ++ name ≠ [] := fun e => by rw [e] at hsp'; cases hsp'
    have hback : sh_mv (rename s.fs (roms ++ name)
          ((roms ++ name).map dash ++ List.replicate k 'a'))
        ((roms ++ name).map dash ++ List.replicate k 'a') (roms ++ name)
        = rename (rename s.fs (roms ++ name) ((roms ++ name).map dash ++ List.replicate k 'a'))
            ((roms ++ name).map dash ++ List.replicate k 'a') (roms ++ name) := by
      unfold sh_mv
      rw [b1, b2]
      simp
    have hrest : restoreROMPath (normalizeROMPath s (roms ++ name)).2 =
        { s with
          m_mount_rom_paths_0 := []
          m_mount_rom_paths_1 := (roms ++ name).map dash ++ List.replicate k 'a'
          fs := rename (rename s.fs (roms ++ name)
              ((roms ++ name).map dash ++ List.replicate k 'a'))
            ((roms ++ name).map dash ++ List.replicate k 'a') (roms ++ name) } := by
      rw [hk3]
      unfold restoreROMPath
      simp only [hne, if_false, hback]
    have hAB : under (normpath ((roms ++ name).map dash ++ List.replicate k 'a'))
        (normpath (roms ++ name)) = false := by
      by_contra h
      exact hx (normpath (roms ++ name))
        ⟨(under_iff _ _).2 ⟨[], by simp, Or.inl rfl⟩, by simpa using h⟩
    have hdash : roms.map dash = roms := by
      have : ∀ c ∈ roms, dash c = c := fun c hc => by
        unfold dash; rw [if_neg (fun (e : c = ' ') => hroms (e ▸ hc))]
      calc roms.map dash = roms.map id := List.map_congr_left this
        _ = roms := List.map_id _
    refine ⟨?_, ?_, ?_, ?_, ?_, ?_, ?_⟩
    · rw [hk1]
      intro h
      rcases List.mem_append.1 h with e | e
      · exact not_mem_map_dash _ e
      · have := (List.mem_replicate.1 e).2
        revert this; decide
    · refine ⟨name.map dash ++ List.replicate k 'a', ?_, ?_⟩
      · rw [hk1, List.map_append, hdash, List.append_assoc]
      · intro h
        rcases List.mem_append.1 h with e | e
        · obtain ⟨c, hc, hc'⟩ := List.mem_map.1 e
          exact hname (((dash_eq_slash c).1 hc') ▸ hc)
        · have := (List.mem_replicate.1 e).2
          revert this; decide
    · rw [hk1, hk3]; exact b1
    · intro r hr
      rw [hk1, hk3]; exact b3 r hr
    · rw [hrest]
    · rw [hrest]
      unfold lstat
      simp only []
      rw [b4, hAB]
      simp only [Bool.false_eq_true, if_false]
      exact hd
    · intro q
      rw [hrest, hk1]
      unfold lstat
      simp only []
      rw [b4]
      by_cases hq : under (normpath ((roms ++ name).map dash ++ List.replicate k 'a'))
          (normpath q) = true
      · rw [if_pos hq, if_pos ⟨hsp, hq⟩]
      · rw [if_neg hq, if_neg (fun h => hq h.2)]
  · have hsp' : ' ' ∉ roms ++ name := fun h => by
      rcases List.mem_append.1 h with e | e
      · exact hroms e
      · exact hsp e
    have hn : normalizeROMPath s (roms ++ name)
        = (roms ++ name, { s with m_mount_rom_paths_0 := [] }) := by
      unfold normalizeROMPath
      rw [if_neg (by rw [h0]; simp), if_pos hsp']
    have hr : restoreROMPath (normalizeROMPath s (roms ++ name)).2
        = { s with m_mount_rom_paths_0 := [] } := by
      rw [hn]; unfold restoreROMPath; simp
    refine ⟨by rw [hn]; exact hsp', ⟨name, by rw [hn], hname⟩, by rw [hn]; exact hd,
      fun r _ => by rw [hn], by rw [hr], by rw [hr]; exact hd, fun q => ?_⟩
    rw [hr, if_neg (fun h => hsp h.1)]

/-- C20 on the ROM directory `My ROM` of internal storage: it is handed back as
`My-ROM` and is under its original name again after `restoreROMPath`. -/
theorem C20_normalize_restore_witness :
    lstat stateSpaceROM.fs ("/data/media/0/multirom/roms/".toList ++ "My ROM".toList)
      = some Node.dir
    ∧ (normalizeROMPath stateSpaceROM
        ("/data/media/0/multirom/roms/".toList ++ "My ROM".toList)).1
      = "/data/media/0/multirom/roms/My-ROM".toList
    ∧ lstat (restoreROMPath (normalizeROMPath stateSpaceROM
          ("/data/media/0/multirom/roms/".toList ++ "My ROM".toList)).2).fs
        ("/data/media/0/multirom/roms/".toList ++ "My ROM".toList) = some Node.dir :=
  ⟨by decide, by decide,
   (C20_normalize_restore stateSpaceROM "/data/media/0/multirom/roms/".toList "My ROM".toList rfl
      (by decide) (by decide) (by decide)).2.2.2.2.2.1⟩

/-! ## The wildcard pattern of the mount rule -/

theorem inner_lit (find s : CStr) (x : Nat) (l : Char) (h1 : chr find x = l) (h2 : l ≠ '?')
    (h3 : chr find (x + 1) ≠ Char.ofNat 0) :
    strstr_wildcard_inner find s x = true
      ↔ ∃ rest, s = l :: rest ∧ strstr_wildcard_inner find rest (x + 1) = true := by
  cases s with
  | nil => simp [strstr_wildcard_inner]
  | cons c rest =>
    rw [strstr_wildcard_inner, h1, if_neg h2]
    by_cases hc : l = c
    · subst hc
      simp only [ne_eq, not_true_eq_false, if_false, if_neg h3]
      constructor
      · intro h; exact ⟨rest, rfl, h⟩
      · rintro ⟨r, e, h⟩
        rw [(List.cons.inj e).2]; exact h
    · rw [if_pos hc]
      simp only [Bool.false_eq_true, false_iff]
      rintro ⟨r, e, _⟩
      exact hc (List.cons.inj e).1.symm

theorem inner_last (find s : CStr) (x : Nat) (l : Char) (h1 : chr find x = l) (h2 : l ≠ '?')
    (h3 : chr find (x + 1) = Char.ofNat 0) :
    strstr_wildcard_inner find s x = true ↔ ∃ rest, s = l :: rest := by
  cases s with
  | nil => simp [strstr_wildcard_inner]
  | cons c rest =>
    rw [strstr_wildcard_inner, h1, if_neg h2]
    by_cases hc : l = c
    · subst hc
      simp only [ne_eq, not_true_eq_false, if_false, if_pos h3, true_iff]
      exact ⟨rest, rfl⟩
    · rw [if_pos hc]
      simp only [Bool.false_eq_true, false_iff]
      rintro ⟨r, e⟩
      exact hc (List.cons.inj e).1.symm

theorem inner_lits (find : CStr) : ∀ (lit s : CStr) (x : Nat),
    (∀ j, j < lit.length →
      chr find (x + j) = chr lit j ∧ chr lit j ≠ '?' ∧ chr find (x + j + 1) ≠ Char.ofNat 0) →
    (strstr_wildcard_inner find s x = true
      ↔ ∃ rest, s = lit ++ rest ∧ strstr_wildcard_inner find rest (x + lit.length) = true)
  | [], s, x, _ => by simp
  | l :: lit, s, x, h => by
    have h0 := h 0 (by simp)
    rw [inner_lit find s x l h0.1 h0.2.1 h0.2.2]
    have ih := fun s' => inner_lits find lit s' (x + 1) (fun j hj => by
      have := h (j + 1) (by simpa using hj)
      rw [show x + (j + 1) = x + 1 + j by omega] at this
      exact this)
    constructor
    · rintro ⟨r, e, hr⟩
      obtain ⟨r', e', hr'⟩ := (ih r).1 hr
      refine ⟨r', by rw [e, e']; rfl, ?_⟩
      rw [List.length_cons, show x + (lit.length + 1) = x + 1 + lit.length by omega]
      exact hr'
    · rintro ⟨r, e, hr⟩
      refine ⟨lit ++ r, by rw [e]; rfl, (ih _).2 ⟨r, rfl, ?_⟩⟩
      rw [List.length_cons, show x + (lit.length + 1) = x + 1 + lit.length by omega] at hr
      exact hr

theorem inner_q (find : CStr) (c : Char) (rest : CStr) (x : Nat) (n : Char)
    (h1 : chr find x = '?') (h2 : chr find (x + 1) = n) (h3 : n ≠ Char.ofNat 0)
    (h4 : chr find (x + 2) ≠ Char.ofNat 0) :
    strstr_wildcard_inner find (c :: rest) x =
      if n ≠ chr rest 0 then
        (if n = c then strstr_wildcard_inner find rest (x + 2) else false)
      else strstr_wildcard_inner find rest (x + 1) := by
  rw [strstr_wildcard_inner, if_pos h1, h2, if_neg h4, if_neg h3]

theorem inner_mount (s : CStr) :
    strstr_wildcard_inner mountPattern s 14 = true ↔ ∃ rest, s = "mount".toList ++ rest := by
  rw [inner_lits mountPattern "moun".toList s 14 (by decide)]
  constructor
  · rintro ⟨r, e, h⟩
    obtain ⟨r', e'⟩ := (inner_last mountPattern r 18 't' (by decide) (by decide) (by decide)).1 h
    exact ⟨r', by rw [e, e']; rfl⟩
  · rintro ⟨r, e⟩
    exact ⟨'t' :: r, by rw [e]; rfl,
      (inner_last mountPattern _ 18 't' (by decide) (by decide) (by decide)).2 ⟨r, rfl⟩⟩

theorem inner_ount (s : CStr) :
    strstr_wildcard_inner mountPattern s 15 = true ↔ ∃ rest, s = "ount".toList ++ rest := by
  rw [inner_lits mountPattern "oun".toList s 15 (by decide)]
  constructor
  · rintro ⟨r, e, h⟩
    obtain ⟨r', e'⟩ := (inner_last mountPattern r 18 't' (by decide) (by decide) (by decide)).1 h
    exact ⟨r', by rw [e, e']; rfl⟩
  · rintro ⟨r, e⟩
    exact ⟨'t' :: r, by rw [e]; rfl,
      (inner_last mountPattern _ 18 't' (by decide) (by decide) (by decide)).2 ⟨r, rfl⟩⟩

theorem short_cases (Y : CStr) (h : Y.length ≤ 1) : Y = [] ∨ ∃ y, Y = [y] := by
  match Y, h with
  | [], _ => exact Or.inl rfl
  | [y], _ => exact Or.inr ⟨y, rfl⟩
  | _ :: _ :: _, h => simp at h

theorem inner_q_mount (s : CStr) :
    strstr_wildcard_inner mountPattern s 13 = true
      ↔ ∃ Y rest, Y.length ≤ 1 ∧ s = Y ++ "mount".toList ++ rest := by
  cases s with
  | nil =>
    simp only [strstr_wildcard_inner, Bool.false_eq_true, false_iff]
    rintro ⟨Y, rest, _, e⟩
    have := congrArg List.length e
    simp at this
    omega
  | cons c r =>
    rw [inner_q mountPattern c r 13 'm' (by decide) (by decide) (by decide) (by decide)]
    by_cases hm : 'm' ≠ chr r 0
    · rw [if_pos hm]
      by_cases hc : 'm' = c
      · rw [if_pos hc, inner_ount]
        constructor
        · rintro ⟨rest, e⟩
          exact ⟨[], rest, by simp, by rw [e, ← hc]; rfl⟩
        · rintro ⟨Y, rest, hY, e⟩
          rcases short_cases Y hY with rfl | ⟨y, rfl⟩
          · exact ⟨rest, (List.cons.inj e).2⟩
          · have : r = "mount".toList ++ rest := (List.cons.inj e).2
            rw [this] at hm
            exact absurd rfl hm
      · rw [if_neg hc]
        simp only [Bool.false_eq_true, false_iff]
        rintro ⟨Y, rest, hY, e⟩
        rcases short_cases Y hY with rfl | ⟨y, rfl⟩
        · exact hc (List.cons.inj e).1.symm
        · have : r = "mount".toList ++ rest := (List.cons.inj e).2
          rw [this] at hm
          exact absurd rfl hm
    · rw [if_neg hm, inner_mount]
      have hm' : chr r 0 = 'm' := by
        by_contra h; exact hm (fun e => h e.symm)
      constructor
      · rintro ⟨rest, e⟩
        exact ⟨[c], rest, by simp, by rw [e]; rfl⟩
      · rintro ⟨Y, rest, hY, e⟩
        rcases short_cases Y hY with rfl | ⟨y, rfl⟩
        · have : r = "ount".toList ++ rest := (List.cons.inj e).2
          rw [this] at hm'
          have h0 : chr ("ount".toList ++ rest) 0 = 'o' := rfl
          rw [h0] at hm'
          exact absurd hm' (by decide)
        · exact ⟨rest, (List.cons.inj e).2⟩

theorem inner_q_bin (s : CStr) :
    strstr_wildcard_inner mountPattern s 8 = true
      ↔ ∃ X s', X.length ≤ 1 ∧ s = X ++ "bin/".toList ++ s'
          ∧ strstr_wildcard_inner mountPattern s' 13 = true := by
  have h9 := fun t => inner_lits mountPattern "bin/".toList t 9 (by decide)
  have h10 := fun t => inner_lits mountPattern "in/".toList t 10 (by decide)
  cases s with
  | nil =>
    simp only [strstr_wildcard_inner, Bool.false_eq_true, false_iff]
    rintro ⟨X, s', _, e, _⟩
    have := congrArg List.length e
    simp at this
    omega
  | cons c r =>
    rw [inner_q mountPattern c r 8 'b' (by decide) (by decide) (by decide) (by decide)]
    by_cases hm : 'b' ≠ chr r 0
    · rw [if_pos hm]
      by_cases hc : 'b' = c
      · rw [if_pos hc, h10]
        constructor
        · rintro ⟨rest, e, h⟩
          exact ⟨[], rest, by simp, by rw [e, ← hc]; rfl, h⟩
        · rintro ⟨X, rest, hX, e, h⟩
          rcases short_cases X hX with rfl | ⟨y, rfl⟩
          · exact ⟨rest, (List.cons.inj e).2, h⟩
          · have : r = "bin/".toList ++ rest := (List.cons.inj e).2
            rw [this] at hm
            exact absurd rfl hm
      · rw [if_neg hc]
        simp only [Bool.false_eq_true, false_iff]
        rintro ⟨X, rest, hX, e, _⟩
        rcases short_cases X hX with rfl | ⟨y, rfl⟩
        · exact hc (List.cons.inj e).1.symm
        · have : r = "bin/".toList ++ rest := (List.cons.inj e).2
          rw [this] at hm
          exact absurd rfl hm
    · rw [if_neg hm, h9]
      have hm' : chr r 0 = 'b' := by
        by_contra h; exact hm (fun e => h e.symm)
      constructor
      · rintro ⟨rest, e, h⟩
        exact ⟨[c], rest, by simp, by rw [e]; rfl, h⟩
      · rintro ⟨X, rest, hX, e, h⟩
        rcases short_cases X hX with rfl | ⟨y, rfl⟩
        · have : r = "in/".toList ++ rest := (List.cons.inj e).2
          rw [this] at hm'
          have h0 : chr ("in/".toList ++ rest) 0 = 'i' := rfl
          rw [h0] at hm'
          exact absurd hm' (by decide)
        · exact ⟨rest, (List.cons.inj e).2, h⟩

theorem inner_mountPattern (s : CStr) :
    strstr_wildcard_inner mountPattern s 0 = true
      ↔ ∃ X Y rest, X.length ≤ 1 ∧ Y.length ≤ 1 ∧ s = mountForm X Y ++ rest := by
  rw [inner_lits mountPattern "/system/".toList s 0 (by decide)]
  unfold mountForm
  constructor
  · rintro ⟨r, e, h⟩
    obtain ⟨X, s', hX, e', h'⟩ := (inner_q_bin r).1 h
    obtain ⟨Y, rest, hY, e''⟩ := (inner_q_mount s').1 h'
    exact ⟨X, Y, rest, hX, hY, by rw [e, e', e'']; simp only [List.append_assoc]⟩
  · rintro ⟨X, Y, rest, hX, hY, e⟩
    refine ⟨X ++ "bin/".toList ++ (Y ++ "mount".toList ++ rest),
      by rw [e]; simp only [List.append_assoc], ?_⟩
    exact (inner_q_bin _).2 ⟨X, _, hX, rfl, (inner_q_mount _).2 ⟨Y, rest, hY, rfl⟩⟩

theorem outer_iff (find : CStr) : ∀ s : CStr,
    (strstr_wildcard_outer find s).isSome = true
      ↔ ∃ pre suf, s = pre ++ suf ∧ strstr_wildcard_inner find suf 0 = true
  | [] => by
    simp only [strstr_wildcard_outer, Option.isSome_none, Bool.false_eq_true, false_iff]
    rintro ⟨pre, suf, e, h⟩
    have : suf = [] := (List.append_eq_nil.1 e.symm).2
    rw [this] at h
    simp [strstr_wildcard_inner] at h
  | c :: rest => by
    rw [strstr_wildcard_outer]
    by_cases h : strstr_wildcard_inner find (c :: rest) 0 = true
    · rw [if_pos h]
      simp only [Option.isSome_some, true_iff]
      exact ⟨[], c :: rest, rfl, h⟩
    · rw [if_neg h, outer_iff find rest]
      constructor
      · rintro ⟨pre, suf, e, hs⟩
        exact ⟨c :: pre, suf, by rw [e]; rfl, hs⟩
      · rintro ⟨pre, suf, e, hs⟩
        cases pre with
        | nil =>
          rw [List.nil_append] at e
          rw [← e] at hs
          exact absurd hs h
        | cons p pre' =>
          exact ⟨pre', suf, (List.cons.inj e).2, hs⟩

theorem strstr_wildcard_mount_iff (s : CStr) :
    (strstr_wildcard s mountPattern).isSome = true
      ↔ ∃ X Y, X.length ≤ 1 ∧ Y.length ≤ 1 ∧ mountForm X Y <:+: s := by
  unfold strstr_wildcard
  by_cases hs : s = []
  · subst hs
    simp only [true_or, if_true, Option.isSome_none, Bool.false_eq_true, false_iff]
    rintro ⟨X, Y, _, _, pre, post, e⟩
    have := congrArg List.length e
    simp [mountForm] at this
  · rw [if_neg (by rw [not_or]; exact ⟨hs, by decide⟩), outer_iff]
    constructor
    · rintro ⟨pre, suf, e, h⟩
      obtain ⟨X, Y, rest, hX, hY, e'⟩ := (inner_mountPattern suf).1 h
      exact ⟨X, Y, hX, hY, pre, rest, by rw [e, e', List.append_assoc]⟩
    · rintro ⟨X, Y, hX, hY, pre, post, e⟩
      exact ⟨pre, mountForm X Y ++ post, by rw [← e, List.append_assoc],
        (inner_mountPattern _).2 ⟨X, Y, post, hX, hY, rfl⟩⟩

/-- C26 (as stated, refuted): `/system/bin/mount` is matched, and it contains no
text got from the pattern by putting one character for each `?` (such a text
has 19 characters, the line 17). -/
theorem C26_counterexample :
    (strstr_wildcard "/system/bin/mount".toList mountPattern).isSome = true
    ∧ ¬ ∃ x y : Char, fill mountPattern [[x], [y]] <:+: "/system/bin/mount".toList := by
  refine ⟨by decide, ?_⟩
  rintro ⟨x, y, h⟩
  have := h.length_le
  simp [fill, mountPattern] at this

/-- C26 (amended): `strstr_wildcard(s, "/system/?bin/?mount")` reports a match
if and only if `s` contains a text got from the pattern by replacing each `?`
with one arbitrary character or with nothing; so every text with exactly one
character for each `?` is matched, and so is the pattern with both `?` left
out. -/
theorem C26_wildcard_zero_or_one :
    (∀ s : CStr, (strstr_wildcard s mountPattern).isSome = true
      ↔ ∃ X Y : CStr, X.length ≤ 1 ∧ Y.length ≤ 1 ∧ fill mountPattern [X, Y] <:+: s)
    ∧ (∀ (s : CStr) (x y : Char), fill mountPattern [[x], [y]] <:+: s →
        (strstr_wildcard s mountPattern).isSome = true)
    ∧ (∀ s : CStr, fill mountPattern [[], []] <:+: s →
        (strstr_wildcard s mountPattern).isSome = true) := by
  have hf : ∀ X Y : CStr, fill mountPattern [X, Y] = mountForm X Y := by
    intro X Y
    simp [fill, mountPattern, mountForm]
  refine ⟨fun s => ?_, fun s x y h => ?_, fun s h => ?_⟩
  · rw [strstr_wildcard_mount_iff]
    simp only [hf]
  · rw [strstr_wildcard_mount_iff]
    exact ⟨[x], [y], by simp, by simp, by rw [← hf]; exact h⟩
  · rw [strstr_wildcard_mount_iff]
    exact ⟨[], [], by simp, by simp, by rw [← hf]; exact h⟩

/-- C27: `strstr_wildcard(s, "/system/?bin/?mount")` is non-null if and only if
`s` contains `/system/` X `bin/` Y `mount` with X and Y each empty or one
character; `/system/bin/mount` and `/system/xbin/mount` are matched, and every
string that holds such a text is matched wherever the text stands. -/
theorem C27_wildcard_mount_forms :
    (∀ s : CStr, (strstr_wildcard s mountPattern).isSome = true
      ↔ ∃ X Y : CStr, (X = [] ∨ ∃ x, X = [x]) ∧ (Y = [] ∨ ∃ y, Y = [y])
          ∧ ∃ pre post, s = pre ++ mountForm X Y ++ post)
    ∧ (strstr_wildcard "/system/bin/mount".toList mountPattern).isSome = true
    ∧ (strstr_wildcard "/system/xbin/mount".toList mountPattern).isSome = true
    ∧ (∀ (pre post X Y : CStr), X.length ≤ 1 → Y.length ≤ 1 →
        (strstr_wildcard (pre ++ mountForm X Y ++ post) mountPattern).isSome = true) := by
  refine ⟨fun s => ?_, by decide, by decide, fun pre post X Y hX hY => ?_⟩
  · rw [strstr_wildcard_mount_iff]
    constructor
    · rintro ⟨X, Y, hX, hY, pre, post, e⟩
      exact ⟨X, Y, short_cases X hX, short_cases Y hY, pre, post, e.symm⟩
    · rintro ⟨X, Y, hX, hY, pre, post, e⟩
      refine ⟨X, Y, ?_, ?_, pre, post, e.symm⟩
      · rcases hX with rfl | ⟨x, rfl⟩ <;> simp
      · rcases hY with rfl | ⟨y, rfl⟩ <;> simp
  · rw [strstr_wildcard_mount_iff]
    exact ⟨X, Y, hX, hY, pre, post, rfl⟩

/-! ## Paths on the real data partition -/

/-- C21: the path `/data/media/0/sdcard/rom.zip` does not begin with `/sdcard/`
and contains `/data/media/`, yet `translateToRealdata` does not turn its leading
`/data/` into `/realdata/`: `/sdcard/` occurs in it, so its first eight
characters give way to `/realdata/media/0/`.  In general, a path in which
`/sdcard/` occurs anywhere loses its first eight characters, whatever they
are. -/
theorem C21_translate_mangles :
    translateToRealdata fsRealdata "/data/media/0/sdcard/rom.zip".toList
      = "/realdata/media/0/dia/0/sdcard/rom.zip".toList
    ∧ translateToRealdata fsRealdata "/data/media/0/sdcard/rom.zip".toList
      ≠ "/realdata/media/0/sdcard/rom.zip".toList
    ∧ translateToRealdata fsRealdata "/mnt/sdcard/rom.zip".toList
      = "/realdata/media/0/ard/rom.zip".toList
    ∧ (∀ (fs : FS) (path : CStr), (strstr path "/sdcard/".toList).isSome = true →
        translateToRealdata fs path
          = (if access fs "/realdata/media/0".toList then "/realdata/media/0/".toList
              else "/realdata/media/".toList) ++ path.drop 8) := by
  refine ⟨by decide, by decide, by decide, fun fs path h => ?_⟩
  unfold translateToRealdata replace0
  rw [if_pos h]
  by_cases ha : access fs (REALDATA ++ "/media/0".toList) = true
  · have ha' : access fs "/realdata/media/0".toList = true := ha
    rw [if_pos ha, if_pos ha']; rfl
  · have ha' : ¬ access fs "/realdata/media/0".toList = true := ha
    rw [if_neg ha, if_neg ha']; rfl

/-! ## The configuration file -/

theorem fgets_lines_line : ∀ (body acc rest : CStr), '\n' ∉ body →
    acc.length + body.length + 1 ≤ 511 →
    fgets_lines acc (body ++ '\n' :: rest) = (acc ++ body ++ ['\n']) :: fgets_lines [] rest
  | [], acc, rest, _, _ => by
    rw [List.nil_append, fgets_lines, if_pos rfl, List.append_nil]
  | c :: body, acc, rest, hn, hl => by
    rw [List.mem_cons, not_or] at hn
    rw [List.length_cons] at hl
    rw [List.cons_append, fgets_lines, if_neg (fun e => hn.1 e.symm), if_neg (by omega)]
    rw [fgets_lines_line body (acc ++ [c]) rest hn.2 (by rw [List.length_append]; simp; omega)]
    simp

theorem fgets_lines_flatMap : ∀ ls : List CStr, (∀ l ∈ ls, '\n' ∉ l ∧ l.length ≤ 510) →
    fgets_lines [] (ls.flatMap (fun l => l ++ ['\n'])) = ls.map (fun l => l ++ ['\n'])
  | [], _ => rfl
  | l :: ls, h => by
    have hl := h l (List.mem_cons_self _ _)
    rw [List.flatMap_cons, List.append_assoc, List.singleton_append,
      fgets_lines_line l [] _ hl.1 (by simp; omega), List.nil_append, List.map_cons,
      fgets_lines_flatMap ls (fun x hx => h x (List.mem_cons_of_mem _ hx))]

theorem takeWhile_token (t rest : CStr) (d : Char) (ht : ∀ c ∈ t, isDelim c = false)
    (hd : isDelim d = true) :
    (t ++ d :: rest).takeWhile (fun x => !isDelim x) = t
    ∧ (t ++ d :: rest).dropWhile (fun x => !isDelim x) = d :: rest := by
  induction t with
  | nil => simp [List.takeWhile, List.dropWhile, hd]
  | cons c t ih =>
    have hc := ht c (List.mem_cons_self _ _)
    have ih' := ih (fun x hx => ht x (List.mem_cons_of_mem _ hx))
    simp [List.takeWhile, List.dropWhile, hc, ih'.1, ih'.2]

theorem strtok_token (t rest : CStr) (d : Char) (ht : token t) (hd : isDelim d = true) :
    strtok (t ++ d :: rest) = some (t, rest) := by
  obtain ⟨c, t', rfl⟩ := List.exists_cons_of_ne_nil ht.1
  have hc := ht.2 c (List.mem_cons_self _ _)
  unfold strtok
  have h1 : (c :: t' ++ d :: rest).dropWhile isDelim = c :: t' ++ d :: rest := by
    rw [List.cons_append, List.dropWhile_cons, hc]; simp
  rw [h1]
  have h2 := takeWhile_token (c :: t') rest d ht.2 hd
  simp only [List.cons_append] at h2 ⊢
  rw [h2.1, h2.2]
  rfl

theorem loadConfig_line_kv (cfg : config) (key val : CStr) (hk : token key) (hv : token val) :
    loadConfig_line cfg (key ++ "=".toList ++ val ++ "\n".toList) = setField cfg key val := by
  have e : key ++ "=".toList ++ val ++ "\n".toList = key ++ '=' :: (val ++ '\n' :: []) := by
    simp
  unfold loadConfig_line
  rw [e, strtok_token key _ '=' hk (by decide)]
  simp only []
  rw [strtok_token val [] '\n' hv (by decide)]

theorem digitChar_not_delim (d : Nat) :
    isDelim (digitChar d) = false ∧ isspace (digitChar d) = false
    ∧ digitChar d ≠ '-' ∧ digitChar d ≠ '+' := by
  have h : d % 10 < 10 := Nat.mod_lt _ (by decide)
  unfold digitChar
  generalize d % 10 = r at h
  interval_cases r <;> decide

theorem dec_core_chars : ∀ (fuel n : Nat) (ds : CStr), (∀ c ∈ ds, ∃ d, c = digitChar d) →
    ∀ c ∈ dec_core fuel n ds, ∃ d, c = digitChar d
  | 0, _, _, h => h
  | fuel + 1, n, ds, h => by
    have h' : ∀ c ∈ digitChar n :: ds, ∃ d, c = digitChar d := by
      intro c hc
      rcases List.mem_cons.1 hc with e | e
      · exact ⟨n, e⟩
      · exact h c e
    rw [dec_core]
    split
    · exact h'
    · exact dec_core_chars fuel (n / 10) _ h'

theorem dec_chars (n : Nat) : ∀ c ∈ dec n, ∃ d, c = digitChar d :=
  dec_core_chars (n + 1) n [] (fun _ h => absurd h (List.not_mem_nil _))

theorem dec_ne_nil (n : Nat) : dec n ≠ [] := by
  obtain ⟨k, hk, hk1, _⟩ := dec_spec n
  intro e
  rw [e] at hk
  simp at hk
  omega

theorem print_d_token (z : Int) : token (print_d z) := by
  unfold print_d
  split
  · refine ⟨by simp, fun c hc => ?_⟩
    rcases List.mem_cons.1 hc with e | e
    · rw [e]; decide
    · obtain ⟨d, rfl⟩ := dec_chars _ c e
      exact (digitChar_not_delim d).1
  · refine ⟨dec_ne_nil _, fun c hc => ?_⟩
    obtain ⟨d, rfl⟩ := dec_chars _ c hc
    exact (digitChar_not_delim d).1

theorem atoi_digit_head (d : Nat) (t : CStr) :
    atoi (digitChar d :: t) = (atoi_digits (digitChar d :: t) 0 : Int) := by
  have h : d % 10 < 10 := Nat.mod_lt _ (by decide)
  unfold digitChar
  generalize d % 10 = r at h
  interval_cases r <;> rfl

theorem atoi_dec (n : Nat) : atoi (dec n) = (n : Int) := by
  obtain ⟨c, t, e⟩ := List.exists_cons_of_ne_nil (dec_ne_nil n)
  obtain ⟨d, hd⟩ := dec_chars n c (by rw [e]; exact List.mem_cons_self _ _)
  have := atoi_digits_dec n
  rw [e, hd] at this ⊢
  rw [atoi_digit_head, this]

theorem atoi_print_d (z : Int) : atoi (print_d z) = z := by
  unfold print_d
  split
  · rename_i h
    have e : atoi ('-' :: dec z.natAbs) = - (atoi_digits (dec z.natAbs) 0 : Int) := rfl
    rw [e, atoi_digits_dec]
    omega
  · rename_i h
    rw [atoi_dec]
    omega

/-- C28: for every config whose three string fields are not empty, hold no `=`
and no newline and make a line of at most 511 characters with the key and the
newline, and whose six integer fields are in the range of `int`, `loadConfig`
on the file written by `saveConfig` returns the same config. -/
theorem C28_save_then_load (TW_DEFAULT_ROTATION : Int) (cfg : config)
    (h1 : token cfg.current_rom) (h2 : token cfg.auto_boot_rom) (h3 : token cfg.int_display_name)
    (hl1 : "current_rom=".toList.length + cfg.current_rom.length + 1 ≤ 511)
    (hl2 : "auto_boot_rom=".toList.length + cfg.auto_boot_rom.length + 1 ≤ 511)
    (hl3 : "int_display_name=".toList.length + cfg.int_display_name.length + 1 ≤ 511)
    (hint : ∀ v ∈ intFields cfg, -2147483648 ≤ v ∧ v ≤ 2147483647) :
    loadConfig TW_DEFAULT_ROTATION (some (saveConfig cfg)) = cfg := by
  have hlen : ∀ z : Int, -2147483648 ≤ z ∧ z ≤ 2147483647 → (print_d z).length ≤ 11 := by
    intro z hz
    unfold print_d
    have hd : (dec z.natAbs).length ≤ 10 := dec_length_le _ 10 (by omega) (by decide)
    split
    · rw [List.length_cons]; omega
    · omega
  have hi := fun v hv => hlen v (hint v hv)
  simp only [intFields, List.mem_cons, List.mem_singleton, List.not_mem_nil, or_false,
    forall_eq_or_imp, forall_eq] at hi
  obtain ⟨i1, i2, i3, i4, i5, i6⟩ := hi
  have hn : ∀ t : CStr, token t → '\n' ∉ t := by
    intro t ht h
    have := ht.2 _ h
    revert this; decide
  have hs : saveConfig cfg =
      List.flatMap
        ["current_rom=".toList ++ cfg.current_rom,
         "auto_boot_seconds=".toList ++ print_d cfg.auto_boot_seconds,
         "auto_boot_rom=".toList ++ cfg.auto_boot_rom,
         "colors=".toList ++ print_d cfg.colors,
         "brightness=".toList ++ print_d cfg.brightness,
         "enable_adb=".toList ++ print_d cfg.enable_adb,
         "hide_internal=".toList ++ print_d cfg.hide_internal,
         "int_display_name=".toList ++ cfg.int_display_name,
         "rotation=".toList ++ print_d cfg.rotation] (fun l => l ++ ['\n']) := by
    unfold saveConfig
    simp [List.flatMap]
  have hkey : ∀ (k : String) (v : CStr), '\n' ∉ k.toList → '\n' ∉ v → '\n' ∉ k.toList ++ v := by
    intro k v hk hv h
    rcases List.mem_append.1 h with e | e
    · exact hk e
    · exact hv e
  have hset : ∀ (c : config) (v : CStr), token v →
      loadConfig_line c ("current_rom=".toList ++ v ++ ['\n']) = { c with current_rom := v }
      ∧ loadConfig_line c ("auto_boot_seconds=".toList ++ v ++ ['\n']) = { c with auto_boot_seconds := atoi v }
      ∧ loadConfig_line c ("auto_boot_rom=".toList ++ v ++ ['\n']) = { c with auto_boot_rom := v }
      ∧ loadConfig_line c ("colors=".toList ++ v ++ ['\n']) = { c with colors := atoi v }
      ∧ loadConfig_line c ("brightness=".toList ++ v ++ ['\n']) = { c with brightness := atoi v }
      ∧ loadConfig_line c ("enable_adb=".toList ++ v ++ ['\n']) = { c with enable_adb := atoi v }
      ∧ loadConfig_line c ("hide_internal=".toList ++ v ++ ['\n']) = { c with hide_internal := atoi v }
      ∧ loadConfig_line c ("int_display_name=".toList ++ v ++ ['\n']) = { c with int_display_name := v }
      ∧ loadConfig_line c ("rotation=".toList ++ v ++ ['\n']) = { c with rotation := atoi v } := by
    intro c v hv
    have kv : ∀ k : String, token k.toList →
        loadConfig_line c (k.toList ++ "=".toList ++ v ++ "\n".toList) = setField c k.toList v :=
      fun k hk => loadConfig_line_kv c k.toList v hk hv
    refine ⟨?_, ?_, ?_, ?_, ?_, ?_, ?_, ?_, ?_⟩
    · exact (kv "current_rom" ⟨by decide, by decide⟩).trans (by simp [setField])
    · exact (kv "auto_boot_seconds" ⟨by decide, by decide⟩).trans (by simp [setField])
    · exact (kv "auto_boot_rom" ⟨by decide, by decide⟩).trans (by simp [setField])
    · exact (kv "colors" ⟨by decide, by decide⟩).trans (by simp [setField])
    · exact (kv "brightness" ⟨by decide, by decide⟩).trans (by simp [setField])
    · exact (kv "enable_adb" ⟨by decide, by decide⟩).trans (by simp [setField])
    · exact (kv "hide_internal" ⟨by decide, by decide⟩).trans (by simp [setField])
    · exact (kv "int_display_name" ⟨by decide, by decide⟩).trans (by simp [setField])
    · exact (kv "rotation" ⟨by decide, by decide⟩).trans (by simp [setField])
  unfold loadConfig
  simp only []
  rw [hs, fgets_lines_flatMap]
  · simp only [List.map_cons, List.map_nil, List.foldl_cons, List.foldl_nil]
    rw [(hset _ _ h1).1, (hset _ _ (print_d_token _)).2.1, (hset _ _ h2).2.2.1,
      (hset _ _ (print_d_token _)).2.2.2.1, (hset _ _ (print_d_token _)).2.2.2.2.1,
      (hset _ _ (print_d_token _)).2.2.2.2.2.1, (hset _ _ (print_d_token _)).2.2.2.2.2.2.1,
      (hset _ _ h3).2.2.2.2.2.2.2.1, (hset _ _ (print_d_token _)).2.2.2.2.2.2.2.2]
    simp only [atoi_print_d]
  · intro l hl
    have hk : ∀ t : CStr, token t → '\n' ∉ t := hn
    simp only [List.mem_cons, List.mem_singleton, List.not_mem_nil, or_false] at hl
    have hp := fun z => hn _ (print_d_token z)
    rcases hl with rfl | rfl | rfl | rfl | rfl | rfl | rfl | rfl | rfl
    · exact ⟨hkey "current_rom=" _ (by decide) (hn _ h1), by
        rw [List.length_append]
        have : "current_rom=".toList.length = 12 := rfl
        omega⟩
    · exact ⟨hkey "auto_boot_seconds=" _ (by decide) (hp _), by
        rw [List.length_append]
        have : "auto_boot_seconds=".toList.length = 18 := rfl
        omega⟩
    · exact ⟨hkey "auto_boot_rom=" _ (by decide) (hn _ h2), by
        rw [List.length_append]
        have : "auto_boot_rom=".toList.length = 14 := rfl
        omega⟩
    · exact ⟨hkey "colors=" _ (by decide) (hp _), by
        rw [List.length_append]
        have : "colors=".toList.length = 7 := rfl
        omega⟩
    · exact ⟨hkey "brightness=" _ (by decide) (hp _), by
        rw [List.length_append]
        have : "brightness=".toList.length = 11 := rfl
        omega⟩
    · exact ⟨hkey "enable_adb=" _ (by decide) (hp _), by
        rw [List.length_append]
        have : "enable_adb=".toList.length = 11 := rfl
        omega⟩
    · exact ⟨hkey "hide_internal=" _ (by decide) (hp _), by
        rw [List.length_append]
        have : "hide_internal=".toList.length = 14 := rfl
        omega⟩
    · exact ⟨hkey "int_display_name=" _ (by decide) (hn _ h3), by
        rw [List.length_append]
        have : "int_display_name=".toList.length = 17 := rfl
        omega⟩
    · exact ⟨hkey "rotation=" _ (by decide) (hp _), by
        rw [List.length_append]
        have : "rotation=".toList.length = 9 := rfl
        omega⟩

/-- C28 on a config with spaces in its names and a negative number. -/
theorem C28_save_then_load_witness :
    saveConfig cfgSample
      = ("current_rom=CM 13\nauto_boot_seconds=-1\nauto_boot_rom=Ubuntu\ncolors=3\n"
          ++ "brightness=255\nenable_adb=1\nhide_internal=0\nint_display_name=Stock ROM\n"
          ++ "rotation=270\n").toList
    ∧ loadConfig 0 (some (saveConfig cfgSample)) = cfgSample :=
  ⟨by decide,
   C28_save_then_load 0 cfgSample ⟨by decide, by decide⟩ ⟨by decide, by decide⟩
     ⟨by decide, by decide⟩ (by decide) (by decide) (by decide) (by decide)⟩

theorem fieldText_unknown (cfg : config) (k : CStr) (hk : k ∉ knownKeys) :
    fieldText cfg k = [] := by
  simp only [knownKeys, List.mem_cons, List.mem_singleton, List.not_mem_nil, or_false,
    not_or] at hk
  obtain ⟨k1, k2, k3, k4, k5, k6, k7, k8, k9⟩ := hk
  unfold fieldText
  rw [if_neg k1, if_neg k2, if_neg k3, if_neg k4, if_neg k5, if_neg k6, if_neg k7, if_neg k8,
    if_neg k9]

theorem fieldText_current_rom (cfg : config) : fieldText cfg "current_rom".toList = cfg.current_rom := by
  unfold fieldText
  rw [if_pos rfl]

theorem fieldText_auto_boot_seconds (cfg : config) : fieldText cfg "auto_boot_seconds".toList = print_d cfg.auto_boot_seconds := by
  unfold fieldText
  rw [if_neg (by decide), if_pos rfl]

theorem fieldText_auto_boot_rom (cfg : config) : fieldText cfg "auto_boot_rom".toList = cfg.auto_boot_rom := by
  unfold fieldText
  rw [if_neg (by decide), if_neg (by decide), if_pos rfl]

theorem fieldText_colors (cfg : config) : fieldText cfg "colors".toList = print_d cfg.colors := by
  unfold fieldText
  rw [if_neg (by decide), if_neg (by decide), if_neg (by decide), if_pos rfl]

theorem fieldText_brightness (cfg : config) : fieldText cfg "brightness".toList = print_d cfg.brightness := by
  unfold fieldText
  rw [if_neg (by decide), if_neg (by decide), if_neg (by decide), if_neg (by decide), if_pos rfl]

theorem fieldText_enable_adb (cfg : config) : fieldText cfg "enable_adb".toList = print_d cfg.enable_adb := by
  unfold fieldText
  rw [if_neg (by decide), if_neg (by decide), if_neg (by decide), if_neg (by decide), if_neg (by decide), if_pos rfl]

theorem fieldText_hide_internal (cfg : config) : fieldText cfg "hide_internal".toList = print_d cfg.hide_internal := by
  unfold fieldText
  rw [if_neg (by decide), if_neg (by decide), if_neg (by decide), if_neg (by decide), if_neg (by decide), if_neg (by decide), if_pos rfl]

theorem fieldText_int_display_name (cfg : config) : fieldText cfg "int_display_name".toList = cfg.int_display_name := by
  unfold fieldText
  rw [if_neg (by decide), if_neg (by decide), if_neg (by decide), if_neg (by decide), if_neg (by decide), if_neg (by decide), if_neg (by decide), if_pos rfl]

theorem fieldText_rotation (cfg : config) : fieldText cfg "rotation".toList = print_d cfg.rotation := by
  unfold fieldText
  rw [if_neg (by decide), if_neg (by decide), if_neg (by decide), if_neg (by decide), if_neg (by decide), if_neg (by decide), if_neg (by decide), if_neg (by decide), if_pos rfl]

theorem setField_keep_current_rom (cfg : config) (name val : CStr) (h : name ≠ "current_rom".toList) :
    (setField cfg name val).current_rom = cfg.current_rom := by
  unfold setField
  split_ifs <;> (try exact absurd ‹name = _› h) <;> rfl

theorem setField_keep_auto_boot_seconds (cfg : config) (name val : CStr) (h : name ≠ "auto_boot_seconds".toList) :
    (setField cfg name val).auto_boot_seconds = cfg.auto_boot_seconds := by
  unfold setField
  split_ifs <;> rfl

theorem setField_keep_auto_boot_rom (cfg : config) (name val : CStr) (h : name ≠ "auto_boot_rom".toList) :
    (setField cfg name val).auto_boot_rom = cfg.auto_boot_rom := by
  unfold setField
  split_ifs <;> rfl

theorem setField_keep_colors (cfg : config) (name val : CStr) (h : name ≠ "colors".toList) :
    (setField cfg name val).colors = cfg.colors := by
  unfold setField
  split_ifs <;> rfl

theorem setField_keep_brightness (cfg : config) (name val : CStr) (h : name ≠ "brightness".toList) :
    (setField cfg name val).brightness = cfg.brightness := by
  unfold setField
  split_ifs <;> rfl

theorem setField_keep_enable_adb (cfg : config) (name val : CStr) (h : name ≠ "enable_adb".toList) :
    (setField cfg name val).enable_adb = cfg.enable_adb := by
  unfold setField
  split_ifs <;> rfl

theorem setField_keep_hide_internal (cfg : config) (name val : CStr) (h : name ≠ "hide_internal".toList) :
    (setField cfg name val).hide_internal = cfg.hide_internal := by
  unfold setField
  split_ifs <;> rfl

theorem setField_keep_int_display_name (cfg : config) (name val : CStr) (h : name ≠ "int_display_name".toList) :
    (setField cfg name val).int_display_name = cfg.int_display_name := by
  unfold setField
  split_ifs <;> rfl

theorem setField_keep_rotation (cfg : config) (name val : CStr) (h : name ≠ "rotation".toList) :
    (setField cfg name val).rotation = cfg.rotation := by
  unfold setField
  split_ifs <;> rfl

theorem setField_other (cfg : config) (name val k : CStr) (h : name ≠ k) :
    fieldText (setField cfg name val) k = fieldText cfg k := by
  by_cases hk : k ∈ knownKeys
  · simp only [knownKeys, List.mem_cons, List.mem_singleton, List.not_mem_nil, or_false] at hk
    rcases hk with hk | hk | hk | hk | hk | hk | hk | hk | hk
    · rw [hk, fieldText_current_rom, fieldText_current_rom, setField_keep_current_rom cfg name val (hk ▸ h)]
    · rw [hk, fieldText_auto_boot_seconds, fieldText_auto_boot_seconds, setField_keep_auto_boot_seconds cfg name val (hk ▸ h)]
    · rw [hk, fieldText_auto_boot_rom, fieldText_auto_boot_rom, setField_keep_auto_boot_rom cfg name val (hk ▸ h)]
    · rw [hk, fieldText_colors, fieldText_colors, setField_keep_colors cfg name val (hk ▸ h)]
    · rw [hk, fieldText_brightness, fieldText_brightness, setField_keep_brightness cfg name val (hk ▸ h)]
    · rw [hk, fieldText_enable_adb, fieldText_enable_adb, setField_keep_enable_adb cfg name val (hk ▸ h)]
    · rw [hk, fieldText_hide_internal, fieldText_hide_internal, setField_keep_hide_internal cfg name val (hk ▸ h)]
    · rw [hk, fieldText_int_display_name, fieldText_int_display_name, setField_keep_int_display_name cfg name val (hk ▸ h)]
    · rw [hk, fieldText_rotation, fieldText_rotation, setField_keep_rotation cfg name val (hk ▸ h)]
  · rw [fieldText_unknown _ k hk, fieldText_unknown _ k hk]

theorem loadConfig_line_other (cfg : config) (line k : CStr) (h : keyOf line ≠ some k) :
    fieldText (loadConfig_line cfg line) k = fieldText cfg k := by
  unfold loadConfig_line
  unfold keyOf at h
  cases h1 : strtok line with
  | none => rfl
  | some p =>
    obtain ⟨name, rest⟩ := p
    rw [h1] at h
    simp only [] at h ⊢
    cases h2 : strtok rest with
    | none => rfl
    | some q =>
      obtain ⟨val, r⟩ := q
      rw [h2] at h
      simp only [] at h ⊢
      exact setField_other cfg name val k (fun e => h (by rw [e]))

theorem loadConfig_line_unknown (cfg : config) (line : CStr)
    (h : ∀ k ∈ knownKeys, keyOf line ≠ some k) : loadConfig_line cfg line = cfg := by
  unfold loadConfig_line
  unfold keyOf at h
  cases h1 : strtok line with
  | none => rfl
  | some p =>
    obtain ⟨name, rest⟩ := p
    rw [h1] at h
    simp only [] at h ⊢
    cases h2 : strtok rest with
    | none => rfl
    | some q =>
      obtain ⟨val, r⟩ := q
      rw [h2] at h
      simp only [] at h ⊢
      have hk : ∀ k ∈ knownKeys, name ≠ k := fun k hk e => h k hk (by rw [e])
      simp only [knownKeys, List.mem_cons, List.mem_singleton, List.not_mem_nil, or_false,
        forall_eq_or_imp, forall_eq] at hk
      obtain ⟨k1, k2, k3, k4, k5, k6, k7, k8, k9⟩ := hk
      unfold setField
      rw [if_neg k1, if_neg k2, if_neg k3, if_neg k4, if_neg k5, if_neg k6, if_neg k7, if_neg k8,
        if_neg k9]

theorem foldl_absent (k : CStr) : ∀ (ls : List CStr) (cfg : config),
    (∀ l ∈ ls, keyOf (l ++ ['\n']) ≠ some k) →
    fieldText (ls.foldl (fun c l => loadConfig_line c (l ++ ['\n'])) cfg) k = fieldText cfg k
  | [], _, _ => rfl
  | l :: ls, cfg, h => by
    rw [List.foldl_cons, foldl_absent k ls _ (fun x hx => h x (List.mem_cons_of_mem _ hx)),
      loadConfig_line_other cfg _ k (h l (List.mem_cons_self _ _))]

theorem loadConfig_lines (rot : Int) (ls : List CStr)
    (h : ∀ l ∈ ls, '\n' ∉ l ∧ l.length ≤ 510) :
    loadConfig rot (some (ls.flatMap (fun l => l ++ ['\n'])))
      = ls.foldl (fun c l => loadConfig_line c (l ++ ['\n'])) (config_default rot) := by
  unfold loadConfig
  simp only []
  rw [fgets_lines_flatMap ls h, List.foldl_map]

theorem fieldText_ext (c c' : config)
    (h : ∀ k ∈ knownKeys, fieldText c k = fieldText c' k) : c = c' := by
  simp only [knownKeys, List.mem_cons, List.mem_singleton, List.not_mem_nil, or_false,
    forall_eq_or_imp, forall_eq] at h
  obtain ⟨k1, k2, k3, k4, k5, k6, k7, k8, k9⟩ := h
  have inj : ∀ a b : Int, print_d a = print_d b → a = b := fun a b e => by
    rw [← atoi_print_d a, ← atoi_print_d b, e]
  rw [fieldText_current_rom, fieldText_current_rom] at k1
  rw [fieldText_auto_boot_seconds, fieldText_auto_boot_seconds] at k2
  rw [fieldText_auto_boot_rom, fieldText_auto_boot_rom] at k3
  rw [fieldText_colors, fieldText_colors] at k4
  rw [fieldText_brightness, fieldText_brightness] at k5
  rw [fieldText_enable_adb, fieldText_enable_adb] at k6
  rw [fieldText_hide_internal, fieldText_hide_internal] at k7
  rw [fieldText_int_display_name, fieldText_int_display_name] at k8
  rw [fieldText_rotation, fieldText_rotation] at k9
  cases c; cases c'
  simp only [config.mk.injEq]
  exact ⟨k1, inj _ _ k2, k3, inj _ _ k4, inj _ _ k5, inj _ _ k6, inj _ _ k7, k8, inj _ _ k9⟩

set_option maxRecDepth 100000 in
/-- C23 (as stated, refuted): a file that holds the single line `longLine`, whose
key `junk` is unknown, sets `colors` to 7: the line has 520 characters, `fgets`
hands back its first 511 and then the rest, `colors=7`, as a line of its
own. -/
theorem C23_counterexample :
    '\n' ∉ longLine
    ∧ keyOf (longLine ++ ['\n']) = some "junk".toList
    ∧ (loadConfig 0 (some (longLine ++ ['\n']))).colors = 7
    ∧ (config_default 0).colors = 0 := by
  decide

/-- C23 (amended): `loadConfig` starts from the defaults (`Internal`, 5,
`Internal`, 0, 40, 0, 0, `Internal`, the default rotation of the device) and a
file that cannot be opened gives exactly these.  For a file whose lines have at
most 510 characters, so that each fits the read buffer with its newline, the
lines are taken one by one: a line `key=value` with one of the nine known keys
and a value that is not empty sets its own field and no other, a line whose key
is none of the nine changes no field, and a key that is the key of no line
keeps its default. -/
theorem C23_defaults_and_overrides (TW_DEFAULT_ROTATION : Int) :
    loadConfig TW_DEFAULT_ROTATION none = config_default TW_DEFAULT_ROTATION
    ∧ config_default TW_DEFAULT_ROTATION
        = { current_rom := "Internal".toList, auto_boot_seconds := 5,
            auto_boot_rom := "Internal".toList, colors := 0, brightness := 40, enable_adb := 0,
            hide_internal := 0, int_display_name := "Internal".toList,
            rotation := TW_DEFAULT_ROTATION }
    ∧ (∀ ls : List CStr, (∀ l ∈ ls, '\n' ∉ l ∧ l.length ≤ 510) →
        loadConfig TW_DEFAULT_ROTATION (some (ls.flatMap (fun l => l ++ ['\n'])))
          = ls.foldl (fun c l => loadConfig_line c (l ++ ['\n']))
              (config_default TW_DEFAULT_ROTATION))
    ∧ (∀ (cfg : config) (val : CStr), token val →
        loadConfig_line cfg ("current_rom=".toList ++ val ++ ['\n']) = { cfg with current_rom := val }
        ∧ loadConfig_line cfg ("auto_boot_seconds=".toList ++ val ++ ['\n']) = { cfg with auto_boot_seconds := atoi val }
        ∧ loadConfig_line cfg ("auto_boot_rom=".toList ++ val ++ ['\n']) = { cfg with auto_boot_rom := val }
        ∧ loadConfig_line cfg ("colors=".toList ++ val ++ ['\n']) = { cfg with colors := atoi val }
        ∧ loadConfig_line cfg ("brightness=".toList ++ val ++ ['\n']) = { cfg with brightness := atoi val }
        ∧ loadConfig_line cfg ("enable_adb=".toList ++ val ++ ['\n']) = { cfg with enable_adb := atoi val }
        ∧ loadConfig_line cfg ("hide_internal=".toList ++ val ++ ['\n']) = { cfg with hide_internal := atoi val }
        ∧ loadConfig_line cfg ("int_display_name=".toList ++ val ++ ['\n']) = { cfg with int_display_name := val }
        ∧ loadConfig_line cfg ("rotation=".toList ++ val ++ ['\n']) = { cfg with rotation := atoi val })
    ∧ (∀ (cfg : config) (l : CStr), (∀ k ∈ knownKeys, keyOf (l ++ ['\n']) ≠ some k) →
        loadConfig_line cfg (l ++ ['\n']) = cfg)
    ∧ (∀ (ls : List CStr) (k : CStr), (∀ l ∈ ls, '\n' ∉ l ∧ l.length ≤ 510) →
        (∀ l ∈ ls, keyOf (l ++ ['\n']) ≠ some k) →
        fieldText (loadConfig TW_DEFAULT_ROTATION (some (ls.flatMap (fun l => l ++ ['\n'])))) k
          = fieldText (config_default TW_DEFAULT_ROTATION) k)
    ∧ (∀ c c' : config, (∀ k ∈ knownKeys, fieldText c k = fieldText c' k) → c = c') := by
  refine ⟨rfl, rfl, loadConfig_lines TW_DEFAULT_ROTATION, fun cfg val hv => ?_,
    fun cfg l h => loadConfig_line_unknown cfg _ h, fun ls k hs hk => ?_, fieldText_ext⟩
  · have kv : ∀ k : String, token k.toList →
        loadConfig_line cfg (k.toList ++ "=".toList ++ val ++ "\n".toList)
          = setField cfg k.toList val :=
      fun k hk => loadConfig_line_kv cfg k.toList val hk hv
    refine ⟨?_, ?_, ?_, ?_, ?_, ?_, ?_, ?_, ?_⟩
    · exact (kv "current_rom" ⟨by decide, by decide⟩).trans (by simp [setField])
    · exact (kv "auto_boot_seconds" ⟨by decide, by decide⟩).trans (by simp [setField])
    · exact (kv "auto_boot_rom" ⟨by decide, by decide⟩).trans (by simp [setField])
    · exact (kv "colors" ⟨by decide, by decide⟩).trans (by simp [setField])
    · exact (kv "brightness" ⟨by decide, by decide⟩).trans (by simp [setField])
    · exact (kv "enable_adb" ⟨by decide, by decide⟩).trans (by simp [setField])
    · exact (kv "hide_internal" ⟨by decide, by decide⟩).trans (by simp [setField])
    · exact (kv "int_display_name" ⟨by decide, by decide⟩).trans (by simp [setField])
    · exact (kv "rotation" ⟨by decide, by decide⟩).trans (by simp [setField])
  · rw [loadConfig_lines TW_DEFAULT_ROTATION ls hs]
    exact foldl_absent k ls _ hk

theorem atoi_eq_signed (s : CStr) : atoi s = atoi_signed (s.dropWhile isspace) := rfl

theorem blanks_not_digit (c : Char) (h : c = ' ' ∨ c = '\t' ∨ c = '\r') :
    ¬ ('0' ≤ c ∧ c ≤ '9') ∧ isspace c = true ∧ isDelim c = false ∧ c ≠ '-' ∧ c ≠ '+' := by
  rcases h with rfl | rfl | rfl <;> decide

theorem atoi_digits_append_blanks (ws : CStr) (hws : blanks ws) : ∀ (t : CStr) (acc : Nat),
    atoi_digits (t ++ ws) acc = atoi_digits t acc
  | [], acc => by
    cases ws with
    | nil => rfl
    | cons c r =>
      simp only [List.nil_append, atoi_digits,
        if_neg (blanks_not_digit c (hws c (List.mem_cons_self _ _))).1]
  | x :: t, acc => by
    rw [List.cons_append, atoi_digits, atoi_digits]
    split
    · exact atoi_digits_append_blanks ws hws t _
    · rfl

theorem atoi_signed_append_blanks (ws : CStr) (hws : blanks ws) (x : Char) (t : CStr) :
    atoi_signed (x :: t ++ ws) = atoi_signed (x :: t) := by
  by_cases h1 : x = '-'
  · subst h1
    show - (atoi_digits (t ++ ws) 0 : Int) = - (atoi_digits t 0 : Int)
    rw [atoi_digits_append_blanks ws hws]
  · by_cases h2 : x = '+'
    · subst h2
      show (atoi_digits (t ++ ws) 0 : Int) = (atoi_digits t 0 : Int)
      rw [atoi_digits_append_blanks ws hws]
    · have e : ∀ r : CStr, atoi_signed (x :: r) = (atoi_digits (x :: r) 0 : Int) := by
        intro r
        unfold atoi_signed
        split
        · rename_i heq; exact absurd (List.cons.inj heq).1 h1
        · rename_i heq; exact absurd (List.cons.inj heq).1 h2
        · rfl
      rw [List.cons_append, e, e, ← List.cons_append, atoi_digits_append_blanks ws hws]

theorem atoi_append_blanks (ws : CStr) (hws : blanks ws) : ∀ v : CStr,
    atoi (v ++ ws) = atoi v
  | [] => by
    rw [atoi_eq_signed, atoi_eq_signed, List.nil_append]
    have : ws.dropWhile isspace = [] := by
      rw [List.dropWhile_eq_nil_iff]
      exact fun c hc => (blanks_not_digit c (hws c hc)).2.1
    rw [this]
    rfl
  | x :: t => by
    rw [atoi_eq_signed, atoi_eq_signed, List.cons_append, List.dropWhile_cons, List.dropWhile_cons]
    by_cases hx : isspace x = true
    · rw [if_pos hx, if_pos hx, ← atoi_eq_signed, ← atoi_eq_signed]
      exact atoi_append_blanks ws hws t
    · rw [if_neg hx, if_neg hx]
      exact atoi_signed_append_blanks ws hws x t

theorem token_append_blanks (val ws : CStr) (hv : token val) (hws : blanks ws) :
    token (val ++ ws) := by
  refine ⟨fun e => hv.1 (List.append_eq_nil.1 e).1, fun c hc => ?_⟩
  rcases List.mem_append.1 hc with h | h
  · exact hv.2 c h
  · exact (blanks_not_digit c (hws c h)).2.2.1

theorem loadConfig_line_blanks (cfg : config) (key val ws : CStr) (hk : token key)
    (hv : token val) (hws : blanks ws) :
    loadConfig_line cfg (key ++ "=".toList ++ val ++ ws ++ ['\n']) = setField cfg key (val ++ ws) := by
  have := loadConfig_line_kv cfg key (val ++ ws) hk (token_append_blanks val ws hv hws)
  rw [← this]
  simp

theorem intFields_setField (cfg cfg' : config) (key val val' : CStr)
    (h : intFields cfg = intFields cfg') (hv : atoi val' = atoi val) :
    intFields (setField cfg key val') = intFields (setField cfg' key val) := by
  have h0 := h
  simp only [intFields, List.cons.injEq, and_true] at h
  obtain ⟨h1, h2, h3, h4, h5, h6⟩ := h
  unfold setField
  by_cases k0 : key = "current_rom".toList
  · rw [if_pos k0, if_pos k0]
    show [_, _, _, _, _, _] = [_, _, _, _, _, _]
    simp only [h1, h2, h3, h4, h5, h6, hv]
  rw [if_neg k0, if_neg k0]
  by_cases k1 : key = "auto_boot_seconds".toList
  · rw [if_pos k1, if_pos k1]
    show [_, _, _, _, _, _] = [_, _, _, _, _, _]
    simp only [h1, h2, h3, h4, h5, h6, hv]
  rw [if_neg k1, if_neg k1]
  by_cases k2 : key = "auto_boot_rom".toList
  · rw [if_pos k2, if_pos k2]
    show [_, _, _, _, _, _] = [_, _, _, _, _, _]
    simp only [h1, h2, h3, h4, h5, h6, hv]
  rw [if_neg k2, if_neg k2]
  by_cases k3 : key = "colors".toList
  · rw [if_pos k3, if_pos k3]
    show [_, _, _, _, _, _] = [_, _, _, _, _, _]
    simp only [h1, h2, h3, h4, h5, h6, hv]
  rw [if_neg k3, if_neg k3]
  by_cases k4 : key = "brightness".toList
  · rw [if_pos k4, if_pos k4]
    show [_, _, _, _, _, _] = [_, _, _, _, _, _]
    simp only [h1, h2, h3, h4, h5, h6, hv]
  rw [if_neg k4, if_neg k4]
  by_cases k5 : key = "enable_adb".toList
  · rw [if_pos k5, if_pos k5]
    show [_, _, _, _, _, _] = [_, _, _, _, _, _]
    simp only [h1, h2, h3, h4, h5, h6, hv]
  rw [if_neg k5, if_neg k5]
  by_cases k6 : key = "hide_internal".toList
  · rw [if_pos k6, if_pos k6]
    show [_, _, _, _, _, _] = [_, _, _, _, _, _]
    simp only [h1, h2, h3, h4, h5, h6, hv]
  rw [if_neg k6, if_neg k6]
  by_cases k7 : key = "int_display_name".toList
  · rw [if_pos k7, if_pos k7]
    show [_, _, _, _, _, _] = [_, _, _, _, _, _]
    simp only [h1, h2, h3, h4, h5, h6, hv]
  rw [if_neg k7, if_neg k7]
  by_cases k8 : key = "rotation".toList
  · rw [if_pos k8, if_pos k8]
    show [_, _, _, _, _, _] = [_, _, _, _, _, _]
    simp only [h1, h2, h3, h4, h5, h6, hv]
  rw [if_neg k8, if_neg k8]
  exact h0

theorem intFields_line (cfg cfg' : config) (line : CStr) (h : intFields cfg = intFields cfg') :
    intFields (loadConfig_line cfg line) = intFields (loadConfig_line cfg' line) := by
  unfold loadConfig_line
  cases strtok line with
  | none => exact h
  | some p =>
    obtain ⟨name, rest⟩ := p
    simp only []
    cases strtok rest with
    | none => exact h
    | some q =>
      obtain ⟨val, r⟩ := q
      exact intFields_setField cfg cfg' name val val h rfl

/-- C24 (as stated, refuted): a space at the end of the line
`current_rom=Ubuntu` changes the loaded config: the field is `Ubuntu` with the
space. -/
theorem C24_counterexample :
    (loadConfig 0 (some "current_rom=Ubuntu\n".toList)).current_rom = "Ubuntu".toList
    ∧ (loadConfig 0 (some "current_rom=Ubuntu \n".toList)).current_rom = "Ubuntu ".toList
    ∧ loadConfig 0 (some "current_rom=Ubuntu \n".toList)
        ≠ loadConfig 0 (some "current_rom=Ubuntu\n".toList) := by
  decide

/-- C24 (amended): for every config file whose lines, before and after, have at
most 510 characters, appending spaces, tabs or carriage returns to the end of
lines `key=value` with a value that is not empty does not change the six
integer fields of the loaded config; the value that such a line gives is the
value with the appended characters, which `atoi` reads as the same number and a
string field takes as they are. -/
theorem C24_trailing_blanks_integers (TW_DEFAULT_ROTATION : Int) (ls ls' : List CStr)
    (hrel : List.Forall₂ (fun l l' => l' = l ∨ ∃ key val ws, token key ∧ token val ∧ blanks ws
      ∧ l = key ++ "=".toList ++ val ∧ l' = l ++ ws) ls ls')
    (hs : ∀ l ∈ ls, '\n' ∉ l ∧ l.length ≤ 510) (hs' : ∀ l ∈ ls', '\n' ∉ l ∧ l.length ≤ 510) :
    intFields (loadConfig TW_DEFAULT_ROTATION (some (ls'.flatMap (fun l => l ++ ['\n']))))
      = intFields (loadConfig TW_DEFAULT_ROTATION (some (ls.flatMap (fun l => l ++ ['\n']))))
    ∧ (∀ (cfg : config) (key val ws : CStr), token key → token val → blanks ws →
        loadConfig_line cfg (key ++ "=".toList ++ val ++ ws ++ ['\n'])
          = setField cfg key (val ++ ws)
        ∧ atoi (val ++ ws) = atoi val) := by
  refine ⟨?_, fun cfg key val ws hk hv hws =>
    ⟨loadConfig_line_blanks cfg key val ws hk hv hws, atoi_append_blanks ws hws val⟩⟩
  rw [loadConfig_lines _ ls hs, loadConfig_lines _ ls' hs']
  have key : ∀ (cfg cfg' : config), intFields cfg' = intFields cfg →
      intFields (ls'.foldl (fun c l => loadConfig_line c (l ++ ['\n'])) cfg')
        = intFields (ls.foldl (fun c l => loadConfig_line c (l ++ ['\n'])) cfg) := by
    clear hs hs'
    induction hrel with
    | nil => intro cfg cfg' h; exact h
    | cons hl _ ih =>
      intro cfg cfg' h
      rw [List.foldl_cons, List.foldl_cons]
      apply ih
      rcases hl with e | ⟨key, val, ws, hk, hv, hws, e1, e2⟩
      · rw [e]; exact intFields_line _ _ _ h
      · rw [e2, e1, loadConfig_line_blanks _ key val ws hk hv hws]
        have := loadConfig_line_kv cfg key val hk hv
        have e3 : key ++ "=".toList ++ val ++ ['\n'] = key ++ "=".toList ++ val ++ "\n".toList := rfl
        rw [e3, this]
        exact intFields_setField _ _ key val (val ++ ws) h (atoi_append_blanks ws hws val)
  exact key _ _ rfl

/-- C24 (amended) on a file of three lines, blanks appended to two of them. -/
theorem C24_trailing_blanks_integers_witness :
    intFields (loadConfig 0 (some (["colors=3 \t".toList, "current_rom=Ubuntu".toList,
        "brightness=-7\r".toList].flatMap (fun l => l ++ ['\n']))))
      = intFields (loadConfig 0 (some (["colors=3".toList, "current_rom=Ubuntu".toList,
        "brightness=-7".toList].flatMap (fun l => l ++ ['\n']))))
    ∧ intFields (loadConfig 0 (some (["colors=3 \t".toList, "current_rom=Ubuntu".toList,
        "brightness=-7\r".toList].flatMap (fun l => l ++ ['\n'])))) = [5, 3, -7, 0, 0, 0] :=
  ⟨(C24_trailing_blanks_integers 0
      ["colors=3".toList, "current_rom=Ubuntu".toList, "brightness=-7".toList]
      ["colors=3 \t".toList, "current_rom=Ubuntu".toList, "brightness=-7\r".toList]
      (List.Forall₂.cons
        (Or.inr ⟨"colors".toList, "3".toList, " \t".toList, ⟨by decide, by decide⟩,
          ⟨by decide, by decide⟩, by unfold blanks; decide, rfl, rfl⟩)
        (List.Forall₂.cons (Or.inl rfl)
          (List.Forall₂.cons
            (Or.inr ⟨"brightness".toList, "-7".toList, "\r".toList, ⟨by decide, by decide⟩,
              ⟨by decide, by decide⟩, by unfold blanks; decide, rfl, rfl⟩)
            List.Forall₂.nil)))
      (by decide) (by decide)).1,
   by decide⟩

theorem keyOf_kv (key val : CStr) (hk : token key) (hv : token val) :
    keyOf (key ++ "=".toList ++ val ++ ['\n']) = some key := by
  have e : key ++ "=".toList ++ val ++ ['\n'] = key ++ '=' :: (val ++ '\n' :: []) := by simp
  unfold keyOf
  rw [e, strtok_token key _ '=' hk (by decide)]
  simp only []
  rw [strtok_token val [] '\n' hv (by decide)]

theorem setField_same (cfg : config) (k val : CStr) (hk : k ∈ knownKeys)
    (hi : k ∈ intKeys → ∃ z : Int, val = print_d z) :
    fieldText (setField cfg k val) k = val := by
  simp only [knownKeys, List.mem_cons, List.mem_singleton, List.not_mem_nil, or_false] at hk
  rcases hk with hk | hk | hk | hk | hk | hk | hk | hk | hk
  · subst hk
    rw [fieldText_current_rom]
    unfold setField
    rw [if_pos rfl]
  · subst hk
    obtain ⟨z, hz⟩ := hi (by decide)
    rw [fieldText_auto_boot_seconds]
    unfold setField
    rw [if_neg (by decide), if_pos rfl]
    show print_d (atoi val) = val
    rw [hz, atoi_print_d]
  · subst hk
    rw [fieldText_auto_boot_rom]
    unfold setField
    rw [if_neg (by decide), if_neg (by decide), if_pos rfl]
  · subst hk
    obtain ⟨z, hz⟩ := hi (by decide)
    rw [fieldText_colors]
    unfold setField
    rw [if_neg (by decide), if_neg (by decide), if_neg (by decide), if_pos rfl]
    show print_d (atoi val) = val
    rw [hz, atoi_print_d]
  · subst hk
    obtain ⟨z, hz⟩ := hi (by decide)
    rw [fieldText_brightness]
    unfold setField
    rw [if_neg (by decide), if_neg (by decide), if_neg (by decide), if_neg (by decide), if_pos rfl]
    show print_d (atoi val) = val
    rw [hz, atoi_print_d]
  · subst hk
    obtain ⟨z, hz⟩ := hi (by decide)
    rw [fieldText_enable_adb]
    unfold setField
    rw [if_neg (by decide), if_neg (by decide), if_neg (by decide), if_neg (by decide), if_neg (by decide), if_pos rfl]
    show print_d (atoi val) = val
    rw [hz, atoi_print_d]
  · subst hk
    obtain ⟨z, hz⟩ := hi (by decide)
    rw [fieldText_hide_internal]
    unfold setField
    rw [if_neg (by decide), if_neg (by decide), if_neg (by decide), if_neg (by decide), if_neg (by decide), if_neg (by decide), if_pos rfl]
    show print_d (atoi val) = val
    rw [hz, atoi_print_d]
  · subst hk
    rw [fieldText_int_display_name]
    unfold setField
    rw [if_neg (by decide), if_neg (by decide), if_neg (by decide), if_neg (by decide), if_neg (by decide), if_neg (by decide), if_neg (by decide), if_pos rfl]
  · subst hk
    obtain ⟨z, hz⟩ := hi (by decide)
    rw [fieldText_rotation]
    unfold setField
    rw [if_neg (by decide), if_neg (by decide), if_neg (by decide), if_neg (by decide), if_neg (by decide), if_neg (by decide), if_neg (by decide), if_neg (by decide), if_pos rfl]
    show print_d (atoi val) = val
    rw [hz, atoi_print_d]

theorem saveConfig_lines (cfg : config) :
    saveConfig cfg = (knownKeys.map (savedLine cfg)).flatMap (fun l => l ++ ['\n']) := by
  unfold knownKeys savedLine
  simp only [List.map_cons, List.map_nil, List.flatMap_cons, List.flatMap_nil, List.append_nil]
  rw [fieldText_current_rom, fieldText_auto_boot_seconds, fieldText_auto_boot_rom, fieldText_colors, fieldText_brightness, fieldText_enable_adb, fieldText_hide_internal, fieldText_int_display_name, fieldText_rotation]
  unfold saveConfig
  simp only [List.append_assoc]
  rfl

theorem token_known (k : CStr) (hk : k ∈ knownKeys) : token k := by
  simp only [knownKeys, List.mem_cons, List.mem_singleton, List.not_mem_nil, or_false] at hk
  rcases hk with rfl | rfl | rfl | rfl | rfl | rfl | rfl | rfl | rfl <;>
    exact ⟨by decide, by decide⟩

theorem foldl_last (k val : CStr) (hk : k ∈ knownKeys) (hv : token val)
    (hi : k ∈ intKeys → ∃ z : Int, val = print_d z) (a b : List CStr) (cfg : config)
    (hb : ∀ l ∈ b, keyOf (l ++ ['\n']) ≠ some k) :
    fieldText ((a ++ (k ++ "=".toList ++ val) :: b).foldl
      (fun c l => loadConfig_line c (l ++ ['\n'])) cfg) k = val := by
  rw [List.foldl_append, List.foldl_cons, foldl_absent k b _ hb]
  have := loadConfig_line_kv (a.foldl (fun c l => loadConfig_line c (l ++ ['\n'])) cfg) k val
    (token_known k hk) hv
  have e : k ++ "=".toList ++ val ++ ['\n'] = k ++ "=".toList ++ val ++ "\n".toList := rfl
  rw [e, this]
  exact setField_same _ k val hk hi
/-- C22 (as stated, refuted): for the empty file `saveConfig(loadConfig(f))`
holds the nine lines of the defaults, and the line `colors=007` comes back as
`colors=7`. -/
theorem C22_counterexample :
    saveConfig (loadConfig 0 (some []))
      = ("current_rom=Internal\nauto_boot_seconds=5\nauto_boot_rom=Internal\ncolors=0\n"
          ++ "brightness=40\nenable_adb=0\nhide_internal=0\nint_display_name=Internal\n"
          ++ "rotation=0\n").toList
    ∧ keyOf "colors=007\n".toList = some "colors".toList
    ∧ (strstr (saveConfig (loadConfig 0 (some "colors=007\n".toList))) "colors=007".toList).isSome
        = false
    ∧ (strstr (saveConfig (loadConfig 0 (some "colors=007\n".toList))) "colors=7\n".toList).isSome
        = true := by
  decide

/-- C22 (amended): for every config file whose lines have at most 510
characters and which holds, possibly among lines with other keys, exactly one
line for each of the nine known keys, of the form `key=value` with a value that
is not empty and holds no `=`, the values of the integer keys written the way
`%d` prints them, the file written by `saveConfig(loadConfig(f))` holds the
lines of `f` that have a known key, in the order of `saveConfig`, and no
others. -/
theorem C22_round_trip_canonical (TW_DEFAULT_ROTATION : Int) (ls : List CStr)
    (hs : ∀ l ∈ ls, '\n' ∉ l ∧ l.length ≤ 510)
    (hcanon : ∀ l ∈ ls, hasKnownKey l = true →
      ∃ k val, k ∈ knownKeys ∧ token val ∧ l = k ++ "=".toList ++ val
        ∧ (k ∈ intKeys → ∃ z : Int, val = print_d z))
    (honce : ((ls.filter hasKnownKey).map (fun l => keyOf (l ++ ['\n']))).Perm
      (knownKeys.map some)) :
    ∃ out : List CStr,
      saveConfig (loadConfig TW_DEFAULT_ROTATION (some (ls.flatMap (fun l => l ++ ['\n']))))
        = out.flatMap (fun l => l ++ ['\n'])
      ∧ (∀ l ∈ out, '\n' ∉ l)
      ∧ out.Perm (ls.filter hasKnownKey) := by
  rw [loadConfig_lines _ ls hs]
  generalize hcfg : ls.foldl (fun c l => loadConfig_line c (l ++ ['\n']))
    (config_default TW_DEFAULT_ROTATION) = cfg
  have hnd : ((ls.filter hasKnownKey).map (fun l => keyOf (l ++ ['\n']))).Nodup :=
    honce.nodup_iff.2 (by decide)
  have hfield : ∀ l ∈ ls.filter hasKnownKey,
      ∃ k, k ∈ knownKeys ∧ keyOf (l ++ ['\n']) = some k ∧ l = savedLine cfg k := by
    intro l hl
    obtain ⟨hl1, hl2⟩ := List.mem_filter.1 hl
    obtain ⟨k, val, hk, hv, e, hi⟩ := hcanon l hl1 hl2
    have hkey : keyOf (l ++ ['\n']) = some k := by rw [e]; exact keyOf_kv k val (token_known k hk) hv
    refine ⟨k, hk, hkey, ?_⟩
    obtain ⟨a, b, hab⟩ := List.append_of_mem hl1
    have hb : ∀ l' ∈ b, keyOf (l' ++ ['\n']) ≠ some k := by
      intro l' hl' hk'
      have hkn : hasKnownKey l' = true := by
        unfold hasKnownKey; rw [hk']; simpa using hk
      rw [hab, List.filter_append, List.filter_cons, if_pos hl2, List.map_append, List.map_cons,
        hkey] at hnd
      have h1 := (List.nodup_append.1 hnd).2.1
      rw [List.nodup_cons] at h1
      exact h1.1 (List.mem_map.2 ⟨l', List.mem_filter.2 ⟨hl', hkn⟩, hk'⟩)
    have := foldl_last k val hk hv hi a b (config_default TW_DEFAULT_ROTATION) hb
    rw [← e, ← hab, hcfg] at this
    unfold savedLine
    rw [this, e]
  refine ⟨knownKeys.map (savedLine cfg), saveConfig_lines cfg, ?_, ?_⟩
  · intro l hl
    have hmem : l ∈ ls.filter hasKnownKey := by
      obtain ⟨k, hk, rfl⟩ := List.mem_map.1 hl
      have : some k ∈ (ls.filter hasKnownKey).map (fun l => keyOf (l ++ ['\n'])) :=
        honce.mem_iff.2 (List.mem_map.2 ⟨k, hk, rfl⟩)
      obtain ⟨l', hl', hk'⟩ := List.mem_map.1 this
      obtain ⟨k2, _, hk2, e2⟩ := hfield l' hl'
      rw [hk2] at hk'
      rw [← Option.some.inj hk', ← e2]
      exact hl'
    exact (hs l (List.mem_filter.1 hmem).1).1
  · have e1 : ls.filter hasKnownKey
        = ((ls.filter hasKnownKey).map (fun l => keyOf (l ++ ['\n']))).map
            (fun o => savedLine cfg (o.getD [])) := by
      rw [List.map_map]
      conv_lhs => rw [← List.map_id (ls.filter hasKnownKey)]
      apply List.map_congr_left
      intro l hl
      obtain ⟨k, _, hk, e⟩ := hfield l hl
      simp only [Function.comp, hk, Option.getD_some, id]
      exact e
    have e2 : knownKeys.map (savedLine cfg)
        = (knownKeys.map some).map (fun o => savedLine cfg (o.getD [])) := by
      rw [List.map_map]
      rfl
    rw [e1, e2]
    exact (honce.map _).symm

/-- C22 (amended) on a file with the nine keys in another order and a line with
an unknown key. -/
theorem C22_round_trip_canonical_witness :
    ∃ out : List CStr,
      saveConfig (loadConfig 0 (some (iniShuffled.flatMap (fun l => l ++ ['\n']))))
        = out.flatMap (fun l => l ++ ['\n'])
      ∧ (∀ l ∈ out, '\n' ∉ l)
      ∧ out.Perm (iniShuffled.filter hasKnownKey) :=
  C22_round_trip_canonical 0 iniShuffled (by decide)
    (fun l hl hk => by
      simp only [iniShuffled, List.mem_cons, List.mem_singleton, List.not_mem_nil, or_false] at hl
      rcases hl with rfl | rfl | rfl | rfl | rfl | rfl | rfl | rfl | rfl | rfl
      · exact ⟨"rotation".toList, "90".toList, by decide, ⟨by decide, by decide⟩, by decide,
          fun _ => ⟨90, by decide⟩⟩
      · exact absurd hk (by decide)
      · exact ⟨"current_rom".toList, "My ROM".toList, by decide, ⟨by decide, by decide⟩, by decide,
          fun h => absurd h (by decide)⟩
      · exact ⟨"colors".toList, "2".toList, by decide, ⟨by decide, by decide⟩, by decide,
          fun _ => ⟨2, by decide⟩⟩
      · exact ⟨"auto_boot_rom".toList, "Internal".toList, by decide, ⟨by decide, by decide⟩, by decide,
          fun h => absurd h (by decide)⟩
      · exact ⟨"brightness".toList, "40".toList, by decide, ⟨by decide, by decide⟩, by decide,
          fun _ => ⟨40, by decide⟩⟩
      · exact ⟨"int_display_name".toList, "Stock".toList, by decide, ⟨by decide, by decide⟩, by decide,
          fun h => absurd h (by decide)⟩
      · exact ⟨"auto_boot_seconds".toList, "-1".toList, by decide, ⟨by decide, by decide⟩, by decide,
          fun _ => ⟨-1, by decide⟩⟩
      · exact ⟨"hide_internal".toList, "0".toList, by decide, ⟨by decide, by decide⟩, by decide,
          fun _ => ⟨0, by decide⟩⟩
      · exact ⟨"enable_adb".toList, "1".toList, by decide, ⟨by decide, by decide⟩, by decide,
          fun _ => ⟨1, by decide⟩⟩
    )
    (List.isPerm_iff.1 (by decide))

theorem trimTrailing_line (b : CStr) (hlast : ∃ c, b.getLast? = some c ∧ isspace c = false) :
    trimTrailing (b ++ ['\n']) = some b := by
  obtain ⟨c, hc, hs⟩ := hlast
  obtain ⟨b', rfl⟩ := List.getLast?_eq_some_iff.1 hc
  unfold trimTrailing
  rw [List.reverse_append, List.reverse_append]
  simp only [List.reverse_cons, List.reverse_nil, List.nil_append, List.singleton_append,
    List.cons_append]
  rw [trimTrailing_rev, if_pos (by decide), trimTrailing_rev, hs]
  simp

/-- C30: in the state that a successful `fakeBootPartition` leaves — the boot
device path, which is not empty and does not end in white space, is a symbolic
link, the `-orig` name holds the original node, the breadcrumb holds the device
path — `failsafeCheckBootPartition` leaves the filesystem that
`restoreBootPartition` leaves: the boot device path names the original node
again, and neither the `-orig` name nor the breadcrumb exists. -/
theorem C30_failsafe_as_restore (m_boot_dev target : CStr) (F : FS) (n : Node)
    (hlast : ∃ c, m_boot_dev.getLast? = some c ∧ isspace c = false)
    (f1 : lstat F m_boot_dev = some (Node.symlink target))
    (f2 : lstat F (m_boot_dev ++ "-orig".toList) = some n) (hnd : n ≠ Node.dir)
    (f3 : lstat F breadcrumb = some (Node.file (m_boot_dev ++ ['\n']))) :
    failsafeCheckBootPartition F = some (restoreBootPartition m_boot_dev F)
    ∧ lstat (restoreBootPartition m_boot_dev F) m_boot_dev = some n
    ∧ lstat (restoreBootPartition m_boot_dev F) (m_boot_dev ++ "-orig".toList) = none
    ∧ lstat (restoreBootPartition m_boot_dev F) breadcrumb = none := by
  have hbc : normpath m_boot_dev ≠ normpath breadcrumb := by
    intro e
    unfold lstat at f1 f3
    rw [e, f3] at f1
    cases f1
  have hbc' : normpath breadcrumb ≠ normpath m_boot_dev := fun h => hbc h.symm
  have hob := normpath_orig_ne m_boot_dev
  have hoc := normpath_orig_ne_breadcrumb m_boot_dev
  have hoc' : normpath breadcrumb ≠ normpath (m_boot_dev ++ "-orig".toList) := fun h => hoc h.symm
  have hacc : access F (m_boot_dev ++ "-orig".toList) = true := by
    unfold access; rw [f2]; rfl
  have haccb : access F breadcrumb = true := by
    unfold access; rw [f3]; rfl
  have hread : read_file F breadcrumb = some (m_boot_dev ++ ['\n']) := by
    unfold read_file; rw [f3]; rfl
  have hfs : failsafeCheckBootPartition F = some (restoreBootPartition m_boot_dev F) := by
    unfold failsafeCheckBootPartition restoreBootPartition
    simp only [haccb, hread, trimTrailing_line m_boot_dev hlast, hacc, f1, existsNotLink,
      Bool.not_true, Bool.false_eq_true, if_false, Bool.or_self]
  refine ⟨hfs, ?_⟩
  have r1 := sh_rm_eq F m_boot_dev _ f1 (by simp)
  have g2 : lstat (erase F m_boot_dev) (m_boot_dev ++ "-orig".toList) = some n := by
    rw [lstat_erase, if_neg hob, f2]
  have g1 : lstat (erase F m_boot_dev) m_boot_dev ≠ some Node.dir := by
    rw [lstat_erase, if_pos rfl]; simp
  have r2 := sh_mv_eq (erase F m_boot_dev) (m_boot_dev ++ "-orig".toList) m_boot_dev n g2 hnd g1
  have g3 : lstat (write (erase (erase F m_boot_dev) (m_boot_dev ++ "-orig".toList)) m_boot_dev n)
      breadcrumb = some (Node.file (m_boot_dev ++ ['\n'])) := by
    rw [lstat_write, if_neg hbc', lstat_erase, if_neg hoc', lstat_erase, if_neg hbc', f3]
  have r3 := remove_eq _ breadcrumb _ g3 (by simp)
  have hR : restoreBootPartition m_boot_dev F
      = erase (write (erase (erase F m_boot_dev) (m_boot_dev ++ "-orig".toList)) m_boot_dev n)
          breadcrumb := by
    unfold restoreBootPartition
    simp only [hacc, r1, r2, r3]
    simp
  rw [hR]
  refine ⟨?_, ?_, ?_⟩
  · rw [lstat_erase, if_neg hbc, lstat_write, if_pos rfl]
  · rw [lstat_erase, if_neg hoc, lstat_write, if_neg hob, lstat_erase, if_pos rfl]
  · rw [lstat_erase, if_pos rfl]

/-- C30 on the recovery filesystem after `fakeBootPartition` with the image of
ROM `A`, which succeeds. -/
theorem C30_failsafe_as_restore_witness :
    (fakeBootPartition bootDev imgA fsRecovery).1 = true
    ∧ failsafeCheckBootPartition (fakeBootPartition bootDev imgA fsRecovery).2
        = some (restoreBootPartition bootDev (fakeBootPartition bootDev imgA fsRecovery).2)
    ∧ lstat (restoreBootPartition bootDev (fakeBootPartition bootDev imgA fsRecovery).2) bootDev
        = some (Node.blockdev "ANDROID!".toList)
    ∧ lstat (restoreBootPartition bootDev (fakeBootPartition bootDev imgA fsRecovery).2)
        (bootDev ++ "-orig".toList) = none
    ∧ lstat (restoreBootPartition bootDev (fakeBootPartition bootDev imgA fsRecovery).2)
        breadcrumb = none :=
  ⟨by decide,
   C30_failsafe_as_restore bootDev imgA (fakeBootPartition bootDev imgA fsRecovery).2
     (Node.blockdev "ANDROID!".toList) ⟨'2', by decide, by decide⟩ (by decide) (by decide)
     (by decide) (by decide)⟩

/-! ## Queued scripts -/

theorem scan_eq_queued (env : ScriptEnv) (roms : CStr) (fs : FS) :
    ∀ (entries : List dirent) (s : script_t),
    entries.foldl (scanStep env roms fs) s = (queued env roms fs entries).foldl newer s
  | [], _ => rfl
  | dt :: rest, s => by
    rw [List.foldl_cons, scan_eq_queued env roms fs rest]
    unfold queued
    rw [List.filterMap_cons]
    unfold scanStep
    by_cases h1 : dt.d_type ≠ DT_DIR ∨ dt.d_name.head? = some '.'
    · simp only [if_pos h1]
    · simp only [if_neg h1]
      cases h2 : scriptPath env roms dt.d_name (M (getType roms fs dt.d_name)) with
      | none => simp only []
      | some path =>
        simp only []
        cases h3 : env.st_mtime path with
        | none => simp only [Option.map_none']
        | some t =>
          simp only [Option.map_some', List.foldl_cons]
          rfl

theorem foldl_newer_spec : ∀ (cands : List script_t) (s : script_t),
    (∀ c ∈ cands, c.mtime ≤ (cands.foldl newer s).mtime)
    ∧ s.mtime ≤ (cands.foldl newer s).mtime
    ∧ ((cands.foldl newer s = s ∧ ∀ c ∈ cands, c.mtime ≤ s.mtime)
      ∨ ∃ pre post, cands = pre ++ cands.foldl newer s :: post
          ∧ (∀ c ∈ pre, c.mtime < (cands.foldl newer s).mtime)
          ∧ s.mtime < (cands.foldl newer s).mtime
          ∧ ∀ c ∈ post, c.mtime ≤ (cands.foldl newer s).mtime)
  | [], s => ⟨fun _ h => absurd h (List.not_mem_nil _), le_refl _,
      Or.inl ⟨rfl, fun _ h => absurd h (List.not_mem_nil _)⟩⟩
  | c :: cs, s => by
    rw [List.foldl_cons]
    by_cases h : c.mtime > s.mtime
    · have hn : newer s c = c := by unfold newer; rw [if_pos h]
      rw [hn]
      obtain ⟨i1, i2, i3⟩ := foldl_newer_spec cs c
      refine ⟨fun x hx => ?_, by omega, Or.inr ?_⟩
      · rcases List.mem_cons.1 hx with e | e
        · rw [e]; exact i2
        · exact i1 x e
      · rcases i3 with ⟨e, hall⟩ | ⟨pre, post, e, hpre, hlt, hpost⟩
        · refine ⟨[], cs, by rw [e]; rfl, fun _ hx => absurd hx (List.not_mem_nil _), by rw [e]; exact h,
            fun x hx => by rw [e]; exact hall x hx⟩
        · refine ⟨c :: pre, post, by rw [List.cons_append, ← e], fun x hx => ?_, by omega, hpost⟩
          rcases List.mem_cons.1 hx with e' | e'
          · rw [e']; exact hlt
          · exact hpre x e'
    · have hn : newer s c = s := by unfold newer; rw [if_neg h]
      rw [hn]
      obtain ⟨i1, i2, i3⟩ := foldl_newer_spec cs s
      refine ⟨fun x hx => ?_, i2, ?_⟩
      · rcases List.mem_cons.1 hx with e | e
        · rw [e]; omega
        · exact i1 x e
      · rcases i3 with ⟨e, hall⟩ | ⟨pre, post, e, hpre, hlt, hpost⟩
        · refine Or.inl ⟨e, fun x hx => ?_⟩
          rcases List.mem_cons.1 hx with e' | e'
          · rw [e']; omega
          · exact hall x e'
        · refine Or.inr ⟨c :: pre, post, by rw [List.cons_append, ← e], fun x hx => ?_, hlt, hpost⟩
          rcases List.mem_cons.1 hx with e' | e'
          · rw [e']; omega
          · exact hpre x e'

/-- C25 (as stated, refuted): the Android ROM `A` has a queued script; when the
modification time of the script is 0 nothing is selected and nothing is run,
and when `changeMounts` fails for the ROM no script is run either. -/
theorem C25_counterexample :
    queued (envQueued 0 true) "/data/media/0/multirom/roms/".toList fsTwoRoms
        ((opendir fsTwoRoms "/data/media/0/multirom/roms/".toList).getD [])
      = [{ mtime := 0, name := "A".toList, type := M ROM_ANDROID_INTERNAL }]
    ∧ executeCacheScripts (envQueued 0 true) true "/data/media/0/multirom/roms/".toList fsTwoRoms
        (opendir fsTwoRoms "/data/media/0/multirom/roms/".toList) = ScriptOutcome.nothing
    ∧ queued (envQueued 1700000000 false) "/data/media/0/multirom/roms/".toList fsTwoRoms
        ((opendir fsTwoRoms "/data/media/0/multirom/roms/".toList).getD [])
      = [{ mtime := 1700000000, name := "A".toList, type := M ROM_ANDROID_INTERNAL }]
    ∧ executeCacheScripts (envQueued 1700000000 false) true "/data/media/0/multirom/roms/".toList
        fsTwoRoms (opendir fsTwoRoms "/data/media/0/multirom/roms/".toList)
      = ScriptOutcome.mounts_failed "A".toList := by
  decide

/-- C25 (amended): among the ROMs of the ROMs directory that are Android with a
queued openrecoveryscript or Ubuntu Touch with a queued ubuntu_command file,
`executeCacheScripts` keeps one whose script has the greatest modification time
of all, the first such in the order of the directory.  When that time is not 0
it calls `changeMounts` and `fakeBootPartition` for this ROM and runs the script
exactly when both succeed; when the time is 0, and so when there is no such
ROM, it performs no mount and no boot hijack. -/
theorem C25_newest_script (env : ScriptEnv) (m_curr_roms_path : CStr) (fs : FS)
    (entries : List dirent) :
    ∃ sel : script_t,
      (∀ c ∈ queued env m_curr_roms_path fs entries, c.mtime ≤ sel.mtime)
      ∧ (sel.mtime = 0 →
          executeCacheScripts env true m_curr_roms_path fs (some entries) = ScriptOutcome.nothing)
      ∧ (sel.mtime ≠ 0 →
          (∃ pre post, queued env m_curr_roms_path fs entries = pre ++ sel :: post
            ∧ (∀ c ∈ pre, c.mtime < sel.mtime) ∧ ∀ c ∈ post, c.mtime ≤ sel.mtime)
          ∧ executeCacheScripts env true m_curr_roms_path fs (some entries)
              = if env.changeMounts_ok sel.name = false then ScriptOutcome.mounts_failed sel.name
                else if env.fakeBootPartition_ok sel.name = false
                then ScriptOutcome.boot_failed sel.name
                else ScriptOutcome.ran sel.name sel.type)
      ∧ (queued env m_curr_roms_path fs entries = [] →
          executeCacheScripts env true m_curr_roms_path fs (some entries) = ScriptOutcome.nothing)
      ∧ executeCacheScripts env true m_curr_roms_path fs none = ScriptOutcome.nothing
      ∧ executeCacheScripts env false m_curr_roms_path fs (some entries)
          = ScriptOutcome.nothing := by
  obtain ⟨i1, _, i3⟩ := foldl_newer_spec (queued env m_curr_roms_path fs entries)
    { mtime := 0, name := [], type := 0 }
  have hsel := scan_eq_queued env m_curr_roms_path fs entries { mtime := 0, name := [], type := 0 }
  generalize hq : (queued env m_curr_roms_path fs entries).foldl newer
    { mtime := 0, name := [], type := 0 } = sel at i1 i3 hsel
  have hex : executeCacheScripts env true m_curr_roms_path fs (some entries)
      = if sel.mtime = 0 then ScriptOutcome.nothing
        else if env.changeMounts_ok sel.name = false then ScriptOutcome.mounts_failed sel.name
        else if env.fakeBootPartition_ok sel.name = false then ScriptOutcome.boot_failed sel.name
        else ScriptOutcome.ran sel.name sel.type := by
    unfold executeCacheScripts
    simp only [hsel, Bool.not_true, Bool.false_eq_true, if_false, Bool.not_eq_true']
  refine ⟨sel, i1, fun h0 => by rw [hex, if_pos h0], fun h0 => ⟨?_, by rw [hex, if_neg h0]⟩,
    fun hempty => ?_, rfl, rfl⟩
  · rcases i3 with ⟨e, _⟩ | ⟨pre, post, e, hpre, _, hpost⟩
    · rw [e] at h0; exact absurd rfl h0
    · exact ⟨pre, post, e, hpre, hpost⟩
  · rw [hempty] at hq
    rw [hex, if_pos (by rw [← hq]; rfl)]

end MultiROM
